import Mathlib

/-!
Verification development for the eir compiler middle-end.

This file gives a shallow embedding of the parts of the repository that the
frozen claims talk about, and settles each claim as a theorem:

1. the listing lexer (src/util/libeir_util_parse_listing/src/token.rs),
2. the HIR SSA pass (src/compiler/src/ir/hir/pass/ssa.rs) together with a
   scope tracker modelled from the specification (the scope tracker source
   is not part of the provided sources),
3. the CPS transform (src/cps_transform/src/lib.rs) together with the LIR
   function, builder and liveness interfaces modelled from the
   specification (the eir crate is not part of the provided sources).

All loops of the source are embedded with explicit fuel so that every
definition is executable by kernel reduction.  Rust panics (panic,
unimplemented, assert, index-out-of-bounds, unwrap of None) are embedded as
an Except error value; a theorem stating that a run ends in Except.error
therefore states that the corresponding Rust execution aborts.
-/

set_option autoImplicit false

/-! # Part 1: the listing lexer (token.rs) -/

/-- Character constant: the NUL character, which the scanner yields at end of
input. -/
def nulChar : Char := Char.ofNat 0

/-- Character constant: a single quote (the quoted-atom delimiter). -/
def quoteChar : Char := Char.ofNat 39

/-- Character constant: a double quote (the string delimiter). -/
def dquoteChar : Char := Char.ofNat 34

/-- Character constant: a backslash (the escape character). -/
def backslashChar : Char := Char.ofNat 92

/-- Character constant: an opening curly brace. -/
def curlyOpenChar : Char := Char.ofNat 123

/-- Character constant: a closing curly brace. -/
def curlyCloseChar : Char := Char.ofNat 125

/-- Modelled from the spec: the behaviour of Rust char::is_whitespace on the
Latin-1 range (code points below 0x100).  The model restricts lexer inputs to
this range; theorems about arbitrary inputs carry that restriction as a
hypothesis. -/
def rustIsWhitespace (c : Char) : Bool :=
  let n := c.toNat
  n == 0x9 || n == 0xA || n == 0xB || n == 0xC || n == 0xD ||
  n == 0x20 || n == 0x85 || n == 0xA0

/-- Rust char::is_digit(10): an ASCII decimal digit. -/
def rustIsDigit10 (c : Char) : Bool :=
  0x30 ≤ c.toNat && c.toNat ≤ 0x39

/-- Rust char::is_ascii_lowercase. -/
def rustIsAsciiLowercase (c : Char) : Bool :=
  0x61 ≤ c.toNat && c.toNat ≤ 0x7A

/-- Modelled from the spec: Rust char::is_alphanumeric (Unicode alphabetic or
numeric), faithful on the Latin-1 range (code points below 0x100).  In that
range the alphanumeric characters are the ASCII letters and digits, the
code points 0xAA, 0xB2, 0xB3, 0xB5, 0xB9, 0xBA, 0xBC, 0xBD, 0xBE, and
0xC0 to 0xFF except the multiplication sign 0xD7 and the division sign
0xF7. -/
def rustIsAlphanumeric (c : Char) : Bool :=
  let n := c.toNat
  (0x41 ≤ n && n ≤ 0x5A) || (0x61 ≤ n && n ≤ 0x7A) ||
  (0x30 ≤ n && n ≤ 0x39) ||
  n == 0xAA || n == 0xB2 || n == 0xB3 || n == 0xB5 || n == 0xB9 ||
  n == 0xBA || n == 0xBC || n == 0xBD || n == 0xBE ||
  (0xC0 ≤ n && n ≤ 0xFF && !(n == 0xD7) && !(n == 0xF7))

/-- Token type of the listing lexer.  Atom and String carry the interned
character data; Integer carries the parsed decimal value; Float carries the
raw consumed slice (the 64-bit float parse of the source is kept symbolic,
no claim depends on the numeric value). -/
inductive LToken where
  | eof
  | comma
  | dot
  | pipe
  | squareOpen
  | squareClose
  | curlyOpen
  | curlyClose
  | atom (sym : List Char)
  | str (sym : List Char)
  | integer (val : Nat)
  | float (slice : List Char)
  deriving DecidableEq, Repr

/-- Abort reasons of the lexer.  Each constructor corresponds to a Rust
panic site in token.rs: badEscape is the unimplemented escape handling in
lex_quoted_atom and lex_string, badChar the unimplemented fallthrough of
tokenize, assertFailed a failing debug_assert, unterminated a quoted atom or
string that never closes (where the source would loop on the NUL sentinel),
intParse a failing integer parse, and fuelOut exhaustion of the model's
fuel (never reached with adequate fuel). -/
inductive LexAbort where
  | badEscape
  | badChar (c : Char)
  | assertFailed
  | unterminated
  | intParse
  | fuelOut
  deriving DecidableEq, Repr

/-- Modelled from the spec: the Scanner of libeir_util_parse.  It holds the
input and a cursor; reading past the end yields the NUL sentinel. -/
structure Scanner where
  input : List Char
  pos : Nat
  deriving DecidableEq, Repr

/-- Scanner read: the character under the cursor, NUL at end of input. -/
def Scanner.readChar (s : Scanner) : Char :=
  s.input.getD s.pos nulChar

/-- Scanner peek: the character one past the cursor. -/
def Scanner.peekChar (s : Scanner) : Char :=
  s.input.getD (s.pos + 1) nulChar

/-- Scanner advance: move the cursor one character forward. -/
def Scanner.forward (s : Scanner) : Scanner :=
  { s with pos := s.pos + 1 }

/-- State of the Lexer struct in token.rs: the scanner, the lookahead
token, the current token span, the eof flag and the string buffer. -/
structure LexState where
  scanner : Scanner
  token : LToken
  tokenStart : Nat
  tokenEnd : Nat
  eofFlag : Bool
  strBuf : List Char
  deriving DecidableEq, Repr

/-- Lexer pop: read the character under the cursor, advance, and set
token_end past the popped character. -/
def LexState.popChar (st : LexState) : Char × LexState :=
  (st.scanner.readChar,
   { st with scanner := st.scanner.forward, tokenEnd := st.scanner.pos + 1 })

/-- Lexer skip: pop and discard. -/
def LexState.skipChar (st : LexState) : LexState :=
  (st.popChar).2

/-- Lexer slice: the consumed characters between token_start and
token_end. -/
def LexState.slice (st : LexState) : List Char :=
  (st.scanner.input.drop st.tokenStart).take (st.tokenEnd - st.tokenStart)

/-- Loop of lex_unquoted_atom: skip while the read character is an
underscore, an at sign, an ASCII digit, or alphanumeric. -/
def unquotedAtomLoop (fuel : Nat) (st : LexState) : LexState :=
  match fuel with
  | 0 => st
  | fuel + 1 =>
    let c := st.scanner.readChar
    if c = '_' then unquotedAtomLoop fuel st.skipChar
    else if c = '@' then unquotedAtomLoop fuel st.skipChar
    else if rustIsDigit10 c then unquotedAtomLoop fuel st.skipChar
    else if rustIsAlphanumeric c then unquotedAtomLoop fuel st.skipChar
    else st

/-- The function lex_unquoted_atom of token.rs.  Pops the first character,
checks the debug assertion that it is ASCII lowercase, consumes the
continuation run and interns the consumed slice as an Atom token. -/
def lexUnquotedAtom (fuel : Nat) (st0 : LexState) : Except LexAbort (LToken × LexState) :=
  let c := (st0.popChar).1
  let st := (st0.popChar).2
  if rustIsAsciiLowercase c then
    let st := unquotedAtomLoop fuel st
    .ok (.atom st.slice, st)
  else
    .error .assertFailed

/-- Loop of lex_quoted_atom: a backslash is an unimplemented escape (the
source panics), a closing quote ends the atom, any other character is pushed
to the string buffer.  Reading the NUL sentinel means the input ended with
the atom unterminated; the source would then loop on the sentinel forever,
the model aborts. -/
def quotedAtomLoop (fuel : Nat) (st : LexState) : Except LexAbort LexState :=
  match fuel with
  | 0 => .error .fuelOut
  | fuel + 1 =>
    let c := st.scanner.readChar
    if c = backslashChar then .error .badEscape
    else if c = quoteChar then .ok st.skipChar
    else if c = nulChar then .error .unterminated
    else quotedAtomLoop fuel { st.skipChar with strBuf := st.strBuf ++ [c] }

/-- The function lex_quoted_atom of token.rs. -/
def lexQuotedAtom (fuel : Nat) (st0 : LexState) : Except LexAbort (LToken × LexState) :=
  let c := (st0.popChar).1
  let st := (st0.popChar).2
  if c = quoteChar then
    match quotedAtomLoop fuel { st with strBuf := [] } with
    | .error e => .error e
    | .ok st1 => .ok (.atom st1.strBuf, st1)
  else
    .error .assertFailed

/-- Loop of lex_string, identical to the quoted-atom loop with a double
quote delimiter. -/
def stringLoop (fuel : Nat) (st : LexState) : Except LexAbort LexState :=
  match fuel with
  | 0 => .error .fuelOut
  | fuel + 1 =>
    let c := st.scanner.readChar
    if c = backslashChar then .error .badEscape
    else if c = dquoteChar then .ok st.skipChar
    else if c = nulChar then .error .unterminated
    else stringLoop fuel { st.skipChar with strBuf := st.strBuf ++ [c] }

/-- The function lex_string of token.rs. -/
def lexString (fuel : Nat) (st0 : LexState) : Except LexAbort (LToken × LexState) :=
  let c := (st0.popChar).1
  let st := (st0.popChar).2
  if c = dquoteChar then
    match stringLoop fuel { st with strBuf := [] } with
    | .error e => .error e
    | .ok st1 => .ok (.str st1.strBuf, st1)
  else
    .error .assertFailed

/-- Digit run: skip while the read character is an ASCII digit (used by
lex_number and lex_float; skip and pop have the same state effect). -/
def digitSkipLoop (fuel : Nat) (st : LexState) : LexState :=
  match fuel with
  | 0 => st
  | fuel + 1 =>
    if rustIsDigit10 st.scanner.readChar then digitSkipLoop fuel st.skipChar
    else st

/-- Decimal parse of a digit string, the model of
Integer::from_string_radix with radix 10 on an all-digit slice. -/
def parseDecNat (s : List Char) : Option Nat :=
  match s with
  | [] => none
  | _ =>
    if s.all (fun c => rustIsDigit10 c) then
      some (s.foldl (fun acc c => acc * 10 + (c.toNat - 0x30)) 0)
    else
      none

/-- The function lex_float of token.rs: pop the first fractional digit
(asserting it is a digit), consume the remaining digits, and parse the whole
consumed slice as a float.  The float value is kept as the raw slice. -/
def lexFloat (fuel : Nat) (st0 : LexState) : Except LexAbort (LToken × LexState) :=
  let c := (st0.popChar).1
  let st := (st0.popChar).2
  if rustIsDigit10 c then
    let st := digitSkipLoop fuel st
    .ok (.float st.slice, st)
  else
    .error .assertFailed

/-- The function lex_number of token.rs: pop the first character (asserting
sign or digit), consume the digit run; on a dot followed by a digit consume
the dot and continue as a float, otherwise intern the consumed slice as an
Integer. -/
def lexNumber (fuel : Nat) (st0 : LexState) : Except LexAbort (LToken × LexState) :=
  let c := (st0.popChar).1
  let st := (st0.popChar).2
  if c = '-' ∨ c = '+' ∨ rustIsDigit10 c then
    let st := digitSkipLoop fuel st
    let c2 := st.scanner.readChar
    if c2 = '.' then
      if rustIsDigit10 st.scanner.peekChar then
        lexFloat fuel st.skipChar
      else
        match parseDecNat st.slice with
        | some n => .ok (.integer n, st)
        | none => .error .intParse
    else
      match parseDecNat st.slice with
      | some n => .ok (.integer n, st)
      | none => .error .intParse
  else
    .error .assertFailed

/-- Whitespace run: skip while the read character is whitespace (the
skip_whitespace method of token.rs). -/
def wsSkipLoop (fuel : Nat) (st : LexState) : LexState :=
  match fuel with
  | 0 => st
  | fuel + 1 =>
    if rustIsWhitespace st.scanner.readChar then wsSkipLoop fuel st.skipChar
    else st

/-- The function tokenize of token.rs: on the NUL sentinel set the eof flag
and produce the EOF token; otherwise skip whitespace and dispatch on the
read character.  An unrecognized character is an unimplemented panic. -/
def tokenize (fuel : Nat) (st0 : LexState) : Except LexAbort (LToken × LexState) :=
  let c := st0.scanner.readChar
  if c = nulChar then
    .ok (.eof, { st0 with eofFlag := true })
  else
    let st := if rustIsWhitespace c then wsSkipLoop fuel st0 else st0
    let c := st.scanner.readChar
    if c = curlyOpenChar then .ok (.curlyOpen, st.skipChar)
    else if c = curlyCloseChar then .ok (.curlyClose, st.skipChar)
    else if c = '[' then .ok (.squareOpen, st.skipChar)
    else if c = ']' then .ok (.squareClose, st.skipChar)
    else if c = ',' then .ok (.comma, st.skipChar)
    else if c = '.' then .ok (.dot, st.skipChar)
    else if c = '|' then .ok (.pipe, st.skipChar)
    else if rustIsAsciiLowercase c ∨ (0x41 ≤ c.toNat ∧ c.toNat ≤ 0x5A) then
      lexUnquotedAtom fuel st
    else if rustIsDigit10 c then lexNumber fuel st
    else if c = quoteChar then lexQuotedAtom fuel st
    else if c = dquoteChar then lexString fuel st
    else .error (.badChar c)

/-- The advance_start method of token.rs: skip whitespace, set the eof flag
on the NUL sentinel (leaving token_start untouched), otherwise set
token_start to the current position. -/
def advanceStart (fuel : Nat) (st : LexState) : LexState :=
  match fuel with
  | 0 => st
  | fuel + 1 =>
    let c := st.scanner.readChar
    if c = nulChar then { st with eofFlag := true }
    else if rustIsWhitespace c then
      advanceStart fuel { st with scanner := st.scanner.forward }
    else
      { st with tokenStart := st.scanner.pos }

/-- The advance method of token.rs: advance_start, then tokenize into the
lookahead token. -/
def lexAdvance (fuel : Nat) (st : LexState) : Except LexAbort LexState :=
  let st := advanceStart fuel st
  match tokenize fuel st with
  | .error e => .error e
  | .ok (t, st1) => .ok { st1 with token := t }

/-- Lexer construction (Lexer::new): initial state followed by one
advance. -/
def newLexer (input : List Char) : Except LexAbort LexState :=
  lexAdvance (input.length + 1)
    { scanner := { input := input, pos := 0 }
      token := .eof
      tokenStart := 0
      tokenEnd := 0
      eofFlag := false
      strBuf := [] }

/-- An item yielded by the lexer iterator.  The Rust item type is a Result
whose error side is the unit type; the err constructor is part of the model
so that producing it can be talked about (the source never constructs
it). -/
inductive LexItem where
  | ok (startIdx : Nat) (tok : LToken) (endIdx : Nat)
  | err
  deriving DecidableEq, Repr

/-- The lex method of token.rs: if the eof flag is set and the lookahead
token is EOF, the iterator is exhausted (None); otherwise take the lookahead
token, yield it with its span, and advance. -/
def lexStep (st : LexState) : Except LexAbort (Option (LexItem × LexState)) :=
  if st.eofFlag ∧ st.token = .eof then
    .ok none
  else
    let item := LexItem.ok st.tokenStart st.token st.tokenEnd
    let st := { st with token := .eof }
    match lexAdvance (st.scanner.input.length + 1) st with
    | .error e => .error e
    | .ok st1 => .ok (some (item, st1))

/-- Drain the lexer iterator, collecting all yielded items. -/
def lexItems (fuel : Nat) (st : LexState) : Except LexAbort (List LexItem) :=
  match fuel with
  | 0 => .error .fuelOut
  | fuel + 1 =>
    match lexStep st with
    | .error e => .error e
    | .ok none => .ok []
    | .ok (some (item, st1)) =>
      match lexItems fuel st1 with
      | .error e => .error e
      | .ok items => .ok (item :: items)

/-- Run the lexer end to end on an input: construct it and drain the
iterator. -/
def lexerRun (input : List Char) : Except LexAbort (List LexItem) :=
  match newLexer input with
  | .error e => .error e
  | .ok st => lexItems (input.length + 2) st

/-! ## Claim-side definitions for the lexer claims -/

/-- Follows the spec's words: the unquoted-atom lexeme set of the
specification, the pattern of one lowercase ASCII letter followed by ASCII
letters, ASCII digits, underscore or at sign. -/
def specAtomChar (c : Char) : Bool :=
  (0x41 ≤ c.toNat && c.toNat ≤ 0x5A) || (0x61 ≤ c.toNat && c.toNat ≤ 0x7A) ||
  rustIsDigit10 c || c = '_' || c = '@'

/-- Follows the spec's words: a lexeme matching the unquoted-atom pattern of
the specification. -/
def specAtomLexeme (s : List Char) : Bool :=
  match s with
  | [] => false
  | c :: rest => rustIsAsciiLowercase c && rest.all specAtomChar

/-- Continuation-character set actually accepted by the unquoted-atom loop
of the source: underscore, at sign, ASCII digit, or any character accepted
by Rust char::is_alphanumeric. -/
def codeAtomChar (c : Char) : Bool :=
  c = '_' || c = '@' || rustIsDigit10 c || rustIsAlphanumeric c

/-- Lexeme set actually produced by the unquoted-atom path of the source: a
lowercase ASCII letter followed by a run of codeAtomChar characters. -/
def codeAtomLexeme (s : List Char) : Bool :=
  match s with
  | [] => false
  | c :: rest => rustIsAsciiLowercase c && rest.all codeAtomChar

/-! ## Helper lemmas for the lexer -/

theorem Scanner.read_eq_headD_drop (s : Scanner) :
    s.readChar = (s.input.drop s.pos).headD nulChar := by
  unfold Scanner.readChar
  suffices h : ∀ (l : List Char) (n : Nat), l.getD n nulChar = (l.drop n).headD nulChar by
    exact h s.input s.pos
  intro l
  induction l with
  | nil => intro n; simp [List.getD]
  | cons c cs ih =>
    intro n
    cases n with
    | zero => simp [List.getD]
    | succ n => simpa [List.getD] using ih n

theorem LexState.skipChar_def (st : LexState) :
    st.skipChar = { st with scanner := { st.scanner with pos := st.scanner.pos + 1 },
                            tokenEnd := st.scanner.pos + 1 } := rfl

theorem unquotedAtomLoop_step (fuel : Nat) (st : LexState) :
    unquotedAtomLoop (fuel + 1) st =
      if codeAtomChar st.scanner.readChar = true then unquotedAtomLoop fuel st.skipChar
      else st := by
  by_cases h1 : st.scanner.readChar = '_' <;>
  by_cases h2 : st.scanner.readChar = '@' <;>
  by_cases h3 : rustIsDigit10 st.scanner.readChar = true <;>
  by_cases h4 : rustIsAlphanumeric st.scanner.readChar = true <;>
  simp [unquotedAtomLoop, codeAtomChar, h1, h2, h3, h4]

theorem unquotedAtomLoop_run (w rest : List Char) :
    ∀ (st : LexState) (fuel : Nat),
      st.scanner.input.drop st.scanner.pos = w ++ rest →
      w.all codeAtomChar = true →
      (∀ c, rest.head? = some c → codeAtomChar c = false) →
      w.length < fuel →
      unquotedAtomLoop fuel st =
        if w.length = 0 then st
        else { st with scanner := { st.scanner with pos := st.scanner.pos + w.length },
                       tokenEnd := st.scanner.pos + w.length } := by
  induction w with
  | nil =>
    intro st fuel hd _ hrest hf
    obtain ⟨f, rfl⟩ : ∃ f, fuel = f + 1 := ⟨fuel - 1, by omega⟩
    rw [unquotedAtomLoop_step]
    have hread : st.scanner.readChar = rest.headD nulChar := by
      rw [Scanner.read_eq_headD_drop, hd]; simp
    have hco : codeAtomChar st.scanner.readChar = false := by
      cases hr : rest with
      | nil => rw [hread, hr]; decide
      | cons c cs =>
        rw [hread, hr]
        exact hrest c (by rw [hr]; rfl)
    simp [hco]
  | cons c w ih =>
    intro st fuel hd hall hrest hf
    obtain ⟨f, rfl⟩ : ∃ f, fuel = f + 1 := ⟨fuel - 1, by omega⟩
    rw [unquotedAtomLoop_step]
    have hread : st.scanner.readChar = c := by
      rw [Scanner.read_eq_headD_drop, hd]; simp
    simp only [List.all_cons, Bool.and_eq_true] at hall
    rw [hread, if_pos hall.1]
    have hd' : st.skipChar.scanner.input.drop st.skipChar.scanner.pos = w ++ rest := by
      rw [LexState.skipChar_def]
      simp only []
      rw [← List.tail_drop, hd]
      rfl
    have hrun := ih st.skipChar f hd' hall.2 hrest (by simp at hf ⊢; omega)
    rw [hrun]
    cases hw : w with
    | nil =>
      simp [LexState.skipChar_def]
    | cons d ds =>
      rw [if_neg (by simp)]
      rw [LexState.skipChar_def]
      simp [Nat.add_assoc, Nat.add_comm 1]

theorem head_dropWhile_not (p : Char → Bool) :
    ∀ (l : List Char) (c : Char), (l.dropWhile p).head? = some c → p c = false := by
  intro l
  induction l with
  | nil => intro c h; simp [List.dropWhile] at h
  | cons d ds ih =>
    intro c h
    by_cases hp : p d = true
    · rw [List.dropWhile_cons_of_pos hp] at h; exact ih c h
    · rw [List.dropWhile_cons_of_neg hp] at h
      simp only [List.head?_cons, Option.some.injEq] at h
      subst h
      simpa using hp

theorem lower_char_facts (c : Char) (h : rustIsAsciiLowercase c = true) :
    c ≠ nulChar ∧ rustIsWhitespace c = false ∧ c ≠ curlyOpenChar ∧ c ≠ curlyCloseChar ∧
    c ≠ '[' ∧ c ≠ ']' ∧ c ≠ ',' ∧ c ≠ '.' ∧ c ≠ '|' ∧ rustIsDigit10 c = false ∧
    c ≠ quoteChar ∧ c ≠ dquoteChar := by
  simp only [rustIsAsciiLowercase, Bool.and_eq_true, decide_eq_true_eq] at h
  have hn : 0x61 ≤ c.toNat ∧ c.toNat ≤ 0x7A := h
  refine ⟨?_, ?_, ?_, ?_, ?_, ?_, ?_, ?_, ?_, ?_, ?_, ?_⟩
  · intro he; subst he; revert hn; decide
  · simp only [rustIsWhitespace, Bool.or_eq_false_iff, beq_eq_false_iff_ne, ne_eq]
    omega
  · intro he; subst he; revert hn; decide
  · intro he; subst he; revert hn; decide
  · intro he; subst he; revert hn; decide
  · intro he; subst he; revert hn; decide
  · intro he; subst he; revert hn; decide
  · intro he; subst he; revert hn; decide
  · intro he; subst he; revert hn; decide
  · simp only [rustIsDigit10, Bool.and_eq_true, decide_eq_true_eq]
    simp only [Bool.and_eq_false_iff, decide_eq_false_iff_not, not_le]
    omega
  · intro he; subst he; revert hn; decide
  · intro he; subst he; revert hn; decide

theorem tokenize_lower_dispatch (st : LexState) (fuel : Nat)
    (hlow : rustIsAsciiLowercase st.scanner.readChar = true) :
    tokenize fuel st = lexUnquotedAtom fuel st := by
  obtain ⟨f1, f2, f3, f4, f5, f6, f7, f8, f9, f10, f11, f12⟩ :=
    lower_char_facts _ hlow
  unfold tokenize
  rw [if_neg f1]
  simp only [f2, Bool.false_eq_true, if_false]
  rw [if_neg f3, if_neg f4, if_neg f5, if_neg f6, if_neg f7, if_neg f8, if_neg f9,
      if_pos (Or.inl hlow)]

theorem take_length_takeWhile (p : Char → Bool) (l : List Char) :
    l.take (l.takeWhile p).length = l.takeWhile p := by
  induction l with
  | nil => rfl
  | cons a l ih =>
    by_cases hp : p a = true
    · rw [List.takeWhile_cons_of_pos hp]
      simp only [List.length_cons, List.take_succ_cons, ih]
    · rw [List.takeWhile_cons_of_neg hp]
      rfl

theorem lexUnquotedAtom_run (st0 : LexState) (fuel : Nat) (c : Char) (tl : List Char)
    (hd : st0.scanner.input.drop st0.scanner.pos = c :: tl)
    (hlow : rustIsAsciiLowercase c = true)
    (hts : st0.tokenStart = st0.scanner.pos)
    (hfuel : st0.scanner.input.length < fuel) :
    ∃ st1, lexUnquotedAtom fuel st0 = .ok (.atom (c :: tl.takeWhile codeAtomChar), st1) ∧
      st1.scanner.input = st0.scanner.input ∧
      st1.scanner.pos = st0.scanner.pos + 1 + (tl.takeWhile codeAtomChar).length := by
  have hread : st0.scanner.readChar = c := by
    rw [Scanner.read_eq_headD_drop, hd]; rfl
  have hlen : tl.length + 1 ≤ st0.scanner.input.length := by
    have : (st0.scanner.input.drop st0.scanner.pos).length ≤ st0.scanner.input.length :=
      by simpa using Nat.sub_le _ _
    rw [hd] at this
    simpa using this
  have hd2 : st0.skipChar.scanner.input.drop st0.skipChar.scanner.pos
      = tl.takeWhile codeAtomChar ++ tl.dropWhile codeAtomChar := by
    rw [LexState.skipChar_def]
    simp only []
    rw [← List.tail_drop, hd, List.takeWhile_append_dropWhile]
    rfl
  have hrun := unquotedAtomLoop_run (tl.takeWhile codeAtomChar) (tl.dropWhile codeAtomChar)
    st0.skipChar fuel hd2 List.all_takeWhile
    (fun d hdw => head_dropWhile_not codeAtomChar tl d hdw)
    (by
      have h1 : (tl.takeWhile codeAtomChar).length ≤ tl.length := by
        calc (tl.takeWhile codeAtomChar).length
            ≤ (tl.takeWhile codeAtomChar).length + (tl.dropWhile codeAtomChar).length :=
              Nat.le_add_right _ _
          _ = tl.length := by
              rw [← List.length_append, List.takeWhile_append_dropWhile]
      omega)
  unfold lexUnquotedAtom
  simp only [LexState.popChar]
  rw [hread, if_pos hlow]
  have hskip : ({ st0 with
      scanner := st0.scanner.forward
      tokenEnd := st0.scanner.pos + 1 } : LexState) = st0.skipChar := rfl
  rw [hskip, hrun]
  by_cases hw : (tl.takeWhile codeAtomChar).length = 0
  · rw [if_pos hw]
    have harr : tl.takeWhile codeAtomChar = [] := List.eq_nil_of_length_eq_zero hw
    refine ⟨st0.skipChar, ?_, rfl, ?_⟩
    · have hsl : st0.skipChar.slice = c :: tl.takeWhile codeAtomChar := by
        simp only [LexState.slice, LexState.skipChar_def, hts]
        rw [hd]
        have h1 : st0.scanner.pos + 1 - st0.scanner.pos = 1 := by omega
        rw [h1, harr]
        rfl
      rw [hsl]
    · simp [LexState.skipChar_def, hw]
  · rw [if_neg hw]
    refine ⟨{ st0.skipChar with
        scanner := { st0.skipChar.scanner with
                     pos := st0.skipChar.scanner.pos + (tl.takeWhile codeAtomChar).length }
        tokenEnd := st0.skipChar.scanner.pos + (tl.takeWhile codeAtomChar).length
        }, ?_, rfl, ?_⟩
    · have hsl : (({ st0.skipChar with
          scanner := { st0.skipChar.scanner with
                       pos := st0.skipChar.scanner.pos + (tl.takeWhile codeAtomChar).length }
          tokenEnd := st0.skipChar.scanner.pos + (tl.takeWhile codeAtomChar).length
          } : LexState)).slice
          = c :: tl.takeWhile codeAtomChar := by
        simp only [LexState.slice, LexState.skipChar_def, hts]
        rw [hd]
        have h1 : st0.scanner.pos + 1 + (tl.takeWhile codeAtomChar).length - st0.scanner.pos
            = 1 + (tl.takeWhile codeAtomChar).length := by omega
        rw [h1, Nat.add_comm 1, List.take_succ_cons, take_length_takeWhile]
      rw [hsl]
    · rfl

theorem read_cons_drop (s : Scanner) (h : ¬ s.readChar = nulChar) :
    s.input.drop s.pos = s.readChar :: s.input.drop (s.pos + 1) := by
  cases hd : s.input.drop s.pos with
  | nil =>
    exfalso
    apply h
    rw [Scanner.read_eq_headD_drop, hd]
    rfl
  | cons c tl =>
    have hc : s.readChar = c := by rw [Scanner.read_eq_headD_drop, hd]; rfl
    rw [hc, ← List.tail_drop, hd]
    rfl

theorem takeWhile_append_all (p : Char → Bool) (l1 l2 : List Char)
    (h1 : l1.all p = true)
    (h2 : ∀ c, l2.head? = some c → p c = false) :
    (l1 ++ l2).takeWhile p = l1 := by
  induction l1 with
  | nil =>
    cases l2 with
    | nil => rfl
    | cons d ds =>
      simp only [List.nil_append]
      exact List.takeWhile_cons_of_neg (by simp [h2 d rfl])
  | cons a l ih =>
    simp only [List.all_cons, Bool.and_eq_true] at h1
    rw [List.cons_append, List.takeWhile_cons_of_pos h1.1, ih h1.2]

theorem lexFloat_not_atom (fuel : Nat) (st : LexState) (a : List Char) (st1 : LexState) :
    ¬ lexFloat fuel st = .ok (.atom a, st1) := by
  unfold lexFloat
  by_cases h : rustIsDigit10 (st.popChar).1 = true <;> simp [h]

theorem lexNumber_not_atom (fuel : Nat) (st : LexState) (a : List Char) (st1 : LexState) :
    ¬ lexNumber fuel st = .ok (.atom a, st1) := by
  unfold lexNumber
  dsimp only
  intro h
  split_ifs at h
  · exact lexFloat_not_atom _ _ _ _ h
  all_goals
    revert h
    cases hp : parseDecNat ((digitSkipLoop fuel (st.popChar).2).slice) <;> simp [hp]

theorem lexString_not_atom (fuel : Nat) (st : LexState) (a : List Char) (st1 : LexState) :
    ¬ lexString fuel st = .ok (.atom a, st1) := by
  unfold lexString
  dsimp only
  intro h
  split_ifs at h
  · revert h
    cases hs : stringLoop fuel { (st.popChar).2 with strBuf := [] } <;> simp [hs]

theorem tokenize_atom_sound (st st1 : LexState) (fuel : Nat) (a : List Char)
    (hfuel : st.scanner.input.length < fuel)
    (hws : rustIsWhitespace st.scanner.readChar = false)
    (hts : st.tokenStart = st.scanner.pos)
    (htok : tokenize fuel st = .ok (.atom a, st1)) :
    st.scanner.readChar = quoteChar ∨
      (codeAtomLexeme a = true ∧
       a = (st.scanner.input.drop st.scanner.pos).take a.length) := by
  by_cases hnul : st.scanner.readChar = nulChar
  · unfold tokenize at htok
    rw [if_pos hnul] at htok
    simp at htok
  unfold tokenize at htok
  rw [if_neg hnul] at htok
  simp only [hws, Bool.false_eq_true, if_false] at htok
  by_cases h1 : st.scanner.readChar = curlyOpenChar
  · rw [if_pos h1] at htok; simp at htok
  rw [if_neg h1] at htok
  by_cases h2 : st.scanner.readChar = curlyCloseChar
  · rw [if_pos h2] at htok; simp at htok
  rw [if_neg h2] at htok
  by_cases h3 : st.scanner.readChar = '['
  · rw [if_pos h3] at htok; simp at htok
  rw [if_neg h3] at htok
  by_cases h4 : st.scanner.readChar = ']'
  · rw [if_pos h4] at htok; simp at htok
  rw [if_neg h4] at htok
  by_cases h5 : st.scanner.readChar = ','
  · rw [if_pos h5] at htok; simp at htok
  rw [if_neg h5] at htok
  by_cases h6 : st.scanner.readChar = '.'
  · rw [if_pos h6] at htok; simp at htok
  rw [if_neg h6] at htok
  by_cases h7 : st.scanner.readChar = '|'
  · rw [if_pos h7] at htok; simp at htok
  rw [if_neg h7] at htok
  by_cases h8 : rustIsAsciiLowercase st.scanner.readChar = true
    ∨ (0x41 ≤ st.scanner.readChar.toNat ∧ st.scanner.readChar.toNat ≤ 0x5A)
  · rw [if_pos h8] at htok
    by_cases hlow : rustIsAsciiLowercase st.scanner.readChar = true
    · right
      have hd := read_cons_drop st.scanner hnul
      obtain ⟨st2, heq, hinput, hpos⟩ :=
        lexUnquotedAtom_run st fuel st.scanner.readChar (st.scanner.input.drop (st.scanner.pos + 1))
          hd hlow hts hfuel
      rw [heq] at htok
      have ha : a = st.scanner.readChar
          :: (st.scanner.input.drop (st.scanner.pos + 1)).takeWhile codeAtomChar := by
        have := htok
        simp only [Except.ok.injEq, Prod.mk.injEq, LToken.atom.injEq] at this
        exact this.1.symm
      constructor
      · rw [ha]
        simp only [codeAtomLexeme, hlow, Bool.true_and]
        exact List.all_takeWhile
      · rw [ha, hd]
        simp only [List.length_cons, List.take_succ_cons]
        rw [take_length_takeWhile]
    · exfalso
      have hupp : 0x41 ≤ st.scanner.readChar.toNat ∧ st.scanner.readChar.toNat ≤ 0x5A := by
        rcases h8 with h | h
        · exact absurd h hlow
        · exact h
      unfold lexUnquotedAtom at htok
      simp only [LexState.popChar] at htok
      rw [if_neg (by simpa using hlow)] at htok
      simp at htok
  rw [if_neg h8] at htok
  by_cases h9 : rustIsDigit10 st.scanner.readChar = true
  · rw [if_pos h9] at htok
    exact absurd htok (lexNumber_not_atom _ _ _ _)
  rw [if_neg h9] at htok
  by_cases h10 : st.scanner.readChar = quoteChar
  · exact Or.inl h10
  rw [if_neg h10] at htok
  by_cases h11 : st.scanner.readChar = dquoteChar
  · rw [if_pos h11] at htok
    exact absurd htok (lexString_not_atom _ _ _ _)
  rw [if_neg h11] at htok
  simp at htok

theorem tokenize_atom_complete (st : LexState) (fuel : Nat) (m rest : List Char)
    (hfuel : st.scanner.input.length < fuel)
    (hts : st.tokenStart = st.scanner.pos)
    (hd : st.scanner.input.drop st.scanner.pos = m ++ rest)
    (hm : codeAtomLexeme m = true)
    (hrest : ∀ c, rest.head? = some c → codeAtomChar c = false) :
    ∃ st1, tokenize fuel st = .ok (.atom m, st1) ∧
           st1.scanner.pos = st.scanner.pos + m.length := by
  cases m with
  | nil => simp [codeAtomLexeme] at hm
  | cons c m2 =>
    simp only [codeAtomLexeme, Bool.and_eq_true] at hm
    have hread : st.scanner.readChar = c := by
      rw [Scanner.read_eq_headD_drop, hd]
      rfl
    have hdisp := tokenize_lower_dispatch st fuel (by rw [hread]; exact hm.1)
    rw [hdisp]
    have hd1 : st.scanner.input.drop st.scanner.pos = c :: (m2 ++ rest) := by
      rw [hd]; rfl
    have htl : (m2 ++ rest).takeWhile codeAtomChar = m2 :=
      takeWhile_append_all codeAtomChar m2 rest hm.2 hrest
    obtain ⟨st1, heq, hinput, hpos⟩ :=
      lexUnquotedAtom_run st fuel c (m2 ++ rest) (by rw [hd1]) hm.1 hts hfuel
    refine ⟨st1, ?_, ?_⟩
    · rw [heq, htl]
    · rw [hpos, htl]
      simp only [List.length_cons]
      omega

/-- Claim C8, counterexample to the claim as stated: on the input consisting
of a lowercase letter followed by the Latin-1 letter with code point 233,
tokenize consumes the whole two-character lexeme (final cursor 2, so the
consumed lexeme is the full input) and produces it as an unquoted Atom, yet
the lexeme does not match the specification pattern of one lowercase ASCII
letter followed by ASCII letters, digits, underscore or at sign. -/
theorem tokenize_atom_beyond_spec_regex :
    (tokenize 3 { scanner := { input := ['a', Char.ofNat 233], pos := 0 }
                  token := .eof
                  tokenStart := 0
                  tokenEnd := 0
                  eofFlag := false
                  strBuf := [] }).toOption.map (fun p => (p.1, p.2.scanner.pos))
      = some (.atom ['a', Char.ofNat 233], 2) ∧
    specAtomLexeme ['a', Char.ofNat 233] = false := by
  constructor
  · rfl
  · rfl

/-- Claim C8 (amended): a token is produced by the unquoted-atom path of
tokenize exactly when the consumed lexeme begins with a lowercase ASCII
letter and continues with underscore, at sign, ASCII digit, or any character
accepted by Rust char::is_alphanumeric (not only ASCII letters and digits;
an input whose first letter is uppercase reaches the unquoted-atom lexer but
fails its debug assertion, so it produces no token).  First part: any Atom
token produced by tokenize either comes from the quoted path (the read
character is a single quote) or its payload is the consumed lexeme and
matches the amended pattern.  Second part: whenever the input at the cursor
starts with a maximal lexeme of the amended pattern, tokenize produces
exactly that lexeme as an Atom and consumes exactly it. -/
theorem unquoted_atom_lexeme_characterization :
    (∀ (st st1 : LexState) (fuel : Nat) (a : List Char),
       st.scanner.input.length < fuel →
       rustIsWhitespace st.scanner.readChar = false →
       st.tokenStart = st.scanner.pos →
       tokenize fuel st = .ok (.atom a, st1) →
       st.scanner.readChar = quoteChar ∨
         (codeAtomLexeme a = true ∧
          a = (st.scanner.input.drop st.scanner.pos).take a.length)) ∧
    (∀ (st : LexState) (fuel : Nat) (m rest : List Char),
       st.scanner.input.length < fuel →
       st.tokenStart = st.scanner.pos →
       st.scanner.input.drop st.scanner.pos = m ++ rest →
       codeAtomLexeme m = true →
       (∀ c, rest.head? = some c → codeAtomChar c = false) →
       ∃ st1, tokenize fuel st = .ok (.atom m, st1) ∧
              st1.scanner.pos = st.scanner.pos + m.length) := by
  constructor
  · intro st st1 fuel a hfuel hws hts htok
    exact tokenize_atom_sound st st1 fuel a hfuel hws hts htok
  · intro st fuel m rest hfuel hts hd hm hrest
    exact tokenize_atom_complete st fuel m rest hfuel hts hd hm hrest

/-- Witness for the amended claim C8 at a concrete input: the lexeme with an
underscore, an at sign and a digit is produced as an Atom and consumed
exactly, and conversely any Atom produced there satisfies the amended
pattern. -/
theorem unquoted_atom_lexeme_characterization_witness :
    ∃ st1, tokenize 6 { scanner := { input := ['a', 'b', '1', '_', '@'], pos := 0 }
                        token := .eof
                        tokenStart := 0
                        tokenEnd := 0
                        eofFlag := false
                        strBuf := [] } = .ok (.atom ['a', 'b', '1', '_', '@'], st1) ∧
           st1.scanner.pos = 0 + (['a', 'b', '1', '_', '@'] : List Char).length :=
  unquoted_atom_lexeme_characterization.2
    { scanner := { input := ['a', 'b', '1', '_', '@'], pos := 0 }
      token := .eof
      tokenStart := 0
      tokenEnd := 0
      eofFlag := false
      strBuf := [] }
    6 ['a', 'b', '1', '_', '@'] []
    (by decide) rfl (by decide) (by decide) (by intro c hc; cases hc)

/-- Claim C9, counterexample to the claim as stated: a backslash escape
inside a string makes the whole lexer run abort (the Rust source hits an
unimplemented panic), and an unrecognized character (the percent sign, code
37) likewise aborts; no error value is surfaced to the driver in either
case, the run produces no item list at all. -/
theorem lexer_aborts_on_bad_escape_and_bad_char :
    lexerRun [dquoteChar, 'a', backslashChar, 'b', dquoteChar]
      = .error .badEscape ∧
    lexerRun [Char.ofNat 37] = .error (.badChar (Char.ofNat 37)) := by
  constructor
  · rfl
  · rfl

/-- Claim C9 (amended): on a bad escape (a backslash inside a quoted atom or
string body) or an unrecognized character, the lexer panics and aborts; it
does not surface an error value.  First part: whenever the read character is
a backslash, both quoted-body loops abort with the bad-escape panic.  Second
part: whenever the read character is none of the recognized characters
(sentinel, whitespace, punctuation, letters, digits, quotes), tokenize
aborts with the unrecognized-character panic carrying that character. -/
theorem bad_escape_and_bad_char_abort :
    (∀ (st : LexState) (fuel : Nat),
       st.scanner.readChar = backslashChar →
       0 < fuel →
       quotedAtomLoop fuel st = .error .badEscape ∧
       stringLoop fuel st = .error .badEscape) ∧
    (∀ (st : LexState) (fuel : Nat) (c : Char),
       st.scanner.readChar = c →
       ¬ c = nulChar →
       rustIsWhitespace c = false →
       ¬ c = curlyOpenChar → ¬ c = curlyCloseChar → ¬ c = '[' → ¬ c = ']' →
       ¬ c = ',' → ¬ c = '.' → ¬ c = '|' →
       rustIsAsciiLowercase c = false →
       ¬ (0x41 ≤ c.toNat ∧ c.toNat ≤ 0x5A) →
       rustIsDigit10 c = false →
       ¬ c = quoteChar → ¬ c = dquoteChar →
       tokenize fuel st = .error (.badChar c)) := by
  constructor
  · intro st fuel hbs hf
    obtain ⟨f, rfl⟩ : ∃ f, fuel = f + 1 := ⟨fuel - 1, by omega⟩
    constructor
    · unfold quotedAtomLoop
      rw [hbs]
      rfl
    · unfold stringLoop
      rw [hbs]
      rfl
  · intro st fuel c hread hnul hws h1 h2 h3 h4 h5 h6 h7 h8 h9 h10 h11 h12
    subst hread
    unfold tokenize
    rw [if_neg hnul]
    simp only [hws, Bool.false_eq_true, if_false]
    rw [if_neg h1, if_neg h2, if_neg h3, if_neg h4, if_neg h5, if_neg h6, if_neg h7,
        if_neg (by simp [h8, h9]), if_neg (by simp [h10]), if_neg h11, if_neg h12]

/-- Witness for the amended claim C9 at concrete states: a state reading a
backslash aborts both quoted loops, and a state reading the percent sign
aborts tokenize with the unrecognized-character panic. -/
theorem bad_escape_and_bad_char_abort_witness :
    (quotedAtomLoop 1 { scanner := { input := [backslashChar], pos := 0 }
                        token := .eof
                        tokenStart := 0
                        tokenEnd := 0
                        eofFlag := false
                        strBuf := [] } = .error .badEscape ∧
     stringLoop 1 { scanner := { input := [backslashChar], pos := 0 }
                    token := .eof
                    tokenStart := 0
                    tokenEnd := 0
                    eofFlag := false
                    strBuf := [] } = .error .badEscape) ∧
    tokenize 1 { scanner := { input := [Char.ofNat 37], pos := 0 }
                 token := .eof
                 tokenStart := 0
                 tokenEnd := 0
                 eofFlag := false
                 strBuf := [] } = .error (.badChar (Char.ofNat 37)) := by
  constructor
  · exact bad_escape_and_bad_char_abort.1
      { scanner := { input := [backslashChar], pos := 0 }
        token := .eof
        tokenStart := 0
        tokenEnd := 0
        eofFlag := false
        strBuf := [] } 1 (by decide) (by decide)
  · exact bad_escape_and_bad_char_abort.2
      { scanner := { input := [Char.ofNat 37], pos := 0 }
        token := .eof
        tokenStart := 0
        tokenEnd := 0
        eofFlag := false
        strBuf := [] } 1 (Char.ofNat 37) rfl
      (by decide) (by decide) (by decide) (by decide) (by decide) (by decide)
      (by decide) (by decide) (by decide) (by decide) (by decide) (by decide)
      (by decide) (by decide)

/-- Claim C10: the lexer iterator never yields the EOF token.  The lex
method returns None as soon as the eof flag is set and the lookahead token
is EOF, and that conjunction already holds the first time the input is
exhausted, before the EOF token is ever yielded.  On the one-atom input the
iterator yields exactly the atom item and stops; on the empty input it
yields nothing at all, while the claim (and scenario S6 of the
specification) demand a final EOF item. -/
theorem lexer_never_yields_eof_item :
    lexerRun ['a'] = .ok [LexItem.ok 0 (.atom ['a']) 1] ∧
    lexerRun [] = .ok [] := by
  constructor
  · rfl
  · rfl

/-! # Part 2: the HIR SSA pass (ssa.rs) with a spec-modelled scope tracker -/

/-- Scope key of the tracker: value variables and function names inhabit
disjoint namespaces.  Names are interned symbols, modelled as numbers. -/
inductive ScopeDefinition where
  | varName (name : Nat)
  | funName (name : Nat)
  deriving DecidableEq, Repr

/-- An annotated variable of the HIR: a source name plus its SSA slot. -/
structure HAVar where
  var : Nat
  ssa : Nat
  deriving DecidableEq, Repr

/-- A lambda environment record: the capture list (key, outer ssa, capture
index) and the reserved meta-binds list. -/
structure LambdaEnv where
  captures : List (ScopeDefinition × Nat × Nat)
  metaBinds : List Unit
  deriving DecidableEq, Repr

/-- A scope: a mapping from scope keys to SSA names.  The source uses a
hash map with insert-overwrites semantics; the model prepends on insert and
looks up the first match. -/
abbrev Scope := List (ScopeDefinition × Nat)

/-- Scope lookup: first match wins (the most recent insert). -/
def scopeFind (sc : Scope) (k : ScopeDefinition) : Option Nat :=
  match sc with
  | [] => none
  | (k2, v) :: rest => if k2 = k then some v else scopeFind rest k

/-- A tracking frame of the scope tracker: the scope-stack height at which
tracking started, and the ordered capture list accumulated so far (the
capture index of an entry is its position). -/
structure Frame where
  start : Nat
  captures : List (ScopeDefinition × Nat)
  deriving DecidableEq, Repr

/-- Modelled from the spec: the scope tracker state (the scope tracker
source is not under the provided sources).  A stack of scopes (innermost
first), a stack of tracking frames (innermost first), the monotonic SSA
name counter, and the module lambda-env table. -/
structure Tracker where
  scopes : List Scope
  frames : List Frame
  counter : Nat
  envs : List LambdaEnv
  deriving DecidableEq, Repr

/-- Fresh-name generation: return the counter and bump it. -/
def Tracker.newSsa (t : Tracker) : Nat × Tracker :=
  (t.counter, { t with counter := t.counter + 1 })

/-- Innermost-first lookup through the scope stack, returning the bound SSA
name and the index of the scope that bound it, counted from the top. -/
def lookupScopes (scopes : List Scope) (k : ScopeDefinition) : Option (Nat × Nat) :=
  match scopes with
  | [] => none
  | sc :: rest =>
    match scopeFind sc k with
    | some ssa => some (ssa, 0)
    | none => (lookupScopes rest k).map (fun p => (p.1, p.2 + 1))

/-- Modelled from the spec: capture registration.  A lookup that resolves to
a binding defined below a frame's start is recorded once in that frame, in
first-encounter order.  Only value-variable keys are captured: the spec's
edge policy states that function-name lookups (closure aliases) resolve
through the scope stack and never enter the environment. -/
def Frame.register (fr : Frame) (k : ScopeDefinition) (ssa : Nat) (depth : Nat) : Frame :=
  match k with
  | .funName _ => fr
  | .varName _ =>
    if depth < fr.start then
      if fr.captures.any (fun p => p.1 = k) then fr
      else { fr with captures := fr.captures ++ [(k, ssa)] }
    else fr

/-- Modelled from the spec: tracker lookup.  Walk the scope stack innermost
first; on success, register the resolved binding in every active tracking
frame whose start lies above the binding's scope, and return the bound
name. -/
def Tracker.get (t : Tracker) (k : ScopeDefinition) : Option (Nat × Tracker) :=
  match lookupScopes t.scopes k with
  | none => none
  | some (ssa, idxFromTop) =>
    let depth := t.scopes.length - 1 - idxFromTop
    some (ssa, { t with frames := t.frames.map (fun fr => fr.register k ssa depth) })

/-- Push a scope of bindings. -/
def Tracker.pushScope (t : Tracker) (sc : Scope) : Tracker :=
  { t with scopes := sc :: t.scopes }

/-- Abort reasons of the SSA pass; each corresponds to a Rust panic in
ssa.rs (unbound variable, failing assert, unwrap of a missing field, vector
index out of bounds) or to a scope-tracker misuse. -/
inductive SsaErr where
  | unboundVariable (name : Nat)
  | arityMismatch
  | missingFun
  | missingAlias
  | valueIndex
  | scopeUnderflow
  | trackUnderflow
  | fuelOut
  deriving DecidableEq, Repr

/-- Pop a scope; popping an empty stack is a programmer error. -/
def Tracker.popScope (t : Tracker) : Except SsaErr Tracker :=
  match t.scopes with
  | [] => .error .scopeUnderflow
  | _ :: rest => .ok { t with scopes := rest }

/-- Open a tracking frame at the current scope height. -/
def Tracker.pushTracking (t : Tracker) : Tracker :=
  { t with frames := { start := t.scopes.length, captures := [] } :: t.frames }

/-- Close the innermost tracking frame, returning its ordered capture map. -/
def Tracker.popTracking (t : Tracker) : Except SsaErr (List (ScopeDefinition × Nat) × Tracker) :=
  match t.frames with
  | [] => .error .trackUnderflow
  | fr :: rest => .ok (fr.captures, { t with frames := rest })

/-- Append a lambda-env record and return its dense index. -/
def Tracker.addLambdaEnv (t : Tracker) (env : LambdaEnv) : Nat × Tracker :=
  (t.envs.length, { t with envs := t.envs ++ [env] })

/-- Conversion applied by ssa.rs when storing a capture map into a lambda
env: enumerate the ordered entries as (key, outer ssa, capture index). -/
def capturesOfMap (m : List (ScopeDefinition × Nat)) : List (ScopeDefinition × Nat × Nat) :=
  (m.enum).map (fun p => (p.2.1, p.2.2, p.1))

mutual

/-- The HIR multi-value expression node. -/
inductive HExpr where
  | mk (values : List HSingle)

/-- The HIR single expression node: an output SSA slot and a kind. -/
inductive HSingle where
  | mk (ssa : Nat) (kind : HKind)

/-- A map entry (key and value expressions). -/
inductive HMapEntry where
  | mk (key : HSingle) (val : HSingle)

/-- A binary-segment element: a value and its option expressions. -/
inductive HBinElem where
  | mk (val : HSingle) (opts : List HSingle)

/-- A case or receive clause: patterns, guard and body. -/
inductive HClause where
  | mk (patterns : List HPattern) (guard : HSingle) (body : HSingle)

/-- A pattern: its bind list of (source name, SSA slot) pairs. -/
inductive HPattern where
  | mk (binds : List (Nat × Nat))

/-- A closure function: argument list and body. -/
inductive HFun where
  | mk (args : List HAVar) (body : HSingle)

/-- A closure: the optional recursion alias, the optional function (the
pass unwraps it), and the lambda-env slot. -/
inductive HClosure where
  | mk (aliasVar : Option HAVar) (fn : Option HFun) (env : Option Nat)

/-- The HIR expression kinds handled by assign_ssa_single_expression. -/
inductive HKind where
  | varExpr (v : HAVar)
  | interModuleCall (moduleE : HSingle) (nameE : HSingle) (args : List HSingle)
  | letE (val : HExpr) (vars : List HAVar) (body : HSingle)
  | applyCall (f : HSingle) (args : List HSingle)
  | tryE (body : HExpr) (thenVars : List HAVar) (thenBody : HSingle)
         (catchVars : List HAVar) (catchBody : HSingle)
  | caseE (val : HExpr) (clauses : List HClause) (values : List HSingle)
  | atomic (lit : Nat)
  | namedFunction (name : HAVar) (isLambda : Bool)
  | externalNamedFunction
  | tuple (vals : List HSingle)
  | listE (head : List HSingle) (tail : HSingle)
  | mapE (values : List HMapEntry) (merge : Option HSingle)
  | binary (elems : List HBinElem)
  | primOp (args : List HSingle)
  | doE (e1 : HExpr) (e2 : HSingle)
  | receive (clauses : List HClause) (patternValues : List HSingle)
            (timeoutTime : HSingle) (timeoutBody : HSingle)
  | bindClosure (closure : HClosure) (lambdaEnv : Option Nat) (envSsa : Nat)
  | bindClosures (closures : List HClosure) (body : HSingle)
                 (lambdaEnv : Option Nat) (envSsa : Nat)

end

/-- Accessor: the ssa slot of a single expression. -/
def HSingle.ssaOf : HSingle → Nat
  | .mk ssa _ => ssa

/-- Accessor: the values of an expression. -/
def HExpr.valuesOf : HExpr → List HSingle
  | .mk vs => vs

/-- Let-binding helper of the pass: bind each target variable to the
corresponding per-value SSA of the value expression (a missing value is the
Rust index panic), returning the updated variables and the scope to push
(in hash-map overwrite order: first match in the list is the last insert). -/
def bindLetVars : List HAVar → List HSingle → Except SsaErr (List HAVar × Scope)
  | [], _ => .ok ([], [])
  | _ :: _, [] => .error .valueIndex
  | v :: vs, e :: es =>
    match bindLetVars vs es with
    | .error err => .error err
    | .ok (rest, sc) =>
      .ok ({ v with ssa := e.ssaOf } :: rest,
           sc ++ [(ScopeDefinition.varName v.var, e.ssaOf)])

/-- Fresh-binding helper of the pass: give each variable a fresh SSA name
(catch variables and closure arguments), returning the updated variables and
the scope to push. -/
def bindFreshVars (t : Tracker) : List HAVar → (List HAVar × Scope × Tracker)
  | [] => ([], [], t)
  | v :: vs =>
    let p := t.newSsa
    let rest := bindFreshVars p.2 vs
    ({ v with ssa := p.1 } :: rest.1,
     rest.2.1 ++ [(ScopeDefinition.varName v.var, p.1)], rest.2.2)

/-- Pattern-bind helper: allocate a fresh name for every bind slot of one
pattern. -/
def bindPatternBinds (t : Tracker) : List (Nat × Nat) → (List (Nat × Nat) × Scope × Tracker)
  | [] => ([], [], t)
  | (v, _) :: bs =>
    let p := t.newSsa
    let rest := bindPatternBinds p.2 bs
    ((v, p.1) :: rest.1,
     rest.2.1 ++ [(ScopeDefinition.varName v, p.1)], rest.2.2)

/-- Pattern helper: allocate fresh names across all patterns of a clause,
building the single scope pushed for the clause. -/
def bindPatterns (t : Tracker) : List HPattern → (List HPattern × Scope × Tracker)
  | [] => ([], [], t)
  | .mk binds :: ps =>
    let r1 := bindPatternBinds t binds
    let r2 := bindPatterns r1.2.2 ps
    (.mk r1.1 :: r2.1, r2.2.1 ++ r1.2.1, r2.2.2)

/-- Alias helper of BindClosures: give every closure alias a fresh name of
function kind, building the alias scope; returns the updated alias
variables in closure order (they are reattached when the closure list is
rebuilt by the per-closure loop). -/
def bindAliases (t : Tracker) : List HClosure → Except SsaErr (List HAVar × Scope × Tracker)
  | [] => .ok ([], [], t)
  | .mk a _ _ :: cs =>
    match a with
    | none => .error .missingAlias
    | some av =>
      let p := t.newSsa
      match bindAliases p.2 cs with
      | .error err => .error err
      | .ok (avs, sc, t2) =>
        .ok ({ av with ssa := p.1 } :: avs,
             sc ++ [(ScopeDefinition.funName av.var, p.1)], t2)

mutual

/-- The function assign_ssa_expression of ssa.rs: assign every value of a
multi-value expression in order.  All pass functions carry explicit fuel
(decremented on every call) so that the recursion is structural; a run with
fuel at least the tree size never sees the fuel error. -/
def assignExpr (fuel : Nat) (t : Tracker) (e : HExpr) : Except SsaErr (HExpr × Tracker) :=
  match fuel with
  | 0 => .error .fuelOut
  | fuel + 1 =>
    match e with
    | .mk values =>
      match assignSingleList fuel t values with
      | .error err => .error err
      | .ok (vs, t1) => .ok (.mk vs, t1)

/-- Sequencing helper: assign a list of single expressions in order. -/
def assignSingleList (fuel : Nat) (t : Tracker) (es : List HSingle) :
    Except SsaErr (List HSingle × Tracker) :=
  match fuel with
  | 0 => .error .fuelOut
  | fuel + 1 =>
    match es with
    | [] => .ok ([], t)
    | e :: rest =>
      match assignSingle fuel t e with
      | .error err => .error err
      | .ok (e2, t1) =>
        match assignSingleList fuel t1 rest with
        | .error err => .error err
        | .ok (rest2, t2) => .ok (e2 :: rest2, t2)

/-- Sequencing helper: assign the key and value of each map entry in
order. -/
def assignMapEntries (fuel : Nat) (t : Tracker) (es : List HMapEntry) :
    Except SsaErr (List HMapEntry × Tracker) :=
  match fuel with
  | 0 => .error .fuelOut
  | fuel + 1 =>
    match es with
    | [] => .ok ([], t)
    | .mk k v :: rest =>
      match assignSingle fuel t k with
      | .error err => .error err
      | .ok (k2, t1) =>
        match assignSingle fuel t1 v with
        | .error err => .error err
        | .ok (v2, t2) =>
          match assignMapEntries fuel t2 rest with
          | .error err => .error err
          | .ok (rest2, t3) => .ok (.mk k2 v2 :: rest2, t3)

/-- Sequencing helper: assign the value and option expressions of each
binary element in order. -/
def assignBinElems (fuel : Nat) (t : Tracker) (es : List HBinElem) :
    Except SsaErr (List HBinElem × Tracker) :=
  match fuel with
  | 0 => .error .fuelOut
  | fuel + 1 =>
    match es with
    | [] => .ok ([], t)
    | .mk v opts :: rest =>
      match assignSingle fuel t v with
      | .error err => .error err
      | .ok (v2, t1) =>
        match assignSingleList fuel t1 opts with
        | .error err => .error err
        | .ok (opts2, t2) =>
          match assignBinElems fuel t2 rest with
          | .error err => .error err
          | .ok (rest2, t3) => .ok (.mk v2 opts2 :: rest2, t3)

/-- Clause helper shared by Case and Receive: per clause, allocate fresh
names for all pattern binds, push them as one scope, assign the guard then
the body, pop. -/
def assignClauses (fuel : Nat) (t : Tracker) (cs : List HClause) :
    Except SsaErr (List HClause × Tracker) :=
  match fuel with
  | 0 => .error .fuelOut
  | fuel + 1 =>
    match cs with
    | [] => .ok ([], t)
    | .mk patterns guard body :: rest =>
      let r := bindPatterns t patterns
      let t2 := r.2.2.pushScope r.2.1
      match assignSingle fuel t2 guard with
      | .error err => .error err
      | .ok (g2, t3) =>
        match assignSingle fuel t3 body with
        | .error err => .error err
        | .ok (b2, t4) =>
          match t4.popScope with
          | .error err => .error err
          | .ok t5 =>
            match assignClauses fuel t5 rest with
            | .error err => .error err
            | .ok (rest2, t6) => .ok (.mk r.1 g2 b2 :: rest2, t6)

/-- Per-closure loop of BindClosures: for each closure push a scope of its
freshly named arguments, assign the body, pop. -/
def assignClosuresList (fuel : Nat) (t : Tracker) (aliases : List HAVar) (cs : List HClosure) :
    Except SsaErr (List HClosure × Tracker) :=
  match fuel with
  | 0 => .error .fuelOut
  | fuel + 1 =>
    match cs with
    | [] => .ok ([], t)
    | .mk _ fn env :: rest =>
      match fn with
      | none => .error .missingFun
      | some (.mk args body) =>
        let r := bindFreshVars t args
        let t2 := r.2.2.pushScope r.2.1
        match assignSingle fuel t2 body with
        | .error err => .error err
        | .ok (body2, t3) =>
          match t3.popScope with
          | .error err => .error err
          | .ok t4 =>
            match assignClosuresList fuel t4 aliases.tail rest with
            | .error err => .error err
            | .ok (rest2, t5) =>
              .ok (.mk aliases.head? (some (.mk r.1 body2)) env :: rest2, t5)

/-- The function assign_ssa_single_expression of ssa.rs. -/
def assignSingle (fuel : Nat) (t : Tracker) (e : HSingle) : Except SsaErr (HSingle × Tracker) :=
  match fuel with
  | 0 => .error .fuelOut
  | fuel + 1 =>
    match e with
    | .mk _ kind =>
      match kind with
      | .varExpr v =>
        match t.get (.varName v.var) with
        | some (ssa, t1) => .ok (.mk ssa (.varExpr { v with ssa := ssa }), t1)
        | none => .error (.unboundVariable v.var)
      | .interModuleCall m n args =>
        match assignSingle fuel t m with
        | .error err => .error err
        | .ok (m2, t1) =>
          match assignSingle fuel t1 n with
          | .error err => .error err
          | .ok (n2, t2) =>
            match assignSingleList fuel t2 args with
            | .error err => .error err
            | .ok (args2, t3) =>
              let p := t3.newSsa
              .ok (.mk p.1 (.interModuleCall m2 n2 args2), p.2)
      | .letE val vars body =>
        match assignExpr fuel t val with
        | .error err => .error err
        | .ok (val2, t1) =>
          match bindLetVars vars val2.valuesOf with
          | .error err => .error err
          | .ok (vars2, sc) =>
            match assignSingle fuel (t1.pushScope sc) body with
            | .error err => .error err
            | .ok (body2, t3) =>
              match t3.popScope with
              | .error err => .error err
              | .ok t4 => .ok (.mk body2.ssaOf (.letE val2 vars2 body2), t4)
      | .applyCall f args =>
        match assignSingleList fuel t args with
        | .error err => .error err
        | .ok (args2, t1) =>
          match assignSingle fuel t1 f with
          | .error err => .error err
          | .ok (f2, t2) =>
            let p := t2.newSsa
            .ok (.mk p.1 (.applyCall f2 args2), p.2)
      | .tryE body thenVars thenB catchVars catchB =>
        if body.valuesOf.length = thenVars.length then
          match assignExpr fuel t body with
          | .error err => .error err
          | .ok (body2, t1) =>
            match bindLetVars thenVars body2.valuesOf with
            | .error err => .error err
            | .ok (thenVars2, sc) =>
              match assignSingle fuel (t1.pushScope sc) thenB with
              | .error err => .error err
              | .ok (thenB2, t3) =>
                match t3.popScope with
                | .error err => .error err
                | .ok t4 =>
                  let r := bindFreshVars t4 catchVars
                  match assignSingle fuel (r.2.2.pushScope r.2.1) catchB with
                  | .error err => .error err
                  | .ok (catchB2, t6) =>
                    match t6.popScope with
                    | .error err => .error err
                    | .ok t7 =>
                      let p := t7.newSsa
                      .ok (.mk p.1 (.tryE body2 thenVars2 thenB2 r.1 catchB2), p.2)
        else .error .arityMismatch
      | .caseE val clauses values =>
        match assignExpr fuel t val with
        | .error err => .error err
        | .ok (val2, t1) =>
          match assignSingleList fuel t1 values with
          | .error err => .error err
          | .ok (values2, t2) =>
            match assignClauses fuel t2 clauses with
            | .error err => .error err
            | .ok (clauses2, t3) =>
              let p := t3.newSsa
              .ok (.mk p.1 (.caseE val2 clauses2 values2), p.2)
      | .atomic l =>
        let p := t.newSsa
        .ok (.mk p.1 (.atomic l), p.2)
      | .namedFunction name _ =>
        match t.get (.funName name.var) with
        | some (ssa, t1) => .ok (.mk ssa (.namedFunction name true), t1)
        | none =>
          let p := t.newSsa
          .ok (.mk p.1 (.namedFunction name false), p.2)
      | .externalNamedFunction =>
        let p := t.newSsa
        .ok (.mk p.1 .externalNamedFunction, p.2)
      | .tuple vals =>
        match assignSingleList fuel t vals with
        | .error err => .error err
        | .ok (vals2, t1) =>
          let p := t1.newSsa
          .ok (.mk p.1 (.tuple vals2), p.2)
      | .listE head tl =>
        match assignSingleList fuel t head with
        | .error err => .error err
        | .ok (head2, t1) =>
          match assignSingle fuel t1 tl with
          | .error err => .error err
          | .ok (tl2, t2) =>
            let p := t2.newSsa
            .ok (.mk p.1 (.listE head2 tl2), p.2)
      | .mapE values merge =>
        match assignMapEntries fuel t values with
        | .error err => .error err
        | .ok (values2, t1) =>
          match merge with
          | none =>
            let p := t1.newSsa
            .ok (.mk p.1 (.mapE values2 none), p.2)
          | some mexp =>
            match assignSingle fuel t1 mexp with
            | .error err => .error err
            | .ok (m2, t2) =>
              let p := t2.newSsa
              .ok (.mk p.1 (.mapE values2 (some m2)), p.2)
      | .binary elems =>
        match assignBinElems fuel t elems with
        | .error err => .error err
        | .ok (elems2, t1) =>
          let p := t1.newSsa
          .ok (.mk p.1 (.binary elems2), p.2)
      | .primOp args =>
        match assignSingleList fuel t args with
        | .error err => .error err
        | .ok (args2, t1) =>
          let p := t1.newSsa
          .ok (.mk p.1 (.primOp args2), p.2)
      | .doE e1 e2 =>
        match assignExpr fuel t e1 with
        | .error err => .error err
        | .ok (e12, t1) =>
          match assignSingle fuel t1 e2 with
          | .error err => .error err
          | .ok (e22, t2) => .ok (.mk e22.ssaOf (.doE e12 e22), t2)
      | .receive clauses patternValues tt tb =>
        match assignSingleList fuel t patternValues with
        | .error err => .error err
        | .ok (pv2, t1) =>
          match assignClauses fuel t1 clauses with
          | .error err => .error err
          | .ok (cl2, t2) =>
            match assignSingle fuel t2 tt with
            | .error err => .error err
            | .ok (tt2, t3) =>
              match assignSingle fuel t3 tb with
              | .error err => .error err
              | .ok (tb2, t4) =>
                let p := t4.newSsa
                .ok (.mk p.1 (.receive cl2 pv2 tt2 tb2), p.2)
      | .bindClosure closure _ _ =>
        match closure with
        | .mk a fn _ =>
          match fn with
          | none => .error .missingFun
          | some (.mk args body) =>
            let r := bindFreshVars t.pushTracking args
            match assignSingle fuel (r.2.2.pushScope r.2.1) body with
            | .error err => .error err
            | .ok (body2, t3) =>
              match t3.popScope with
              | .error err => .error err
              | .ok t4 =>
                match t4.popTracking with
                | .error err => .error err
                | .ok (capturesMap, t5) =>
                  let q := t5.addLambdaEnv
                    { captures := capturesOfMap capturesMap, metaBinds := [] }
                  let p1 := q.2.newSsa
                  let p2 := p1.2.newSsa
                  .ok (.mk p2.1 (.bindClosure
                    (.mk a (some (.mk r.1 body2)) (some q.1)) (some q.1) p1.1), p2.2)
      | .bindClosures closures body _ _ =>
        match bindAliases t closures with
        | .error err => .error err
        | .ok (aliases2, aliasSc, t1) =>
          match assignClosuresList fuel ((t1.pushScope aliasSc).pushTracking) aliases2 closures with
          | .error err => .error err
          | .ok (closures3, t4) =>
            match t4.popTracking with
            | .error err => .error err
            | .ok (capturesMap, t5) =>
              let q := t5.addLambdaEnv
                { captures := capturesOfMap capturesMap, metaBinds := [] }
              let closures4 := closures3.map (fun c =>
                match c with | .mk a2 fn2 _ => HClosure.mk a2 fn2 (some q.1))
              match assignSingle fuel q.2 body with
              | .error err => .error err
              | .ok (body2, t7) =>
                match t7.popScope with
                | .error err => .error err
                | .ok t8 =>
                  let p1 := t8.newSsa
                  let p2 := p1.2.newSsa
                  .ok (.mk p2.1 (.bindClosures closures4 body2 (some q.1) p1.1), p2.2)

end

/-- Claim C7, counterexample to the claim as stated: running the pass on
Let x = 1 in Let y = x in y (names 10 and 11, all SSA fields initially 0,
fresh tracker with counter 0) gives the literal the fresh name 0 (this is
n1), binds x to it, and then binds y to the very same name 0 rather than to
a distinct fresh n2: the y-binding, the innermost y-reference and the
result name of the whole expression all equal n1, and the final counter 1
shows that exactly one fresh name was allocated in total, so no n2 was ever
created.  This is the permissive-SSA behaviour announced in the module doc
comment of ssa.rs (a variable may be bound to an existing name). -/
theorem let_scenario_second_binding_not_fresh :
    assignSingle 10 { scopes := [], frames := [], counter := 0, envs := [] }
      (.mk 0 (.letE (.mk [.mk 0 (.atomic 1)]) [⟨10, 0⟩]
        (.mk 0 (.letE (.mk [.mk 0 (.varExpr ⟨10, 0⟩)]) [⟨11, 0⟩]
          (.mk 0 (.varExpr ⟨11, 0⟩))))))
      = .ok (.mk 0 (.letE (.mk [.mk 0 (.atomic 1)]) [⟨10, 0⟩]
          (.mk 0 (.letE (.mk [.mk 0 (.varExpr ⟨10, 0⟩)]) [⟨11, 0⟩]
            (.mk 0 (.varExpr ⟨11, 0⟩))))),
          { scopes := [], frames := [], counter := 1, envs := [] }) := rfl

/-- Claim C7 (amended): on Let x = 1 in Let y = x in y the pass allocates
exactly one fresh name n1 (the initial counter value): the literal gets n1
and x is bound to n1; the inner Let reuses n1 as its value's name; the
inner binding y is also bound to n1 itself (Let bindings reuse the value's
per-value name, no fresh name is allocated for them); the innermost
y-reference resolves to n1; and the result name of the whole expression is
n1.  Stated for an arbitrary initial counter value c, so n1 = c and the
final counter c + 1 shows n1 is the only allocation. -/
theorem let_scenario_permissive_ssa (c : Nat) :
    assignSingle 10 { scopes := [], frames := [], counter := c, envs := [] }
      (.mk 0 (.letE (.mk [.mk 0 (.atomic 1)]) [⟨10, 0⟩]
        (.mk 0 (.letE (.mk [.mk 0 (.varExpr ⟨10, 0⟩)]) [⟨11, 0⟩]
          (.mk 0 (.varExpr ⟨11, 0⟩))))))
      = .ok (.mk c (.letE (.mk [.mk c (.atomic 1)]) [⟨10, c⟩]
          (.mk c (.letE (.mk [.mk c (.varExpr ⟨10, c⟩)]) [⟨11, c⟩]
            (.mk c (.varExpr ⟨11, c⟩))))),
          { scopes := [], frames := [], counter := c + 1, envs := [] }) := rfl

/-! ## Tracker invariants for the SSA pass claims -/

/-- Capture lists whose keys are all of value-variable kind. -/
def capsVarOnly (l : List (ScopeDefinition × Nat)) : Prop :=
  ∀ p ∈ l, ∃ n, p.1 = ScopeDefinition.varName n

/-- Every tracking frame of the tracker holds only variable-kind captures. -/
def framesVarOnly (t : Tracker) : Prop :=
  ∀ fr ∈ t.frames, capsVarOnly fr.captures

theorem register_capsVarOnly (fr : Frame) (k : ScopeDefinition) (ssa depth : Nat)
    (h : capsVarOnly fr.captures) : capsVarOnly (fr.register k ssa depth).captures := by
  unfold Frame.register
  cases k with
  | funName nm => exact h
  | varName nm =>
    by_cases h1 : depth < fr.start
    · rw [if_pos h1]
      by_cases h2 : fr.captures.any (fun p => p.1 = ScopeDefinition.varName nm) = true
      · rw [if_pos h2]; exact h
      · rw [if_neg h2]
        intro p hp
        simp only [List.mem_append, List.mem_singleton] at hp
        rcases hp with hp | hp
        · exact h p hp
        · exact ⟨nm, by rw [hp]⟩
    · rw [if_neg h1]; exact h

theorem get_framesVarOnly (t : Tracker) (k : ScopeDefinition) (ssa : Nat) (t1 : Tracker)
    (heq : t.get k = some (ssa, t1)) (h : framesVarOnly t) : framesVarOnly t1 := by
  unfold Tracker.get at heq
  cases hl : lookupScopes t.scopes k with
  | none => rw [hl] at heq; cases heq
  | some p =>
    rw [hl] at heq
    simp only [Option.some.injEq, Prod.mk.injEq] at heq
    obtain ⟨h1, h2⟩ := heq
    subst h2
    intro fr hfr
    simp only [List.mem_map] at hfr
    obtain ⟨fr0, hfr0, hfr0e⟩ := hfr
    subst hfr0e
    exact register_capsVarOnly fr0 k p.1 _ (h fr0 hfr0)

theorem popTracking_framesVarOnly (t : Tracker) (m : List (ScopeDefinition × Nat)) (t1 : Tracker)
    (heq : t.popTracking = .ok (m, t1)) (h : framesVarOnly t) :
    capsVarOnly m ∧ framesVarOnly t1 := by
  unfold Tracker.popTracking at heq
  cases hf : t.frames with
  | nil => rw [hf] at heq; cases heq
  | cons fr rest =>
    rw [hf] at heq
    simp only [Except.ok.injEq, Prod.mk.injEq] at heq
    obtain ⟨h1, h2⟩ := heq
    subst h1
    subst h2
    constructor
    · exact h fr (by rw [hf]; exact List.mem_cons_self _ _)
    · intro fr2 hfr2
      exact h fr2 (by rw [hf]; exact List.mem_cons_of_mem _ hfr2)

theorem pushScope_framesVarOnly (t : Tracker) (sc : Scope) (h : framesVarOnly t) :
    framesVarOnly (t.pushScope sc) := h

theorem popScope_framesVarOnly (t : Tracker) (t1 : Tracker)
    (heq : t.popScope = .ok t1) (h : framesVarOnly t) : framesVarOnly t1 := by
  unfold Tracker.popScope at heq
  cases hs : t.scopes with
  | nil => rw [hs] at heq; cases heq
  | cons a rest =>
    rw [hs] at heq
    simp only [Except.ok.injEq] at heq
    subst heq
    exact h

theorem pushTracking_framesVarOnly (t : Tracker) (h : framesVarOnly t) :
    framesVarOnly t.pushTracking := by
  intro fr hfr
  simp only [Tracker.pushTracking, List.mem_cons] at hfr
  rcases hfr with hfr | hfr
  · subst hfr; intro p hp; cases hp
  · exact h fr hfr

theorem newSsa_framesVarOnly (t : Tracker) (h : framesVarOnly t) :
    framesVarOnly (t.newSsa).2 := h

theorem addLambdaEnv_framesVarOnly (t : Tracker) (env : LambdaEnv) (h : framesVarOnly t) :
    framesVarOnly (t.addLambdaEnv env).2 := h

theorem bindFreshVars_frames (t : Tracker) (vs : List HAVar) :
    ((bindFreshVars t vs).2.2).frames = t.frames := by
  induction vs generalizing t with
  | nil => rfl
  | cons v vs ih => simp only [bindFreshVars]; rw [ih]; rfl

theorem bindPatternBinds_frames (t : Tracker) (bs : List (Nat × Nat)) :
    ((bindPatternBinds t bs).2.2).frames = t.frames := by
  induction bs generalizing t with
  | nil => rfl
  | cons b bs ih =>
    cases b with
    | mk v s => simp only [bindPatternBinds]; rw [ih]; rfl

theorem bindPatterns_frames (t : Tracker) (ps : List HPattern) :
    ((bindPatterns t ps).2.2).frames = t.frames := by
  induction ps generalizing t with
  | nil => rfl
  | cons p ps ih =>
    cases p with
    | mk binds =>
      simp only [bindPatterns]
      rw [ih, bindPatternBinds_frames]

theorem bindAliases_frames (t : Tracker) (cs : List HClosure) (avs : List HAVar)
    (sc : Scope) (t2 : Tracker) (heq : bindAliases t cs = .ok (avs, sc, t2)) :
    t2.frames = t.frames := by
  induction cs generalizing t avs sc t2 with
  | nil =>
    simp only [bindAliases, Except.ok.injEq, Prod.mk.injEq] at heq
    rw [← heq.2.2]
  | cons c cs ih =>
    cases c with
    | mk a fn env =>
      simp only [bindAliases] at heq
      cases a with
      | none => cases heq
      | some av =>
        cases hr : bindAliases (Tracker.newSsa t).2 cs with
        | error err => rw [hr] at heq; cases heq
        | ok p =>
          rw [hr] at heq
          simp only [Except.ok.injEq, Prod.mk.injEq] at heq
          obtain ⟨p1, p2, p3⟩ := p
          have := ih (Tracker.newSsa t).2 p1 p2 p3 (by rw [hr])
          rw [← heq.2.2, this]
          rfl


theorem framesVarOnly_of_eq (t t' : Tracker) (h : t'.frames = t.frames)
    (hv : framesVarOnly t) : framesVarOnly t' := by
  unfold framesVarOnly
  rw [h]
  exact hv


/-- A step invariant: a reflexive transitive relation on tracker states that
every primitive tracker operation of the pass satisfies.  The pass functions
then carry any such relation from input to output state. -/
structure StepInv (P : Tracker → Tracker → Prop) : Prop where
  refl : ∀ t, P t t
  trans : ∀ a b c, P a b → P b c → P a c
  get : ∀ t k s t2, t.get k = some (s, t2) → P t t2
  pushScope : ∀ t sc, P t (t.pushScope sc)
  popScope : ∀ t t2, t.popScope = .ok t2 → P t t2
  pushTracking : ∀ t, P t t.pushTracking
  popTracking : ∀ t m t2, t.popTracking = .ok (m, t2) → P t t2
  newSsa : ∀ t, P t (t.newSsa).2
  addEnv : ∀ t env, P t (t.addLambdaEnv env).2
  bindFresh : ∀ t vs, P t ((bindFreshVars t vs).2.2)
  bindPats : ∀ t ps, P t ((bindPatterns t ps).2.2)
  bindAls : ∀ t cs avs sc t2, bindAliases t cs = .ok (avs, sc, t2) → P t t2

structure PassPres (P : Tracker → Tracker → Prop) (fuel : Nat) : Prop where
  expr : ∀ t e r, assignExpr fuel t e = .ok r → P t r.2
  singleList : ∀ t es r, assignSingleList fuel t es = .ok r → P t r.2
  mapEntries : ∀ t es r, assignMapEntries fuel t es = .ok r → P t r.2
  binElems : ∀ t es r, assignBinElems fuel t es = .ok r → P t r.2
  clauses : ∀ t cs r, assignClauses fuel t cs = .ok r → P t r.2
  closList : ∀ t als cs r, assignClosuresList fuel t als cs = .ok r → P t r.2
  single : ∀ t e r, assignSingle fuel t e = .ok r → P t r.2

theorem passPres_zero (P : Tracker → Tracker → Prop) : PassPres P 0 := by
  constructor
  · intro t e r heq; cases heq
  · intro t es r heq; cases heq
  · intro t es r heq; cases heq
  · intro t es r heq; cases heq
  · intro t cs r heq; cases heq
  · intro t als cs r heq; cases heq
  · intro t e r heq; cases heq

theorem passPres_succ (P : Tracker → Tracker → Prop) (hP : StepInv P) (fuel : Nat)
    (IH : PassPres P fuel) : PassPres P (fuel + 1) := by
  constructor
  · -- assignExpr
    intro t e r heq
    cases e with
    | mk values =>
      rw [assignExpr] at heq
      cases h1 : assignSingleList fuel t values with
      | error err => rw [h1] at heq; cases heq
      | ok p =>
        obtain ⟨vs, t1⟩ := p
        rw [h1] at heq
        dsimp only at heq
        simp only [Except.ok.injEq] at heq
        subst heq
        exact IH.singleList t values (vs, t1) h1
  · -- assignSingleList
    intro t es r heq
    cases es with
    | nil =>
      rw [assignSingleList] at heq
      simp only [Except.ok.injEq] at heq
      subst heq
      exact hP.refl t
    | cons e rest =>
      rw [assignSingleList] at heq
      cases h1 : assignSingle fuel t e with
      | error err => rw [h1] at heq; cases heq
      | ok p =>
        obtain ⟨e2, t1⟩ := p
        rw [h1] at heq
        dsimp only at heq
        cases h2 : assignSingleList fuel t1 rest with
        | error err => rw [h2] at heq; cases heq
        | ok q =>
          obtain ⟨rest2, t2⟩ := q
          rw [h2] at heq
          dsimp only at heq
          simp only [Except.ok.injEq] at heq
          subst heq
          exact hP.trans _ _ _ (IH.single t e (e2, t1) h1) (IH.singleList t1 rest (rest2, t2) h2)
  · -- assignMapEntries
    intro t es r heq
    cases es with
    | nil =>
      rw [assignMapEntries] at heq
      simp only [Except.ok.injEq] at heq
      subst heq
      exact hP.refl t
    | cons e rest =>
      cases e with
      | mk k v =>
        rw [assignMapEntries] at heq
        cases h1 : assignSingle fuel t k with
        | error err => rw [h1] at heq; cases heq
        | ok p =>
          obtain ⟨k2, t1⟩ := p
          rw [h1] at heq
          dsimp only at heq
          cases h2 : assignSingle fuel t1 v with
          | error err => rw [h2] at heq; cases heq
          | ok q =>
            obtain ⟨v2, t2⟩ := q
            rw [h2] at heq
            dsimp only at heq
            cases h3 : assignMapEntries fuel t2 rest with
            | error err => rw [h3] at heq; cases heq
            | ok w =>
              obtain ⟨rest2, t3⟩ := w
              rw [h3] at heq
              dsimp only at heq
              simp only [Except.ok.injEq] at heq
              subst heq
              exact hP.trans _ _ _ (IH.single t k (k2, t1) h1)
                (hP.trans _ _ _ (IH.single t1 v (v2, t2) h2)
                  (IH.mapEntries t2 rest (rest2, t3) h3))
  · -- assignBinElems
    intro t es r heq
    cases es with
    | nil =>
      rw [assignBinElems] at heq
      simp only [Except.ok.injEq] at heq
      subst heq
      exact hP.refl t
    | cons e rest =>
      cases e with
      | mk v opts =>
        rw [assignBinElems] at heq
        cases h1 : assignSingle fuel t v with
        | error err => rw [h1] at heq; cases heq
        | ok p =>
          obtain ⟨v2, t1⟩ := p
          rw [h1] at heq
          dsimp only at heq
          cases h2 : assignSingleList fuel t1 opts with
          | error err => rw [h2] at heq; cases heq
          | ok q =>
            obtain ⟨opts2, t2⟩ := q
            rw [h2] at heq
            dsimp only at heq
            cases h3 : assignBinElems fuel t2 rest with
            | error err => rw [h3] at heq; cases heq
            | ok w =>
              obtain ⟨rest2, t3⟩ := w
              rw [h3] at heq
              dsimp only at heq
              simp only [Except.ok.injEq] at heq
              subst heq
              exact hP.trans _ _ _ (IH.single t v (v2, t1) h1)
                (hP.trans _ _ _ (IH.singleList t1 opts (opts2, t2) h2)
                  (IH.binElems t2 rest (rest2, t3) h3))
  · -- assignClauses
    intro t cs r heq
    cases cs with
    | nil =>
      rw [assignClauses] at heq
      simp only [Except.ok.injEq] at heq
      subst heq
      exact hP.refl t
    | cons c rest =>
      cases c with
      | mk patterns guard body =>
        rw [assignClauses] at heq
        cases h1 : assignSingle fuel (((bindPatterns t patterns).2.2).pushScope
            (bindPatterns t patterns).2.1) guard with
        | error err => rw [h1] at heq; cases heq
        | ok p =>
          obtain ⟨g2, t3⟩ := p
          rw [h1] at heq
          dsimp only at heq
          cases h2 : assignSingle fuel t3 body with
          | error err => rw [h2] at heq; cases heq
          | ok q =>
            obtain ⟨b2, t4⟩ := q
            rw [h2] at heq
            dsimp only at heq
            cases h3 : t4.popScope with
            | error err => rw [h3] at heq; cases heq
            | ok t5 =>
              rw [h3] at heq
              dsimp only at heq
              cases h4 : assignClauses fuel t5 rest with
              | error err => rw [h4] at heq; cases heq
              | ok w =>
                obtain ⟨rest2, t6⟩ := w
                rw [h4] at heq
                dsimp only at heq
                simp only [Except.ok.injEq] at heq
                subst heq
                have p0 : P t (((bindPatterns t patterns).2.2).pushScope
                    (bindPatterns t patterns).2.1) :=
                  hP.trans _ _ _ (hP.bindPats t patterns) (hP.pushScope _ _)
                exact hP.trans _ _ _ p0 (hP.trans _ _ _ (IH.single _ guard (g2, t3) h1)
                  (hP.trans _ _ _ (IH.single t3 body (b2, t4) h2)
                    (hP.trans _ _ _ (hP.popScope t4 t5 h3)
                      (IH.clauses t5 rest (rest2, t6) h4))))
  · -- assignClosuresList
    intro t als cs r heq
    cases cs with
    | nil =>
      rw [assignClosuresList.eq_def] at heq
      dsimp only at heq
      simp only [Except.ok.injEq] at heq
      subst heq
      exact hP.refl t
    | cons c rest =>
      cases c with
      | mk a fn env =>
        rw [assignClosuresList.eq_def] at heq
        cases fn with
        | none => cases heq
        | some f =>
          cases f with
          | mk args body =>
            dsimp only at heq
            cases h1 : assignSingle fuel (((bindFreshVars t args).2.2).pushScope
                (bindFreshVars t args).2.1) body with
            | error err => rw [h1] at heq; cases heq
            | ok p =>
              obtain ⟨b2, t3⟩ := p
              rw [h1] at heq
              dsimp only at heq
              cases h2 : t3.popScope with
              | error err => rw [h2] at heq; cases heq
              | ok t4 =>
                rw [h2] at heq
                dsimp only at heq
                cases h3 : assignClosuresList fuel t4 als.tail rest with
                | error err => rw [h3] at heq; cases heq
                | ok w =>
                  obtain ⟨rest2, t5⟩ := w
                  rw [h3] at heq
                  dsimp only at heq
                  simp only [Except.ok.injEq] at heq
                  subst heq
                  have p0 : P t (((bindFreshVars t args).2.2).pushScope
                      (bindFreshVars t args).2.1) :=
                    hP.trans _ _ _ (hP.bindFresh t args) (hP.pushScope _ _)
                  exact hP.trans _ _ _ p0 (hP.trans _ _ _ (IH.single _ body (b2, t3) h1)
                    (hP.trans _ _ _ (hP.popScope t3 t4 h2)
                      (IH.closList t4 als.tail rest (rest2, t5) h3)))
  · -- assignSingle
    intro t e r heq
    cases e with
    | mk ssa0 kind =>
      cases kind with
      | varExpr v =>
        rw [assignSingle.eq_def] at heq
        dsimp only at heq
        cases h1 : t.get (.varName v.var) with
        | none => rw [h1] at heq; cases heq
        | some p =>
          obtain ⟨ssa1, t1⟩ := p
          rw [h1] at heq
          dsimp only at heq
          simp only [Except.ok.injEq] at heq
          subst heq
          exact hP.get t _ ssa1 t1 h1
      | interModuleCall m nm args =>
        rw [assignSingle.eq_def] at heq
        dsimp only at heq
        cases h1 : assignSingle fuel t m with
        | error err => rw [h1] at heq; cases heq
        | ok p =>
          obtain ⟨m2, t1⟩ := p
          rw [h1] at heq
          dsimp only at heq
          cases h2 : assignSingle fuel t1 nm with
          | error err => rw [h2] at heq; cases heq
          | ok q =>
            obtain ⟨n2, t2⟩ := q
            rw [h2] at heq
            dsimp only at heq
            cases h3 : assignSingleList fuel t2 args with
            | error err => rw [h3] at heq; cases heq
            | ok w =>
              obtain ⟨args2, t3⟩ := w
              rw [h3] at heq
              dsimp only at heq
              simp only [Except.ok.injEq] at heq
              subst heq
              exact hP.trans _ _ _ (IH.single t m (m2, t1) h1)
                (hP.trans _ _ _ (IH.single t1 nm (n2, t2) h2)
                  (hP.trans _ _ _ (IH.singleList t2 args (args2, t3) h3) (hP.newSsa t3)))
      | letE val vars body =>
        rw [assignSingle.eq_def] at heq
        dsimp only at heq
        cases h1 : assignExpr fuel t val with
        | error err => rw [h1] at heq; cases heq
        | ok p =>
          obtain ⟨val2, t1⟩ := p
          rw [h1] at heq
          dsimp only at heq
          cases h2 : bindLetVars vars val2.valuesOf with
          | error err => rw [h2] at heq; cases heq
          | ok q =>
            obtain ⟨vars2, sc⟩ := q
            rw [h2] at heq
            dsimp only at heq
            cases h3 : assignSingle fuel (t1.pushScope sc) body with
            | error err => rw [h3] at heq; cases heq
            | ok w =>
              obtain ⟨body2, t3⟩ := w
              rw [h3] at heq
              dsimp only at heq
              cases h4 : t3.popScope with
              | error err => rw [h4] at heq; cases heq
              | ok t4 =>
                rw [h4] at heq
                dsimp only at heq
                simp only [Except.ok.injEq] at heq
                subst heq
                exact hP.trans _ _ _ (IH.expr t val (val2, t1) h1)
                  (hP.trans _ _ _ (hP.pushScope t1 sc)
                    (hP.trans _ _ _ (IH.single _ body (body2, t3) h3)
                      (hP.popScope t3 t4 h4)))
      | applyCall f args =>
        rw [assignSingle.eq_def] at heq
        dsimp only at heq
        cases h1 : assignSingleList fuel t args with
        | error err => rw [h1] at heq; cases heq
        | ok p =>
          obtain ⟨args2, t1⟩ := p
          rw [h1] at heq
          dsimp only at heq
          cases h2 : assignSingle fuel t1 f with
          | error err => rw [h2] at heq; cases heq
          | ok q =>
            obtain ⟨f2, t2⟩ := q
            rw [h2] at heq
            dsimp only at heq
            simp only [Except.ok.injEq] at heq
            subst heq
            exact hP.trans _ _ _ (IH.singleList t args (args2, t1) h1)
              (hP.trans _ _ _ (IH.single t1 f (f2, t2) h2) (hP.newSsa t2))
      | tryE body thenVars thenB catchVars catchB =>
        rw [assignSingle.eq_def] at heq
        dsimp only at heq
        by_cases hc : body.valuesOf.length = thenVars.length
        · rw [if_pos hc] at heq
          cases h1 : assignExpr fuel t body with
          | error err => rw [h1] at heq; cases heq
          | ok p =>
            obtain ⟨body2, t1⟩ := p
            rw [h1] at heq
            dsimp only at heq
            cases h2 : bindLetVars thenVars body2.valuesOf with
            | error err => rw [h2] at heq; cases heq
            | ok q =>
              obtain ⟨thenVars2, sc⟩ := q
              rw [h2] at heq
              dsimp only at heq
              cases h3 : assignSingle fuel (t1.pushScope sc) thenB with
              | error err => rw [h3] at heq; cases heq
              | ok w =>
                obtain ⟨thenB2, t3⟩ := w
                rw [h3] at heq
                dsimp only at heq
                cases h4 : t3.popScope with
                | error err => rw [h4] at heq; cases heq
                | ok t4 =>
                  rw [h4] at heq
                  dsimp only at heq
                  cases h5 : assignSingle fuel
                      (((bindFreshVars t4 catchVars).2.2).pushScope
                        (bindFreshVars t4 catchVars).2.1) catchB with
                  | error err => rw [h5] at heq; cases heq
                  | ok w2 =>
                    obtain ⟨catchB2, t6⟩ := w2
                    rw [h5] at heq
                    dsimp only at heq
                    cases h6 : t6.popScope with
                    | error err => rw [h6] at heq; cases heq
                    | ok t7 =>
                      rw [h6] at heq
                      dsimp only at heq
                      simp only [Except.ok.injEq] at heq
                      subst heq
                      exact hP.trans _ _ _ (IH.expr t body (body2, t1) h1)
                        (hP.trans _ _ _ (hP.pushScope t1 sc)
                          (hP.trans _ _ _ (IH.single _ thenB (thenB2, t3) h3)
                            (hP.trans _ _ _ (hP.popScope t3 t4 h4)
                              (hP.trans _ _ _ (hP.bindFresh t4 catchVars)
                                (hP.trans _ _ _ (hP.pushScope _ _)
                                  (hP.trans _ _ _ (IH.single _ catchB (catchB2, t6) h5)
                                    (hP.trans _ _ _ (hP.popScope t6 t7 h6)
                                      (hP.newSsa t7))))))))
        · rw [if_neg hc] at heq
          cases heq
      | caseE val clauses values =>
        rw [assignSingle.eq_def] at heq
        dsimp only at heq
        cases h1 : assignExpr fuel t val with
        | error err => rw [h1] at heq; cases heq
        | ok p =>
          obtain ⟨val2, t1⟩ := p
          rw [h1] at heq
          dsimp only at heq
          cases h2 : assignSingleList fuel t1 values with
          | error err => rw [h2] at heq; cases heq
          | ok q =>
            obtain ⟨values2, t2⟩ := q
            rw [h2] at heq
            dsimp only at heq
            cases h3 : assignClauses fuel t2 clauses with
            | error err => rw [h3] at heq; cases heq
            | ok w =>
              obtain ⟨clauses2, t3⟩ := w
              rw [h3] at heq
              dsimp only at heq
              simp only [Except.ok.injEq] at heq
              subst heq
              exact hP.trans _ _ _ (IH.expr t val (val2, t1) h1)
                (hP.trans _ _ _ (IH.singleList t1 values (values2, t2) h2)
                  (hP.trans _ _ _ (IH.clauses t2 clauses (clauses2, t3) h3) (hP.newSsa t3)))
      | atomic l =>
        rw [assignSingle.eq_def] at heq
        dsimp only at heq
        simp only [Except.ok.injEq] at heq
        subst heq
        exact hP.newSsa t
      | namedFunction name isL =>
        rw [assignSingle.eq_def] at heq
        dsimp only at heq
        cases h1 : t.get (.funName name.var) with
        | none =>
          rw [h1] at heq
          dsimp only at heq
          simp only [Except.ok.injEq] at heq
          subst heq
          exact hP.newSsa t
        | some p =>
          obtain ⟨ssa1, t1⟩ := p
          rw [h1] at heq
          dsimp only at heq
          simp only [Except.ok.injEq] at heq
          subst heq
          exact hP.get t _ ssa1 t1 h1
      | externalNamedFunction =>
        rw [assignSingle.eq_def] at heq
        dsimp only at heq
        simp only [Except.ok.injEq] at heq
        subst heq
        exact hP.newSsa t
      | tuple vals =>
        rw [assignSingle.eq_def] at heq
        dsimp only at heq
        cases h1 : assignSingleList fuel t vals with
        | error err => rw [h1] at heq; cases heq
        | ok p =>
          obtain ⟨vals2, t1⟩ := p
          rw [h1] at heq
          dsimp only at heq
          simp only [Except.ok.injEq] at heq
          subst heq
          exact hP.trans _ _ _ (IH.singleList t vals (vals2, t1) h1) (hP.newSsa t1)
      | listE head tl =>
        rw [assignSingle.eq_def] at heq
        dsimp only at heq
        cases h1 : assignSingleList fuel t head with
        | error err => rw [h1] at heq; cases heq
        | ok p =>
          obtain ⟨head2, t1⟩ := p
          rw [h1] at heq
          dsimp only at heq
          cases h2 : assignSingle fuel t1 tl with
          | error err => rw [h2] at heq; cases heq
          | ok q =>
            obtain ⟨tl2, t2⟩ := q
            rw [h2] at heq
            dsimp only at heq
            simp only [Except.ok.injEq] at heq
            subst heq
            exact hP.trans _ _ _ (IH.singleList t head (head2, t1) h1)
              (hP.trans _ _ _ (IH.single t1 tl (tl2, t2) h2) (hP.newSsa t2))
      | mapE values merge =>
        rw [assignSingle.eq_def] at heq
        dsimp only at heq
        cases h1 : assignMapEntries fuel t values with
        | error err => rw [h1] at heq; cases heq
        | ok p =>
          obtain ⟨values2, t1⟩ := p
          rw [h1] at heq
          cases merge with
          | none =>
            dsimp only at heq
            simp only [Except.ok.injEq] at heq
            subst heq
            exact hP.trans _ _ _ (IH.mapEntries t values (values2, t1) h1) (hP.newSsa t1)
          | some mexp =>
            dsimp only at heq
            cases h2 : assignSingle fuel t1 mexp with
            | error err => rw [h2] at heq; cases heq
            | ok q =>
              obtain ⟨m2, t2⟩ := q
              rw [h2] at heq
              dsimp only at heq
              simp only [Except.ok.injEq] at heq
              subst heq
              exact hP.trans _ _ _ (IH.mapEntries t values (values2, t1) h1)
                (hP.trans _ _ _ (IH.single t1 mexp (m2, t2) h2) (hP.newSsa t2))
      | binary elems =>
        rw [assignSingle.eq_def] at heq
        dsimp only at heq
        cases h1 : assignBinElems fuel t elems with
        | error err => rw [h1] at heq; cases heq
        | ok p =>
          obtain ⟨elems2, t1⟩ := p
          rw [h1] at heq
          dsimp only at heq
          simp only [Except.ok.injEq] at heq
          subst heq
          exact hP.trans _ _ _ (IH.binElems t elems (elems2, t1) h1) (hP.newSsa t1)
      | primOp args =>
        rw [assignSingle.eq_def] at heq
        dsimp only at heq
        cases h1 : assignSingleList fuel t args with
        | error err => rw [h1] at heq; cases heq
        | ok p =>
          obtain ⟨args2, t1⟩ := p
          rw [h1] at heq
          dsimp only at heq
          simp only [Except.ok.injEq] at heq
          subst heq
          exact hP.trans _ _ _ (IH.singleList t args (args2, t1) h1) (hP.newSsa t1)
      | doE e1 e2 =>
        rw [assignSingle.eq_def] at heq
        dsimp only at heq
        cases h1 : assignExpr fuel t e1 with
        | error err => rw [h1] at heq; cases heq
        | ok p =>
          obtain ⟨e12, t1⟩ := p
          rw [h1] at heq
          dsimp only at heq
          cases h2 : assignSingle fuel t1 e2 with
          | error err => rw [h2] at heq; cases heq
          | ok q =>
            obtain ⟨e22, t2⟩ := q
            rw [h2] at heq
            dsimp only at heq
            simp only [Except.ok.injEq] at heq
            subst heq
            exact hP.trans _ _ _ (IH.expr t e1 (e12, t1) h1) (IH.single t1 e2 (e22, t2) h2)
      | receive clauses patternValues tt tb =>
        rw [assignSingle.eq_def] at heq
        dsimp only at heq
        cases h1 : assignSingleList fuel t patternValues with
        | error err => rw [h1] at heq; cases heq
        | ok p =>
          obtain ⟨pv2, t1⟩ := p
          rw [h1] at heq
          dsimp only at heq
          cases h2 : assignClauses fuel t1 clauses with
          | error err => rw [h2] at heq; cases heq
          | ok q =>
            obtain ⟨cl2, t2⟩ := q
            rw [h2] at heq
            dsimp only at heq
            cases h3 : assignSingle fuel t2 tt with
            | error err => rw [h3] at heq; cases heq
            | ok w =>
              obtain ⟨tt2, t3⟩ := w
              rw [h3] at heq
              dsimp only at heq
              cases h4 : assignSingle fuel t3 tb with
              | error err => rw [h4] at heq; cases heq
              | ok w2 =>
                obtain ⟨tb2, t4⟩ := w2
                rw [h4] at heq
                dsimp only at heq
                simp only [Except.ok.injEq] at heq
                subst heq
                exact hP.trans _ _ _ (IH.singleList t patternValues (pv2, t1) h1)
                  (hP.trans _ _ _ (IH.clauses t1 clauses (cl2, t2) h2)
                    (hP.trans _ _ _ (IH.single t2 tt (tt2, t3) h3)
                      (hP.trans _ _ _ (IH.single t3 tb (tb2, t4) h4) (hP.newSsa t4))))
      | bindClosure closure lam envSsa =>
        rw [assignSingle.eq_def] at heq
        cases closure with
        | mk a fn envSlot =>
          cases fn with
          | none => cases heq
          | some f =>
            cases f with
            | mk args body =>
              dsimp only at heq
              cases h1 : assignSingle fuel
                  (((bindFreshVars t.pushTracking args).2.2).pushScope
                    (bindFreshVars t.pushTracking args).2.1) body with
              | error err => rw [h1] at heq; cases heq
              | ok p =>
                obtain ⟨body2, t3⟩ := p
                rw [h1] at heq
                dsimp only at heq
                cases h2 : t3.popScope with
                | error err => rw [h2] at heq; cases heq
                | ok t4 =>
                  rw [h2] at heq
                  dsimp only at heq
                  cases h3 : t4.popTracking with
                  | error err => rw [h3] at heq; cases heq
                  | ok w =>
                    obtain ⟨capturesMap, t5⟩ := w
                    rw [h3] at heq
                    dsimp only at heq
                    simp only [Except.ok.injEq] at heq
                    subst heq
                    exact hP.trans _ _ _ (hP.pushTracking t)
                      (hP.trans _ _ _ (hP.bindFresh t.pushTracking args)
                        (hP.trans _ _ _ (hP.pushScope _ _)
                          (hP.trans _ _ _ (IH.single _ body (body2, t3) h1)
                            (hP.trans _ _ _ (hP.popScope t3 t4 h2)
                              (hP.trans _ _ _ (hP.popTracking t4 capturesMap t5 h3)
                                (hP.trans _ _ _ (hP.addEnv t5 _)
                                  (hP.trans _ _ _ (hP.newSsa _) (hP.newSsa _))))))))
      | bindClosures closures body lam envSsa =>
        rw [assignSingle.eq_def] at heq
        dsimp only at heq
        cases h1 : bindAliases t closures with
        | error err => rw [h1] at heq; cases heq
        | ok p =>
          obtain ⟨aliases2, aliasSc, t1⟩ := p
          rw [h1] at heq
          dsimp only at heq
          cases h2 : assignClosuresList fuel ((t1.pushScope aliasSc).pushTracking)
              aliases2 closures with
          | error err => rw [h2] at heq; cases heq
          | ok q =>
            obtain ⟨closures3, t4⟩ := q
            rw [h2] at heq
            dsimp only at heq
            cases h3 : t4.popTracking with
            | error err => rw [h3] at heq; cases heq
            | ok w =>
              obtain ⟨capturesMap, t5⟩ := w
              rw [h3] at heq
              dsimp only at heq
              cases h4 : assignSingle fuel
                  ((t5.addLambdaEnv
                    { captures := capturesOfMap capturesMap, metaBinds := [] }).2) body with
              | error err => rw [h4] at heq; cases heq
              | ok w2 =>
                obtain ⟨body2, t7⟩ := w2
                rw [h4] at heq
                dsimp only at heq
                cases h5 : t7.popScope with
                | error err => rw [h5] at heq; cases heq
                | ok t8 =>
                  rw [h5] at heq
                  dsimp only at heq
                  simp only [Except.ok.injEq] at heq
                  subst heq
                  exact hP.trans _ _ _ (hP.bindAls t closures aliases2 aliasSc t1 h1)
                    (hP.trans _ _ _ (hP.pushScope t1 aliasSc)
                      (hP.trans _ _ _ (hP.pushTracking _)
                        (hP.trans _ _ _ (IH.closList _ aliases2 closures (closures3, t4) h2)
                          (hP.trans _ _ _ (hP.popTracking t4 capturesMap t5 h3)
                            (hP.trans _ _ _ (hP.addEnv t5 _)
                              (hP.trans _ _ _ (IH.single _ body (body2, t7) h4)
                                (hP.trans _ _ _ (hP.popScope t7 t8 h5)
                                  (hP.trans _ _ _ (hP.newSsa _) (hP.newSsa _)))))))))

theorem passPres_all (P : Tracker → Tracker → Prop) (hP : StepInv P) (fuel : Nat) :
    PassPres P fuel := by
  induction fuel with
  | zero => exact passPres_zero P
  | succ fuel IH => exact passPres_succ P hP fuel IH

theorem stepInv_framesVarOnly :
    StepInv (fun a b => framesVarOnly a → framesVarOnly b) := by
  constructor
  · intro t h; exact h
  · intro a b c h1 h2 h; exact h2 (h1 h)
  · intro t k s t2 heq h; exact get_framesVarOnly t k s t2 heq h
  · intro t sc h; exact pushScope_framesVarOnly t sc h
  · intro t t2 heq h; exact popScope_framesVarOnly t t2 heq h
  · intro t h; exact pushTracking_framesVarOnly t h
  · intro t m t2 heq h; exact (popTracking_framesVarOnly t m t2 heq h).2
  · intro t h; exact newSsa_framesVarOnly t h
  · intro t env h; exact addLambdaEnv_framesVarOnly t env h
  · intro t vs h; exact framesVarOnly_of_eq _ _ (bindFreshVars_frames t vs) h
  · intro t ps h; exact framesVarOnly_of_eq _ _ (bindPatterns_frames t ps) h
  · intro t cs avs sc t2 heq h
    exact framesVarOnly_of_eq _ _ (bindAliases_frames t cs avs sc t2 heq) h

theorem bindFreshVars_envs (t : Tracker) (vs : List HAVar) :
    ((bindFreshVars t vs).2.2).envs = t.envs := by
  induction vs generalizing t with
  | nil => rfl
  | cons v vs ih => simp only [bindFreshVars]; rw [ih]; rfl

theorem bindPatternBinds_envs (t : Tracker) (bs : List (Nat × Nat)) :
    ((bindPatternBinds t bs).2.2).envs = t.envs := by
  induction bs generalizing t with
  | nil => rfl
  | cons b bs ih =>
    cases b with
    | mk v s => simp only [bindPatternBinds]; rw [ih]; rfl

theorem bindPatterns_envs (t : Tracker) (ps : List HPattern) :
    ((bindPatterns t ps).2.2).envs = t.envs := by
  induction ps generalizing t with
  | nil => rfl
  | cons p ps ih =>
    cases p with
    | mk binds =>
      simp only [bindPatterns]
      rw [ih, bindPatternBinds_envs]

theorem bindAliases_envs (t : Tracker) (cs : List HClosure) (avs : List HAVar)
    (sc : Scope) (t2 : Tracker) (heq : bindAliases t cs = .ok (avs, sc, t2)) :
    t2.envs = t.envs := by
  induction cs generalizing t avs sc t2 with
  | nil =>
    simp only [bindAliases, Except.ok.injEq, Prod.mk.injEq] at heq
    rw [← heq.2.2]
  | cons c cs ih =>
    cases c with
    | mk a fn env =>
      simp only [bindAliases] at heq
      cases a with
      | none => cases heq
      | some av =>
        cases hr : bindAliases (Tracker.newSsa t).2 cs with
        | error err => rw [hr] at heq; cases heq
        | ok p =>
          rw [hr] at heq
          simp only [Except.ok.injEq, Prod.mk.injEq] at heq
          obtain ⟨p1, p2, p3⟩ := p
          have := ih (Tracker.newSsa t).2 p1 p2 p3 (by rw [hr])
          rw [← heq.2.2, this]
          rfl

theorem stepInv_envsExtend :
    StepInv (fun a b => ∃ s, b.envs = a.envs ++ s) := by
  constructor
  · intro t; exact ⟨[], by simp⟩
  · intro a b c h1 h2
    obtain ⟨s1, hs1⟩ := h1
    obtain ⟨s2, hs2⟩ := h2
    exact ⟨s1 ++ s2, by rw [hs2, hs1, List.append_assoc]⟩
  · intro t k s t2 heq
    refine ⟨[], ?_⟩
    unfold Tracker.get at heq
    cases hl : lookupScopes t.scopes k with
    | none => rw [hl] at heq; cases heq
    | some p =>
      rw [hl] at heq
      simp only [Option.some.injEq, Prod.mk.injEq] at heq
      rw [← heq.2]
      simp
  · intro t sc; exact ⟨[], by simp [Tracker.pushScope]⟩
  · intro t t2 heq
    refine ⟨[], ?_⟩
    unfold Tracker.popScope at heq
    cases hs : t.scopes with
    | nil => rw [hs] at heq; cases heq
    | cons a rest =>
      rw [hs] at heq
      simp only [Except.ok.injEq] at heq
      rw [← heq]
      simp
  · intro t; exact ⟨[], by simp [Tracker.pushTracking]⟩
  · intro t m t2 heq
    refine ⟨[], ?_⟩
    unfold Tracker.popTracking at heq
    cases hf : t.frames with
    | nil => rw [hf] at heq; cases heq
    | cons fr rest =>
      rw [hf] at heq
      simp only [Except.ok.injEq, Prod.mk.injEq] at heq
      rw [← heq.2]
      simp
  · intro t; exact ⟨[], by simp [Tracker.newSsa]⟩
  · intro t env; exact ⟨[env], rfl⟩
  · intro t vs; exact ⟨[], by rw [bindFreshVars_envs]; simp⟩
  · intro t ps; exact ⟨[], by rw [bindPatterns_envs]; simp⟩
  · intro t cs avs sc t2 heq
    exact ⟨[], by rw [bindAliases_envs t cs avs sc t2 heq]; simp⟩

theorem get_append_length (l1 : List LambdaEnv) (x : LambdaEnv) (s : List LambdaEnv) :
    (l1 ++ x :: s).get? l1.length = some x := by
  induction l1 with
  | nil => rfl
  | cons a l ih => simpa using ih

theorem mem_capturesOfMap (m : List (ScopeDefinition × Nat)) (c : ScopeDefinition × Nat × Nat)
    (hc : c ∈ capturesOfMap m) : ∃ p ∈ m, c.1 = p.1 := by
  unfold capturesOfMap at hc
  simp only [List.mem_map] at hc
  obtain ⟨q, hq, hqe⟩ := hc
  refine ⟨q.2, ?_, by rw [← hqe]⟩
  have h2 : q.2 ∈ m.enum.map Prod.snd := List.mem_map_of_mem Prod.snd hq
  rwa [List.enum_map_snd] at h2

/-- Claim C5: for a mutually recursive closure group (BindClosures), no
member of the group appears in the group's shared capture list.  The pass
pushes the function-kind alias scope for the group, and the modelled scope
tracker (following the spec's edge policy) registers only value-variable
lookups as captures, so the lambda env installed for the group contains no
function-kind key at all; in particular no member alias.  The theorem also
records that every closure of the group receives the same shared env
index. -/
theorem mutual_group_members_not_captured (fuel : Nat) (t : Tracker) (s0 : Nat)
    (closures : List HClosure) (body : HSingle) (lam : Option Nat) (es : Nat)
    (e2 : HSingle) (t2 : Tracker)
    (hv : framesVarOnly t)
    (heq : assignSingle fuel t (.mk s0 (.bindClosures closures body lam es)) = .ok (e2, t2)) :
    ∃ (envIdx : Nat) (cs2 : List HClosure) (b2 : HSingle) (es2 s2 : Nat) (env : LambdaEnv),
      e2 = .mk s2 (.bindClosures cs2 b2 (some envIdx) es2) ∧
      (∀ c ∈ cs2, ∃ a2 fn2, c = HClosure.mk a2 fn2 (some envIdx)) ∧
      t2.envs.get? envIdx = some env ∧
      ∀ c ∈ env.captures, ∀ nm, ¬ c.1 = ScopeDefinition.funName nm := by
  cases fuel with
  | zero => cases heq
  | succ fuel =>
    rw [assignSingle.eq_def] at heq
    dsimp only at heq
    cases h1 : bindAliases t closures with
    | error err => rw [h1] at heq; cases heq
    | ok p =>
      obtain ⟨aliases2, aliasSc, t1⟩ := p
      rw [h1] at heq
      dsimp only at heq
      cases h2 : assignClosuresList fuel ((t1.pushScope aliasSc).pushTracking)
          aliases2 closures with
      | error err => rw [h2] at heq; cases heq
      | ok q =>
        obtain ⟨closures3, t4⟩ := q
        rw [h2] at heq
        dsimp only at heq
        cases h3 : t4.popTracking with
        | error err => rw [h3] at heq; cases heq
        | ok w =>
          obtain ⟨capturesMap, t5⟩ := w
          rw [h3] at heq
          dsimp only at heq
          cases h4 : assignSingle fuel
              ((t5.addLambdaEnv
                { captures := capturesOfMap capturesMap, metaBinds := [] }).2) body with
          | error err => rw [h4] at heq; cases heq
          | ok w2 =>
            obtain ⟨body2, t7⟩ := w2
            rw [h4] at heq
            dsimp only at heq
            cases h5 : t7.popScope with
            | error err => rw [h5] at heq; cases heq
            | ok t8 =>
              rw [h5] at heq
              dsimp only at heq
              simp only [Except.ok.injEq, Prod.mk.injEq] at heq
              obtain ⟨he2, ht2⟩ := heq
              subst he2
              subst ht2
              have hv1 : framesVarOnly ((t1.pushScope aliasSc).pushTracking) :=
                pushTracking_framesVarOnly _
                  (pushScope_framesVarOnly _ _
                    (framesVarOnly_of_eq _ _
                      (bindAliases_frames t closures aliases2 aliasSc t1 h1) hv))
              have hv4 : framesVarOnly t4 :=
                (passPres_all (fun a b => framesVarOnly a → framesVarOnly b)
                  stepInv_framesVarOnly fuel).closList _ aliases2 closures
                  (closures3, t4) h2 hv1
              have hcaps : capsVarOnly capturesMap :=
                (popTracking_framesVarOnly t4 capturesMap t5 h3 hv4).1
              refine ⟨_, _, body2, _, _,
                { captures := capturesOfMap capturesMap, metaBinds := [] },
                rfl, ?_, ?_, ?_⟩
              · intro c hc
                simp only [List.mem_map] at hc
                obtain ⟨c0, hc0, hc0e⟩ := hc
                cases c0 with
                | mk a2 fn2 env0 =>
                  exact ⟨a2, fn2, by rw [← hc0e]⟩
              · have henvs7 : ∃ sfx, t7.envs =
                    ((t5.addLambdaEnv
                      { captures := capturesOfMap capturesMap, metaBinds := [] }).2).envs ++ sfx :=
                  (passPres_all (fun a b => ∃ sfx, b.envs = a.envs ++ sfx)
                    stepInv_envsExtend fuel).single _ body (body2, t7) h4
                obtain ⟨sfx, hsfx⟩ := henvs7
                have henvs8 : t8.envs = t7.envs := by
                  unfold Tracker.popScope at h5
                  cases hs : t7.scopes with
                  | nil => rw [hs] at h5; cases h5
                  | cons a rest =>
                    rw [hs] at h5
                    simp only [Except.ok.injEq] at h5
                    rw [← h5]
                  
                have haddenv : ((t5.addLambdaEnv
                    { captures := capturesOfMap capturesMap, metaBinds := [] }).2).envs =
                    t5.envs ++ [{ captures := capturesOfMap capturesMap, metaBinds := [] }] := rfl
                show (((t8.newSsa).2.newSsa).2).envs.get? _ = _
                have htenvs : (((t8.newSsa).2.newSsa).2).envs = t5.envs ++
                    ({ captures := capturesOfMap capturesMap, metaBinds := [] } :: sfx) := by
                  show t8.envs = _
                  rw [henvs8, hsfx, haddenv, List.append_assoc]
                  rfl
                rw [htenvs]
                exact get_append_length t5.envs _ sfx
              · intro c hc nm hceq
                obtain ⟨pp, hpp, hppe⟩ := mem_capturesOfMap capturesMap c hc
                obtain ⟨n2, hn2⟩ := hcaps pp hpp
                rw [hceq] at hppe
                rw [hn2] at hppe
                cases hppe

/-- Witness for claim C5 at a concrete mutually recursive group: letrec
f = fun() -> (g, z), g = fun() -> f in f, with an outer binding z.  The
shared lambda env captures only the variable z, never the members f or
g. -/
theorem mutual_group_members_not_captured_witness :
    ∃ (e2 : HSingle) (t2 : Tracker) (envIdx : Nat) (cs2 : List HClosure) (b2 : HSingle)
      (es2 s2 : Nat) (env : LambdaEnv),
      assignSingle 10
        { scopes := [[(ScopeDefinition.varName 22, 77)]], frames := [], counter := 0, envs := [] }
        (.mk 0 (.bindClosures
          [ HClosure.mk (some ⟨20, 0⟩)
              (some (.mk [] (.mk 0 (.tuple
                [.mk 0 (.namedFunction ⟨21, 0⟩ false), .mk 0 (.varExpr ⟨22, 0⟩)])))) none
          , HClosure.mk (some ⟨21, 0⟩)
              (some (.mk [] (.mk 0 (.namedFunction ⟨20, 0⟩ false)))) none ]
          (.mk 0 (.namedFunction ⟨20, 0⟩ false)) none 0)) = .ok (e2, t2) ∧
      e2 = .mk s2 (.bindClosures cs2 b2 (some envIdx) es2) ∧
      (∀ c ∈ cs2, ∃ a2 fn2, c = HClosure.mk a2 fn2 (some envIdx)) ∧
      t2.envs.get? envIdx = some env ∧
      ∀ c ∈ env.captures, ∀ nm, ¬ c.1 = ScopeDefinition.funName nm := by
  obtain ⟨envIdx, cs2, b2, es2, s2, env, h1, h2, h3, h4⟩ :=
    mutual_group_members_not_captured 10
      { scopes := [[(ScopeDefinition.varName 22, 77)]], frames := [], counter := 0, envs := [] }
      0
      [ HClosure.mk (some ⟨20, 0⟩)
          (some (.mk [] (.mk 0 (.tuple
            [.mk 0 (.namedFunction ⟨21, 0⟩ false), .mk 0 (.varExpr ⟨22, 0⟩)])))) none
      , HClosure.mk (some ⟨21, 0⟩)
          (some (.mk [] (.mk 0 (.namedFunction ⟨20, 0⟩ false)))) none ]
      (.mk 0 (.namedFunction ⟨20, 0⟩ false)) none 0
      _ _
      (by intro fr hfr; exact absurd hfr (List.not_mem_nil fr))
      rfl
  exact ⟨_, _, envIdx, cs2, b2, es2, s2, env, rfl, h1, h2, h3, h4⟩

/-! # Part 3: the CPS transform (cps_transform/src/lib.rs) -/

/-- Function identity: module, name, arity, and the optional lambda pair
(env index, sub index). -/
structure FunctionIdent where
  module : Nat
  name : Nat
  arity : Nat
  lambda : Option (Nat × Nat)
  deriving DecidableEq, Repr

/-- Call classification of Call and Apply ops. -/
inductive CallType where
  | normal
  | tail
  deriving DecidableEq, Repr

/-- Op kinds relevant to the CPS transform.  The source kinds are Call,
Apply, ReturnOk, ReturnThrow plus opaque others (the other payload is a
tag); the destination kinds additionally include the ops the builder
helpers emit: UnpackEnv, MakeClosureEnv, BindClosure and ContApply.
Modelled from the spec: the tail-call helpers of the eir builder emit Call
and Apply ops of tail call type (post-transform Call and Apply appear only
in tail position). -/
inductive OpKind where
  | call (ct : CallType) (arity : Nat)
  | apply (ct : CallType)
  | returnOk
  | returnThrow
  | unpackEnv (num : Nat)
  | makeClosureEnv (idx : Nat)
  | bindClosure (id : FunctionIdent)
  | contApply
  | other (tag : Nat)
  deriving DecidableEq, Repr

/-- Modelled from the spec: a source LIR Function of the eir crate (not
under the provided sources), presented through its accessor surface: EBBs
in iteration order with ordered op lists and argument lists, per-op kind,
reads, writes and branches, per-EBB-call target, argument list and source
op, and the constant payload of constant values.  Handles are numbers. -/
structure SrcFunction where
  ident : FunctionIdent
  ebbs : List Nat
  entry : Nat
  ebbOps : Nat → List Nat
  ebbArgs : Nat → List Nat
  opKind : Nat → OpKind
  opReads : Nat → List Nat
  opWrites : Nat → List Nat
  opBranches : Nat → List Nat
  callTarget : Nat → Nat
  callArgs : Nat → List Nat
  callSource : Nat → Nat
  valueConst : Nat → Option Nat

/-- Successor of an element inside a list (op_after within one EBB). -/
def listSucc (l : List Nat) (x : Nat) : Option Nat :=
  match l with
  | [] => none
  | [_] => none
  | a :: b :: rest => if a = x then some b else listSucc (b :: rest) x

/-- Predecessor of an element inside a list (op_before within one EBB). -/
def listPred (l : List Nat) (x : Nat) : Option Nat :=
  match l with
  | [] => none
  | [_] => none
  | a :: b :: rest => if b = x then some a else listPred (b :: rest) x

/-- Accessor op_ebb: the EBB whose op list contains the op. -/
def SrcFunction.opEbb (f : SrcFunction) (op : Nat) : Option Nat :=
  f.ebbs.find? (fun e => (f.ebbOps e).contains op)

/-- Accessor op_after: the op following the given op in its EBB. -/
def SrcFunction.opAfter (f : SrcFunction) (op : Nat) : Option Nat :=
  match f.opEbb op with
  | none => none
  | some e => listSucc (f.ebbOps e) op

/-- Accessor op_before: the op preceding the given op in its EBB. -/
def SrcFunction.opBefore (f : SrcFunction) (op : Nat) : Option Nat :=
  match f.opEbb op with
  | none => none
  | some e => listPred (f.ebbOps e) op

/-- Accessor ebb_first_op. -/
def SrcFunction.ebbFirstOp (f : SrcFunction) (e : Nat) : Option Nat :=
  (f.ebbOps e).head?

/-- Modelled from the spec: the result of the live-values analysis of the
eir crate (not under the provided sources): per-op flow-live values and
per-EBB entry-live values, with the stable iteration order of the interned
sets presented as lists.  The transform consumes this data; its computation
is out of scope. -/
structure LiveValues where
  flowLive : Nat → List Nat
  ebbLive : Nat → List Nat

/-- The module env table generator: a counter of allocated env indices and
the recorded capture counts. -/
structure ModuleEnvs where
  next : Nat
  capturesNum : List (Nat × Nat)
  deriving DecidableEq, Repr

/-- Allocate a fresh env index. -/
def ModuleEnvs.add (m : ModuleEnvs) : Nat × ModuleEnvs :=
  (m.next, { m with next := m.next + 1 })

/-- Record the capture count of an env. -/
def ModuleEnvs.setCapturesNum (m : ModuleEnvs) (idx num : Nat) : ModuleEnvs :=
  { m with capturesNum := (idx, num) :: m.capturesNum }

/-- A destination op: kind, ordered reads, writes and branch calls. -/
structure DOp where
  kind : OpKind
  reads : List Nat
  writes : List Nat
  branches : List Nat
  deriving DecidableEq, Repr

/-- A destination EBB: ordered arguments and ops. -/
structure DEbb where
  args : List Nat
  ops : List DOp
  deriving DecidableEq, Repr

/-- A destination EBB call: target EBB and argument list. -/
structure DEbbCall where
  target : Nat
  args : List Nat
  deriving DecidableEq, Repr

/-- Modelled from the spec: the function builder state of the eir crate
(not under the provided sources): the function under construction (ident,
attributes, EBBs, EBB calls, constants) plus the builder cursor and the
op-building staging area. -/
structure BState where
  ident : FunctionIdent
  attrs : List Nat
  nextValue : Nat
  ebbs : List (Nat × DEbb)
  nextEbb : Nat
  entry : Option Nat
  calls : List (Nat × DEbbCall)
  nextCall : Nat
  consts : List (Nat × Nat)
  curEbb : Option Nat
  pending : Option DOp
  deriving DecidableEq, Repr

/-- Association list lookup (hash map semantics: first match is the most
recent insert). -/
def alookup (l : List (Nat × Nat)) (k : Nat) : Option Nat :=
  match l with
  | [] => none
  | (k2, v) :: rest => if k2 = k then some v else alookup rest k

/-- Update the EBB stored under a handle. -/
def updEbb (l : List (Nat × DEbb)) (e : Nat) (g : DEbb → DEbb) : List (Nat × DEbb) :=
  match l with
  | [] => []
  | (k, d) :: rest => if k = e then (k, g d) :: rest else (k, d) :: updEbb rest e g

/-- Lookup an EBB record. -/
def lookupEbb (l : List (Nat × DEbb)) (e : Nat) : Option DEbb :=
  match l with
  | [] => none
  | (k, d) :: rest => if k = e then some d else lookupEbb rest e

/-- Fresh builder for a function ident (Function::new plus
FunctionBuilder::new). -/
def newBState (id : FunctionIdent) : BState :=
  { ident := id, attrs := [], nextValue := 0, ebbs := [], nextEbb := 0, entry := none,
    calls := [], nextCall := 0, consts := [], curEbb := none, pending := none }

/-- Builder: allocate a fresh value handle. -/
def BState.newValue (b : BState) : Nat × BState :=
  (b.nextValue, { b with nextValue := b.nextValue + 1 })

/-- Builder: insert a fresh empty EBB. -/
def BState.insertEbb (b : BState) : Nat × BState :=
  (b.nextEbb,
    { b with
      ebbs := b.ebbs ++ [(b.nextEbb, { args := [], ops := [] })]
      nextEbb := b.nextEbb + 1 })

/-- Builder: insert the entry EBB. -/
def BState.insertEbbEntry (b : BState) : Nat × BState :=
  let p := b.insertEbb
  (p.1, { p.2 with entry := some p.1 })

/-- Builder: set the insertion cursor to the end of an EBB. -/
def BState.positionAtEnd (b : BState) (e : Nat) : BState :=
  { b with curEbb := some e }

/-- Builder: append a fresh argument value to an EBB. -/
def BState.addEbbArgument (b : BState) (e : Nat) : Nat × BState :=
  let p := b.newValue
  (p.1, { p.2 with ebbs := updEbb p.2.ebbs e (fun d => { d with args := d.args ++ [p.1] }) })

/-- Builder: create a fresh constant value with the given payload. -/
def BState.createConstant (b : BState) (c : Nat) : Nat × BState :=
  let p := b.newValue
  (p.1, { p.2 with consts := (p.1, c) :: p.2.consts })

/-- Builder: create an EBB call handle. -/
def BState.createEbbCall (b : BState) (target : Nat) (args : List Nat) : Nat × BState :=
  (b.nextCall,
    { b with
      calls := b.calls ++ [(b.nextCall, { target := target, args := args })]
      nextCall := b.nextCall + 1 })

/-- Builder: start staging an op of the given kind. -/
def BState.opBuildStart (b : BState) (k : OpKind) : BState :=
  { b with pending := some { kind := k, reads := [], writes := [], branches := [] } }

/-- Builder: allocate a write result on the staged op. -/
def BState.opBuildWrite (b : BState) : Nat × BState :=
  let p := b.newValue
  (p.1,
    { p.2 with
      pending := p.2.pending.map (fun d => { d with writes := d.writes ++ [p.1] }) })

/-- Builder: add a read operand to the staged op. -/
def BState.opBuildRead (b : BState) (v : Nat) : BState :=
  { b with pending := b.pending.map (fun d => { d with reads := d.reads ++ [v] }) }

/-- Builder: add a branch to the staged op. -/
def BState.opBuildEbbCall (b : BState) (c : Nat) : BState :=
  { b with pending := b.pending.map (fun d => { d with branches := d.branches ++ [c] }) }

/-- Builder: append the staged op at the cursor. -/
def BState.opBuildEnd (b : BState) : BState :=
  match b.pending, b.curEbb with
  | some d, some e =>
    { b with ebbs := updEbb b.ebbs e (fun eb => { eb with ops := eb.ops ++ [d] }),
             pending := none }
  | _, _ => b

/-- Builder: append a complete op at the cursor (the one-shot helpers of
the eir builder). -/
def BState.appendOp (b : BState) (d : DOp) : BState :=
  match b.curEbb with
  | some e => { b with ebbs := updEbb b.ebbs e (fun eb => { eb with ops := eb.ops ++ [d] }) }
  | none => b

/-- Builder: record an attribute key on the function. -/
def BState.putAttribute (b : BState) (k : Nat) : BState :=
  { b with attrs := b.attrs ++ [k] }

/-- The attribute key of the Continuation tag. -/
def continuationAttr : Nat := 0

/-- Builder helper op_unpack_env: emit an UnpackEnv op reading the env
value and producing the requested number of fresh write values, returned in
order. -/
def BState.opUnpackEnv (b : BState) (envVal num : Nat) : List Nat × BState :=
  let rec mkWrites (b : BState) (k : Nat) : List Nat × BState :=
    match k with
    | 0 => ([], b)
    | k + 1 =>
      let p := b.newValue
      let q := mkWrites p.2 k
      (p.1 :: q.1, q.2)
  let p := mkWrites b num
  (p.1, p.2.appendOp { kind := .unpackEnv num, reads := [envVal], writes := p.1, branches := [] })

/-- Builder helper op_make_closure_env: reads the captured values and
writes the fresh env value. -/
def BState.opMakeClosureEnv (b : BState) (idx : Nat) (vals : List Nat) : Nat × BState :=
  let p := b.newValue
  (p.1, p.2.appendOp { kind := .makeClosureEnv idx, reads := vals, writes := [p.1],
                       branches := [] })

/-- Builder helper op_bind_closure: reads the env value and writes the
fresh closure value. -/
def BState.opBindClosure (b : BState) (id : FunctionIdent) (env : Nat) : Nat × BState :=
  let p := b.newValue
  (p.1, p.2.appendOp { kind := .bindClosure id, reads := [env], writes := [p.1],
                       branches := [] })

/-- Builder helper op_tail_apply: an Apply op of tail call type reading the
callee then the argument buffer. -/
def BState.opTailApply (b : BState) (f : Nat) (args : List Nat) : BState :=
  b.appendOp { kind := .apply .tail, reads := f :: args, writes := [], branches := [] }

/-- Builder helper op_tail_call: a Call op of tail call type reading the
name, the module, then the argument buffer. -/
def BState.opTailCall (b : BState) (name mod arity : Nat) (args : List Nat) : BState :=
  b.appendOp { kind := .call .tail arity, reads := name :: mod :: args, writes := [],
               branches := [] }

/-- Builder helper op_cont_apply: a ContApply op reading the continuation
then its arguments. -/
def BState.opContApply (b : BState) (cont : Nat) (args : List Nat) : BState :=
  b.appendOp { kind := .contApply, reads := cont :: args, writes := [], branches := [] }

/-- Abort reasons of the CPS transform; each corresponds to a Rust panic in
lib.rs (failed assert, map index panic, unwrap of None, vector index out of
bounds, unreachable match arm) or to exhaustion of the model's fuel. -/
inductive TErr where
  | mapMissing
  | assertFailed
  | malformedOp
  | indexPanic
  | unreachable
  | fuelOut
  deriving DecidableEq, Repr

/-- Association list lookup with an arbitrary decidable key (hash map
semantics: the first match is the most recent insert). -/
def plookup {κ α : Type} [DecidableEq κ] (l : List (κ × α)) (k : κ) : Option α :=
  match l with
  | [] => none
  | (k2, v) :: rest => if k2 = k then some v else plookup rest k

/-- A continuation site: either the EBB call of an exception edge together
with the renamed result value, or the op following a call. -/
inductive ContSite where
  | ebbCall (call : Nat) (res : Option Nat)
  | op (op : Nat)
  deriving DecidableEq, Repr

/-- copy_read of lib.rs: a constant read materializes a fresh constant,
any other read goes through val_map (panic if absent). -/
def copyRead (f : SrcFunction) (b : BState) (vm : List (Nat × Nat)) (v : Nat) :
    Except TErr (Nat × BState) :=
  match f.valueConst v with
  | some c => .ok (b.createConstant c)
  | none =>
    match plookup vm v with
    | some dv => .ok (dv, b)
    | none => .error .mapMissing

/-- copy_read applied over a list, in order. -/
def copyReadList (f : SrcFunction) : BState → List (Nat × Nat) → List Nat →
    Except TErr (List Nat × BState)
  | b, _, [] => .ok ([], b)
  | b, vm, v :: rest =>
    match copyRead f b vm v with
    | .error e => .error e
    | .ok (dv, b2) =>
      match copyReadList f b2 vm rest with
      | .error e => .error e
      | .ok (ds, b3) => .ok (dv :: ds, b3)

/-- The write-copy loop of copy_op: stage a write per source write and
record the mapping. -/
def copyWrites : BState → List (Nat × Nat) → List Nat → BState × List (Nat × Nat)
  | b, vm, [] => (b, vm)
  | b, vm, w :: ws =>
    let p := b.opBuildWrite
    copyWrites p.2 ((w, p.1) :: vm) ws

/-- The read-copy loop of copy_op: stage each mapped read (constants are
materialized). -/
def copyReadsStage (f : SrcFunction) : BState → List (Nat × Nat) → List Nat →
    Except TErr BState
  | b, _, [] => .ok b
  | b, vm, r :: rs =>
    match copyRead f b vm r with
    | .error e => .error e
    | .ok (dv, b2) => copyReadsStage f (b2.opBuildRead dv) vm rs

/-- Add destination EBB arguments for a list of source values, mapping each
source value to its fresh argument. -/
def addEbbArgsMap : BState → List (Nat × Nat) → Nat → List Nat → BState × List (Nat × Nat)
  | b, vm, _, [] => (b, vm)
  | b, vm, e, a :: rest =>
    let p := b.addEbbArgument e
    addEbbArgsMap p.2 ((a, p.1) :: vm) e rest

/-- The branch-copy loop of copy_op: resolve or create the target EBB
(keyed by the target's first op, arguments mapped on creation), map the
call arguments and stage the new EBB call. -/
def copyBranches (f : SrcFunction) : BState → List (Nat × Nat) → List (Nat × Nat) →
    List Nat → Except TErr (BState × List (Nat × Nat) × List (Nat × Nat))
  | b, vm, em, [] => .ok (b, vm, em)
  | b, vm, em, br :: rest =>
    let oldTarget := f.callTarget br
    match f.ebbFirstOp oldTarget with
    | none => .error .indexPanic
    | some oldTargetOp =>
      let step : Nat × BState × List (Nat × Nat) × List (Nat × Nat) :=
        match plookup em oldTargetOp with
        | some e => (e, b, vm, em)
        | none =>
          let p := b.insertEbb
          let q := addEbbArgsMap p.2 vm p.1 (f.ebbArgs oldTarget)
          (p.1, q.1, q.2, (oldTargetOp, p.1) :: em)
      match copyReadList f step.2.1 step.2.2.1 (f.callArgs br) with
      | .error e => .error e
      | .ok (buf, b2) =>
        let pc := b2.createEbbCall step.1 buf
        copyBranches f (pc.2.opBuildEbbCall pc.1) step.2.2.1 step.2.2.2 rest

/-- copy_op of lib.rs: stage the same kind, fresh writes (mapped), mapped
reads, mapped branches (creating destination EBBs keyed by the target's
first op), record the fall-through op's destination EBB, and append the
staged op. -/
def copyOp (f : SrcFunction) (srcOp : Nat) (b : BState) (vm em : List (Nat × Nat)) :
    Except TErr (BState × List (Nat × Nat) × List (Nat × Nat)) :=
  let b1 := b.opBuildStart (f.opKind srcOp)
  let p := copyWrites b1 vm (f.opWrites srcOp)
  match copyReadsStage f p.1 p.2 (f.opReads srcOp) with
  | .error e => .error e
  | .ok b2 =>
    match copyBranches f b2 p.2 em (f.opBranches srcOp) with
    | .error e => .error e
    | .ok (b3, vm2, em2) =>
      match f.opAfter srcOp with
      | some op =>
        match b3.curEbb with
        | some e => .ok (b3.opBuildEnd, vm2, (op, e) :: em2)
        | none => .error .unreachable
      | none => .ok (b3.opBuildEnd, vm2, em2)

/-- The capture-source list of an ok continuation: the flow-live values of
the op, skipping the ok result value, in live iteration order.  Used both
when packing the env at the call site and when unpacking it in the
continuation chunk's prologue (there, at the site op's predecessor). -/
def okCaptureList (live : LiveValues) (op okVal : Nat) : List Nat :=
  (live.flowLive op).filter (fun v => ¬ v = okVal)

/-- Map a list of source values through val_map by direct indexing (panic
on a missing key, exactly like val_map[..] in Rust). -/
def mapVals (vm : List (Nat × Nat)) : List Nat → Except TErr (List Nat)
  | [] => .ok []
  | v :: rest =>
    match plookup vm v with
    | none => .error .mapMissing
    | some d =>
      match mapVals vm rest with
      | .error e => .error e
      | .ok ds => .ok (d :: ds)

/-- The rename map at an exception edge: each target EBB argument maps to
the corresponding EBB call argument (values after the jump to values
before).  EBB arguments are distinct, so association order is immaterial. -/
def renameMap (f : SrcFunction) (br : Nat) : List (Nat × Nat) :=
  List.zip (f.ebbArgs (f.callTarget br)) (f.callArgs br)

/-- Apply a rename map, defaulting to the value itself. -/
def applyRename (renames : List (Nat × Nat)) (v : Nat) : Nat :=
  (plookup renames v).getD v

/-- The err-continuation selection loop: walk the target-EBB live values,
rename each through the edge's rename map; a value renaming to the call's
result is remembered (the last such wins) and skipped, every other renamed
value is kept in order. -/
def errSelect (renames : List (Nat × Nat)) (nok : Nat) : List Nat → Option Nat × List Nat
  | [] => (none, [])
  | v :: rest =>
    let renamed := applyRename renames v
    let q := errSelect renames nok rest
    if renamed = nok then (some (q.1.getD v), q.2)
    else (q.1, renamed :: q.2)

/-- The env-value list of an err continuation chunk's prologue: the live
values of the jump target, skipping the value recorded as the renamed
result. -/
def errEnvVals (live : LiveValues) (target : Nat) (resAfter : Option Nat) : List Nat :=
  (live.ebbLive target).filter (fun v => ¬ some v = resAfter)

/-- The per-chunk loop context: the source function, its continuation
sites, the liveness data and the chunk's return continuations. -/
structure GenCtx where
  srcFun : SrcFunction
  contSites : List Nat
  live : LiveValues
  okRet : Nat
  errRet : Nat

/-- The per-chunk loop state: the builder, the value and EBB maps, the
handled set, the work queue, and the threaded env generator, continuation
schedule and continuation map. -/
structure GenState where
  b : BState
  valMap : List (Nat × Nat)
  ebbMap : List (Nat × Nat)
  handled : List Nat
  toProcess : List Nat
  envGen : ModuleEnvs
  needed : List (ContSite × Nat)
  contMap : List (ContSite × Nat)

/-- Resolve or allocate the env index of a continuation site: a hit in the
continuaitons map is reused as is; a miss allocates a fresh env, records
its capture count, inserts it into the map and schedules the site. -/
def contEnvFor (st : GenState) (site : ContSite) (bufLen : Nat) : Nat × GenState :=
  match plookup st.contMap site with
  | some idx => (idx, st)
  | none =>
    let p := st.envGen.add
    (p.1,
      { st with
        envGen := p.2.setCapturesNum p.1 bufLen
        contMap := (site, p.1) :: st.contMap
        needed := st.needed ++ [(site, p.1)] })

/-- The call-emission tail of the continuation-site branch: a tail apply
reading the mapped callee then ok cont, err cont and the mapped remaining
reads; or a tail call reading the copied name and module then the same
buffer. -/
def emitCall (ctx : GenCtx) (st : GenState) (srcOp okCont errCont : Nat) :
    Except TErr GenState :=
  match ctx.srcFun.opKind srcOp with
  | .apply _ =>
    match ctx.srcFun.opReads srcOp with
    | [] => .error .indexPanic
    | fval :: rest =>
      match copyReadList ctx.srcFun st.b st.valMap rest with
      | .error e => .error e
      | .ok (argVals, b2) =>
        match plookup st.valMap fval with
        | none => .error .mapMissing
        | some fdst => .ok { st with b := b2.opTailApply fdst (okCont :: errCont :: argVals) }
  | .call _ arity =>
    match ctx.srcFun.opReads srcOp with
    | nameV :: modV :: rest =>
      match copyReadList ctx.srcFun st.b st.valMap rest with
      | .error e => .error e
      | .ok (argVals, b2) =>
        match copyRead ctx.srcFun b2 st.valMap nameV with
        | .error e => .error e
        | .ok (nameDst, b3) =>
          match copyRead ctx.srcFun b3 st.valMap modV with
          | .error e => .error e
          | .ok (modDst, b4) =>
            .ok { st with b := b4.opTailCall nameDst modDst arity (okCont :: errCont :: argVals) }
    | _ => .error .indexPanic
  | _ => .error .malformedOp

/-- The continuation-site branch of the gen_chunk loop body. -/
def processContSite (ctx : GenCtx) (st : GenState) (srcOp : Nat) : Except TErr GenState :=
  let isTailE : Except TErr Bool :=
    match ctx.srcFun.opKind srcOp with
    | .apply .normal => .ok false
    | .call .normal _ => .ok false
    | .apply .tail => .ok true
    | .call .tail _ => .ok true
    | _ => .error .malformedOp
  match isTailE with
  | .error e => .error e
  | .ok true =>
    match ctx.srcFun.opWrites srcOp with
    | [] => emitCall ctx st srcOp ctx.okRet ctx.errRet
    | _ => .error .assertFailed
  | .ok false =>
    match ctx.srcFun.opWrites srcOp with
    | [okVal, nokVal] =>
      match mapVals st.valMap (okCaptureList ctx.live srcOp okVal) with
      | .error e => .error e
      | .ok okMapped =>
        let okBuf := ctx.okRet :: ctx.errRet :: okMapped
        match ctx.srcFun.opAfter srcOp with
        | none => .error .indexPanic
        | some srcNextOp =>
          let p := contEnvFor st (.op srcNextOp) okBuf.length
          let q := p.2.b.opMakeClosureEnv p.1 okBuf
          let r := q.2.opBindClosure { ctx.srcFun.ident with lambda := some (p.1, 0) } q.1
          let st2 := { p.2 with b := r.2 }
          match (ctx.srcFun.opBranches srcOp).head? with
          | none => .error .indexPanic
          | some srcBranch =>
            let srcTarget := ctx.srcFun.callTarget srcBranch
            let sel := errSelect (renameMap ctx.srcFun srcBranch) nokVal
              (ctx.live.ebbLive srcTarget)
            match mapVals st2.valMap sel.2 with
            | .error e => .error e
            | .ok errMapped =>
              let errBuf := ctx.okRet :: ctx.errRet :: errMapped
              let p2 := contEnvFor st2 (.ebbCall srcBranch sel.1) errBuf.length
              let q2 := p2.2.b.opMakeClosureEnv p2.1 errBuf
              let r2 := q2.2.opBindClosure
                { ctx.srcFun.ident with lambda := some (p2.1, 0) } q2.1
              emitCall ctx { p2.2 with b := r2.2 } srcOp r.1 r2.1
    | _ => .error .assertFailed

/-- The first ops of the targets of a branch list. -/
def branchFirstOps (f : SrcFunction) : List Nat → Except TErr (List Nat)
  | [] => .ok []
  | br :: rest =>
    match f.ebbFirstOp (f.callTarget br) with
    | none => .error .indexPanic
    | some op =>
      match branchFirstOps f rest with
      | .error e => .error e
      | .ok ops => .ok (op :: ops)

/-- The gen_chunk loop body for one popped op (after positioning): a
continuation site is rewritten to a tail call; ReturnOk and ReturnThrow
become ContApply of the chunk's ok and err return continuation on the
mapped result; any other op is copied and its fall-through op and branch
targets' first ops are queued. -/
def processOp (ctx : GenCtx) (st : GenState) (srcOp : Nat) : Except TErr GenState :=
  if ctx.contSites.contains srcOp then processContSite ctx st srcOp
  else
    match ctx.srcFun.opKind srcOp with
    | .returnOk =>
      match (ctx.srcFun.opReads srcOp).head? with
      | none => .error .indexPanic
      | some res =>
        match plookup st.valMap res with
        | none => .error .mapMissing
        | some d => .ok { st with b := st.b.opContApply ctx.okRet [d] }
    | .returnThrow =>
      match (ctx.srcFun.opReads srcOp).head? with
      | none => .error .indexPanic
      | some res =>
        match plookup st.valMap res with
        | none => .error .mapMissing
        | some d => .ok { st with b := st.b.opContApply ctx.errRet [d] }
    | _ =>
      match copyOp ctx.srcFun srcOp st.b st.valMap st.ebbMap with
      | .error e => .error e
      | .ok (b2, vm2, em2) =>
        match branchFirstOps ctx.srcFun (ctx.srcFun.opBranches srcOp) with
        | .error e => .error e
        | .ok brOps =>
          let next1 := match ctx.srcFun.opAfter srcOp with
            | some op => [op]
            | none => []
          .ok
            { st with
              b := b2
              valMap := vm2
              ebbMap := em2
              toProcess := st.toProcess ++ next1 ++ brOps }

/-- One iteration of the gen_chunk work loop: pop the queue front (none
when empty), skip handled ops, mark handled, position at the op's
destination EBB (panic if unmapped) and process it. -/
def genStep (ctx : GenCtx) (st : GenState) : Except TErr (Option GenState) :=
  match st.toProcess with
  | [] => .ok none
  | srcOp :: rest =>
    let st1 := { st with toProcess := rest }
    if st1.handled.contains srcOp then .ok (some st1)
    else
      let st2 := { st1 with handled := srcOp :: st1.handled }
      match plookup st2.ebbMap srcOp with
      | none => .error .mapMissing
      | some e =>
        match processOp ctx { st2 with b := st2.b.positionAtEnd e } srcOp with
        | .error er => .error er
        | .ok st3 => .ok (some st3)

/-- The gen_chunk work loop, driven by fuel. -/
def genLoop (ctx : GenCtx) : Nat → GenState → Except TErr GenState
  | 0, _ => .error .fuelOut
  | fuel + 1, st =>
    match genStep ctx st with
    | .error e => .error e
    | .ok none => .ok st
    | .ok (some st2) => genLoop ctx fuel st2

/-- Insert zipped source/destination pairs into val_map, in order. -/
def insertZip (vm : List (Nat × Nat)) : List Nat → List Nat → List (Nat × Nat)
  | [], _ => vm
  | _ :: _, [] => vm
  | s :: ss, d :: ds => insertZip ((s, d) :: vm) ss ds

/-- The continuation-chunk prologue tail of gen_chunk: add the env and
result entry arguments, seed val_map with the result binding, unpack the
env into capture count + 2 values, take slot 0 and slot 1 as the ok and
err return continuations and bind the remaining slots to the env value
list in order. -/
def contChunkStart (srcFun : SrcFunction) (cs : List Nat) (live : LiveValues)
    (b1 : BState) (entryEbb : Nat) (envGen : ModuleEnvs)
    (needed contMap : List (ContSite × Nat)) (srcFirstOp : Nat)
    (resultSrc : Option Nat) (envVals : List Nat) : Except TErr (GenCtx × GenState) :=
  let pEnv := b1.addEbbArgument entryEbb
  let pRes := pEnv.2.addEbbArgument entryEbb
  let vm0 : List (Nat × Nat) := match resultSrc with
    | some v => [(v, pRes.1)]
    | none => []
  let pu := pRes.2.opUnpackEnv pEnv.1 (envVals.length + 2)
  match pu.1 with
  | okRet :: errRet :: slots =>
    .ok ({ srcFun := srcFun, contSites := cs, live := live,
           okRet := okRet, errRet := errRet },
         { b := pu.2, valMap := insertZip vm0 envVals slots,
           ebbMap := [(srcFirstOp, entryEbb)], handled := [],
           toProcess := [srcFirstOp], envGen := envGen, needed := needed,
           contMap := contMap })
  | _ => .error .unreachable

/-- gen_chunk of lib.rs: build one output function from a source function
starting at a continuation site.  A continuation chunk (cont = some envIdx)
takes the lambda ident over that env, carries the Continuation attribute,
and its entry EBB gets an env argument and a result argument; the env is
unpacked into the two return continuations and the captured live values.
An entry chunk (cont = none) gets the two return continuations as leading
arguments followed by the source entry arguments.  The loop then processes
ops from the site's first op.  Returns the built function together with the
threaded env generator, schedule and continuation map. -/
def genChunk (fuel : Nat) (srcFun : SrcFunction) (site : ContSite)
    (contSites : List Nat) (live : LiveValues) (envGen : ModuleEnvs)
    (needed contMap : List (ContSite × Nat)) (cont : Option Nat) :
    Except TErr (BState × ModuleEnvs × List (ContSite × Nat) × List (ContSite × Nat)) :=
  let ident := match cont with
    | some envIdx => { srcFun.ident with lambda := some (envIdx, 0) }
    | none => srcFun.ident
  let b0 := match cont with
    | some _ => (newBState ident).putAttribute continuationAttr
    | none => newBState ident
  let pe := b0.insertEbbEntry
  let entryEbb := pe.1
  let b1 := pe.2.positionAtEnd entryEbb
  match cont with
  | some _ =>
    let pre : Except TErr (Option Nat × List Nat) :=
      match site with
      | .op op =>
        match srcFun.opBefore op with
        | none => .error .indexPanic
        | some prevOp =>
          match (srcFun.opWrites prevOp).head? with
          | none => .error .indexPanic
          | some resultSrcVal =>
            .ok (some resultSrcVal, okCaptureList live prevOp resultSrcVal)
      | .ebbCall call resAfter =>
        let callTgt := srcFun.callTarget call
        match (srcFun.opWrites (srcFun.callSource call)).get? 1 with
        | none => .error .indexPanic
        | some srcResultBefore =>
          if (live.ebbLive callTgt).contains srcResultBefore then .error .assertFailed
          else .ok (resAfter, errEnvVals live callTgt resAfter)
    match pre with
    | .error e => .error e
    | .ok (resultSrc, envVals) =>
      let firstE : Except TErr Nat :=
        match site with
        | .op op => .ok op
        | .ebbCall call _ =>
          match srcFun.ebbFirstOp (srcFun.callTarget call) with
          | none => .error .indexPanic
          | some op => .ok op
      match firstE with
      | .error e => .error e
      | .ok srcFirstOp =>
        match contChunkStart srcFun contSites live b1 entryEbb envGen needed contMap
            srcFirstOp resultSrc envVals with
        | .error e => .error e
        | .ok (ctx, st0) =>
          match genLoop ctx fuel st0 with
          | .error e => .error e
          | .ok st => .ok (st.b, st.envGen, st.needed, st.contMap)
  | none =>
    match site with
    | .ebbCall _ _ => .error .malformedOp
    | .op srcFirstOp =>
      match srcFun.opEbb srcFirstOp with
      | none => .error .indexPanic
      | some srcFirstEbb =>
        let pOk := b1.addEbbArgument entryEbb
        let pErr := pOk.2.addEbbArgument entryEbb
        let pA := addEbbArgsMap pErr.2 [] entryEbb (srcFun.ebbArgs srcFirstEbb)
        let ctx : GenCtx :=
          { srcFun := srcFun, contSites := contSites, live := live,
            okRet := pOk.1, errRet := pErr.1 }
        let st0 : GenState :=
          { b := pA.1, valMap := pA.2, ebbMap := [(srcFirstOp, entryEbb)],
            handled := [], toProcess := [srcFirstOp], envGen := envGen,
            needed := needed, contMap := contMap }
        match genLoop ctx fuel st0 with
        | .error e => .error e
        | .ok st => .ok (st.b, st.envGen, st.needed, st.contMap)

/-- An op kind that marks a continuation site (Call or Apply). -/
def isCallOrApply : OpKind → Bool
  | .call _ _ => true
  | .apply _ => true
  | _ => false

/-- The continuation sites of a function: every Call or Apply op, in EBB
iteration order. -/
def contSitesOf (f : SrcFunction) : List Nat :=
  (f.ebbs.map (fun e => (f.ebbOps e).filter (fun op => isCallOrApply (f.opKind op)))).flatten

/-- The state of the transform_function worklist loop. -/
structure TFState where
  envGen : ModuleEnvs
  needed : List (ContSite × Nat)
  contMap : List (ContSite × Nat)
  generated : List (Nat × Option Nat)
  generated2 : List Nat
  funs : List (FunctionIdent × BState)

/-- The transform_function worklist loop: pop the last scheduled site,
skip it when already generated (EBB-call sites keyed by call and renamed
value, op sites by op), otherwise generate its continuation chunk and
record the resulting function. -/
def tfLoop (chunkFuel : Nat) (srcFun : SrcFunction) (cs : List Nat)
    (live : LiveValues) : Nat → TFState → Except TErr TFState
  | 0, _ => .error .fuelOut
  | fuel + 1, st =>
    match st.needed.getLast? with
    | none => .ok st
    | some (site, env) =>
      let st1 := { st with needed := st.needed.dropLast }
      let skip : Bool :=
        match site with
        | .ebbCall call v => st1.generated.contains (call, v)
        | .op op => st1.generated2.contains op
      if skip then tfLoop chunkFuel srcFun cs live fuel st1
      else
        let st2 :=
          match site with
          | .ebbCall call v => { st1 with generated := (call, v) :: st1.generated }
          | .op op => { st1 with generated2 := op :: st1.generated2 }
        match genChunk chunkFuel srcFun site cs live st2.envGen st2.needed st2.contMap
            (some env) with
        | .error e => .error e
        | .ok (fb, eg, nd, cm) =>
          tfLoop chunkFuel srcFun cs live fuel
            { st2 with
              envGen := eg
              needed := nd
              contMap := cm
              funs := (fb.ident, fb) :: st2.funs }

/-- transform_function of lib.rs: collect the continuation sites, generate
the entry chunk at the entry EBB's first op, then drain the schedule of
continuation chunks.  The liveness analysis result is an input (it is
computed by the eir crate, outside the transform). -/
def transformFunction (chunkFuel loopFuel : Nat) (srcFun : SrcFunction)
    (live : LiveValues) (envGen : ModuleEnvs) (funs : List (FunctionIdent × BState)) :
    Except TErr (ModuleEnvs × List (FunctionIdent × BState)) :=
  let cs := contSitesOf srcFun
  match srcFun.ebbFirstOp srcFun.entry with
  | none => .error .indexPanic
  | some firstOp =>
    match genChunk chunkFuel srcFun (.op firstOp) cs live envGen [] [] none with
    | .error e => .error e
    | .ok (fb, eg, nd, cm) =>
      match tfLoop chunkFuel srcFun cs live loopFuel
          { envGen := eg, needed := nd, contMap := cm, generated := [],
            generated2 := [], funs := (fb.ident, fb) :: funs } with
      | .error e => .error e
      | .ok st => .ok (st.envGen, st.funs)

/-- Modelled from the spec: the derived lexicographic order of
FunctionIdent (module, name, arity, lambda; None before Some). -/
def identLe (x y : FunctionIdent) : Bool :=
  if x.module ≠ y.module then x.module < y.module
  else if x.name ≠ y.name then x.name < y.name
  else if x.arity ≠ y.arity then x.arity < y.arity
  else
    match x.lambda, y.lambda with
    | none, _ => true
    | some _, none => false
    | some (a, b), some (c, d) => if a ≠ c then a < c else b ≤ d

/-- Insertion into a sorted ident list. -/
def insertIdent (x : FunctionIdent) : List FunctionIdent → List FunctionIdent
  | [] => [x]
  | y :: rest => if identLe x y then x :: y :: rest else y :: insertIdent x rest

/-- Insertion sort of idents (the deterministic ordering of
transform_module). -/
def sortIdents : List FunctionIdent → List FunctionIdent
  | [] => []
  | x :: rest => insertIdent x (sortIdents rest)

/-- A source module: name, functions keyed by ident, env table. -/
structure SrcModule where
  name : Nat
  functions : List (FunctionIdent × SrcFunction)
  envs : ModuleEnvs

/-- Transform each function of a sorted ident list in order. -/
def tmGo (chunkFuel loopFuel : Nat) (m : SrcModule)
    (liveOf : FunctionIdent → LiveValues) :
    List FunctionIdent → ModuleEnvs → List (FunctionIdent × BState) →
    Except TErr (ModuleEnvs × List (FunctionIdent × BState))
  | [], eg, funs => .ok (eg, funs)
  | id :: rest, eg, funs =>
    match plookup m.functions id with
    | none => .error .mapMissing
    | some f =>
      match transformFunction chunkFuel loopFuel f (liveOf id) eg funs with
      | .error e => .error e
      | .ok (eg2, funs2) => tmGo chunkFuel loopFuel m liveOf rest eg2 funs2

/-- transform_module of lib.rs: clone the env table, sort the function
idents for determinism, transform each function, and assemble the output
module. -/
def transformModule (chunkFuel loopFuel : Nat) (m : SrcModule)
    (liveOf : FunctionIdent → LiveValues) :
    Except TErr (Nat × List (FunctionIdent × BState) × ModuleEnvs) :=
  match tmGo chunkFuel loopFuel m liveOf (sortIdents (m.functions.map Prod.fst))
      m.envs [] with
  | .error e => .error e
  | .ok (eg, funs) => .ok (m.name, funs, eg)

/-! ## Builder-state lemmas -/

/-- The op list of an EBB of a builder (empty when absent). -/
def ebbOpsOf (b : BState) (e : Nat) : List DOp :=
  match lookupEbb b.ebbs e with
  | some d => d.ops
  | none => []

theorem lookupEbb_updEbb_self (l : List (Nat × DEbb)) (e : Nat) (g : DEbb → DEbb) :
    lookupEbb (updEbb l e g) e = (lookupEbb l e).map g := by
  induction l with
  | nil => rfl
  | cons p rest ih =>
    obtain ⟨k, d⟩ := p
    by_cases h : k = e
    · subst h
      simp [updEbb, lookupEbb]
    · simp [updEbb, lookupEbb, h, ih]

theorem lookupEbb_updEbb_other (l : List (Nat × DEbb)) (e e2 : Nat) (g : DEbb → DEbb)
    (h : e2 ≠ e) : lookupEbb (updEbb l e g) e2 = lookupEbb l e2 := by
  induction l with
  | nil => rfl
  | cons p rest ih =>
    obtain ⟨k, d⟩ := p
    by_cases hk : k = e
    · subst hk
      have hne : ¬ k = e2 := fun hh => h hh.symm
      simp [updEbb, lookupEbb, hne]
    · simp only [updEbb, if_neg hk, lookupEbb]
      by_cases hk2 : k = e2
      · simp [hk2]
      · simp [hk2, ih]

theorem createConstant_ebbs (b : BState) (c : Nat) :
    (b.createConstant c).2.ebbs = b.ebbs ∧ (b.createConstant c).2.curEbb = b.curEbb := by
  constructor <;> rfl

theorem copyRead_ebbs (f : SrcFunction) (b : BState) (vm : List (Nat × Nat)) (v dv : Nat)
    (b2 : BState) (h : copyRead f b vm v = .ok (dv, b2)) :
    b2.ebbs = b.ebbs ∧ b2.curEbb = b.curEbb := by
  rw [copyRead] at h
  cases hc : f.valueConst v with
  | some c => rw [hc] at h; cases h; exact ⟨rfl, rfl⟩
  | none =>
    rw [hc] at h
    cases hl : plookup vm v with
    | some d => rw [hl] at h; cases h; exact ⟨rfl, rfl⟩
    | none => rw [hl] at h; cases h

theorem copyReadList_ebbs (f : SrcFunction) (vm : List (Nat × Nat)) :
    ∀ (l : List Nat) (b : BState) (ds : List Nat) (b2 : BState),
    copyReadList f b vm l = .ok (ds, b2) → b2.ebbs = b.ebbs ∧ b2.curEbb = b.curEbb := by
  intro l
  induction l with
  | nil => intro b ds b2 h; rw [copyReadList] at h; cases h; exact ⟨rfl, rfl⟩
  | cons v rest ih =>
    intro b ds b2 h
    rw [copyReadList] at h
    cases hc : copyRead f b vm v with
    | error e => rw [hc] at h; cases h
    | ok p =>
      obtain ⟨dv, bm⟩ := p
      rw [hc] at h
      dsimp only at h
      cases hr : copyReadList f bm vm rest with
      | error e => rw [hr] at h; cases h
      | ok q =>
        obtain ⟨ds2, b3⟩ := q
        rw [hr] at h
        dsimp only at h
        cases h
        have h1 := copyRead_ebbs f b vm v dv bm hc
        have h2 := ih bm ds2 b2 hr
        exact ⟨h2.1.trans h1.1, h2.2.trans h1.2⟩

theorem appendOp_ops (b : BState) (d : DOp) (e : Nat) (ebb : DEbb)
    (hcur : b.curEbb = some e) (hebb : lookupEbb b.ebbs e = some ebb) :
    lookupEbb (b.appendOp d).ebbs e = some { ebb with ops := ebb.ops ++ [d] } ∧
    (∀ e2, e2 ≠ e → lookupEbb (b.appendOp d).ebbs e2 = lookupEbb b.ebbs e2) := by
  rw [BState.appendOp, hcur]
  constructor
  · rw [lookupEbb_updEbb_self, hebb]; rfl
  · intro e2 h2; exact lookupEbb_updEbb_other _ _ _ _ h2

/-- Concrete tail-call scenario for the C3 witness: a single-op function
whose op 20 is a tail Call with constant name and module and one mapped
argument. -/
def c3SrcFun : SrcFunction :=
  { ident := { module := 0, name := 1, arity := 1, lambda := none }
    ebbs := [10]
    entry := 10
    ebbOps := fun _ => [20]
    ebbArgs := fun _ => []
    opKind := fun _ => .call .tail 1
    opReads := fun _ => [2, 3, 1]
    opWrites := fun _ => []
    opBranches := fun _ => []
    callTarget := fun _ => 0
    callArgs := fun _ => []
    callSource := fun _ => 0
    valueConst := fun v => if v = 2 then some 100 else if v = 3 then some 101 else none }

/-- Loop context of the C3 witness. -/
def c3Ctx : GenCtx :=
  { srcFun := c3SrcFun, contSites := [20],
    live := { flowLive := fun _ => [], ebbLive := fun _ => [] },
    okRet := 7, errRet := 8 }

/-- Loop state of the C3 witness: cursor on EBB 0, value 1 mapped to 42. -/
def c3St : GenState :=
  { b :=
      { ident := c3SrcFun.ident, attrs := [], nextValue := 50,
        ebbs := [(0, { args := [], ops := [] })], nextEbb := 1, entry := some 0,
        calls := [], nextCall := 0, consts := [], curEbb := some 0, pending := none },
    valMap := [(1, 42)], ebbMap := [(20, 0)], handled := [], toProcess := [],
    envGen := { next := 0, capturesNum := [] }, needed := [], contMap := [] }

/-- C3: a Call or Apply op with tail call type at a continuation site must
have zero writes (a non-empty write list hits the assert and is fatal);
on success no env is allocated, nothing is scheduled, the continuaitons map
is untouched, and exactly one op is emitted: a tail call or tail apply
whose argument buffer is the chunk's own ok_ret_cont and err_ret_cont
followed by the copy_read images of the original call arguments. -/
theorem tail_sites_pass_own_ret_conts
    (ctx : GenCtx) (st : GenState) (srcOp : Nat) (e : Nat) (ebb : DEbb)
    (hsite : ctx.contSites.contains srcOp = true)
    (hkind : (∃ ar, ctx.srcFun.opKind srcOp = .call .tail ar) ∨
      ctx.srcFun.opKind srcOp = .apply .tail)
    (hcur : st.b.curEbb = some e)
    (hebb : lookupEbb st.b.ebbs e = some ebb) :
    (ctx.srcFun.opWrites srcOp ≠ [] → processOp ctx st srcOp = .error .assertFailed) ∧
    (∀ st2, ctx.srcFun.opWrites srcOp = [] → processOp ctx st srcOp = .ok st2 →
      st2.envGen = st.envGen ∧ st2.needed = st.needed ∧ st2.contMap = st.contMap ∧
      st2.valMap = st.valMap ∧ st2.ebbMap = st.ebbMap ∧ st2.toProcess = st.toProcess ∧
      ∃ d args,
        lookupEbb st2.b.ebbs e = some { ebb with ops := ebb.ops ++ [d] } ∧
        (∀ e2, e2 ≠ e → lookupEbb st2.b.ebbs e2 = lookupEbb st.b.ebbs e2) ∧
        d.writes = [] ∧ d.branches = [] ∧
        ((∃ ar nameDst modDst bx,
            ctx.srcFun.opKind srcOp = .call .tail ar ∧
            d.kind = .call .tail ar ∧
            d.reads = nameDst :: modDst :: ctx.okRet :: ctx.errRet :: args ∧
            copyReadList ctx.srcFun st.b st.valMap ((ctx.srcFun.opReads srcOp).drop 2) =
              .ok (args, bx)) ∨
         (∃ fdst bx,
            ctx.srcFun.opKind srcOp = .apply .tail ∧
            d.kind = .apply .tail ∧
            d.reads = fdst :: ctx.okRet :: ctx.errRet :: args ∧
            copyReadList ctx.srcFun st.b st.valMap ((ctx.srcFun.opReads srcOp).drop 1) =
              .ok (args, bx)))) := by
  have hstep : processOp ctx st srcOp = processContSite ctx st srcOp := by
    dsimp only [processOp]
    rw [hsite]
    rfl
  constructor
  · intro hne
    obtain ⟨w, ws, hw⟩ : ∃ w ws, ctx.srcFun.opWrites srcOp = w :: ws := by
      cases hws : ctx.srcFun.opWrites srcOp with
      | nil => exact absurd hws hne
      | cons w ws => exact ⟨w, ws, rfl⟩
    rw [hstep]
    rcases hkind with ⟨ar, hk⟩ | hk
    · dsimp only [processContSite]
      rw [hk, hw]
    · dsimp only [processContSite]
      rw [hk, hw]
  · intro st2 hw heq
    rw [hstep] at heq
    rcases hkind with ⟨ar, hk⟩ | hk
    · dsimp only [processContSite] at heq
      rw [hk, hw] at heq
      dsimp only at heq
      dsimp only [emitCall] at heq
      rw [hk] at heq
      dsimp only at heq
      cases hr : ctx.srcFun.opReads srcOp with
      | nil => rw [hr] at heq; cases heq
      | cons nameV rest1 =>
        cases rest1 with
        | nil => rw [hr] at heq; cases heq
        | cons modV rest =>
          rw [hr] at heq
          dsimp only at heq
          cases hcrl : copyReadList ctx.srcFun st.b st.valMap rest with
          | error er => rw [hcrl] at heq; cases heq
          | ok p =>
            obtain ⟨argVals, b2⟩ := p
            rw [hcrl] at heq
            dsimp only at heq
            cases hn : copyRead ctx.srcFun b2 st.valMap nameV with
            | error er => rw [hn] at heq; cases heq
            | ok pn =>
              obtain ⟨nameDst, b3⟩ := pn
              rw [hn] at heq
              dsimp only at heq
              cases hm : copyRead ctx.srcFun b3 st.valMap modV with
              | error er => rw [hm] at heq; cases heq
              | ok pm =>
                obtain ⟨modDst, b4⟩ := pm
                rw [hm] at heq
                dsimp only at heq
                cases heq
                refine ⟨rfl, rfl, rfl, rfl, rfl, rfl, ?_⟩
                have hb2 := copyReadList_ebbs ctx.srcFun st.valMap rest st.b argVals b2 hcrl
                have hb3 := copyRead_ebbs ctx.srcFun b2 st.valMap nameV nameDst b3 hn
                have hb4 := copyRead_ebbs ctx.srcFun b3 st.valMap modV modDst b4 hm
                have hebbs4 : b4.ebbs = st.b.ebbs := hb4.1.trans (hb3.1.trans hb2.1)
                have hcur4 : b4.curEbb = some e := by rw [hb4.2, hb3.2, hb2.2, hcur]
                have happ := appendOp_ops b4
                  { kind := .call .tail ar,
                    reads := nameDst :: modDst :: ctx.okRet :: ctx.errRet :: argVals,
                    writes := [], branches := [] } e ebb hcur4
                  (by rw [hebbs4]; exact hebb)
                refine ⟨_, argVals, happ.1,
                  (fun e2 h2 => (happ.2 e2 h2).trans (by rw [hebbs4])), rfl, rfl, ?_⟩
                left
                exact ⟨ar, nameDst, modDst, b2, hk, rfl, rfl, hcrl⟩
    · dsimp only [processContSite] at heq
      rw [hk, hw] at heq
      dsimp only at heq
      dsimp only [emitCall] at heq
      rw [hk] at heq
      dsimp only at heq
      cases hr : ctx.srcFun.opReads srcOp with
      | nil => rw [hr] at heq; cases heq
      | cons fval rest =>
        rw [hr] at heq
        dsimp only at heq
        cases hcrl : copyReadList ctx.srcFun st.b st.valMap rest with
        | error er => rw [hcrl] at heq; cases heq
        | ok p =>
          obtain ⟨argVals, b2⟩ := p
          rw [hcrl] at heq
          dsimp only at heq
          cases hf : plookup st.valMap fval with
          | none => rw [hf] at heq; cases heq
          | some fdst =>
            rw [hf] at heq
            dsimp only at heq
            cases heq
            refine ⟨rfl, rfl, rfl, rfl, rfl, rfl, ?_⟩
            have hb2 := copyReadList_ebbs ctx.srcFun st.valMap rest st.b argVals b2 hcrl
            have hcur2 : b2.curEbb = some e := by rw [hb2.2, hcur]
            have happ := appendOp_ops b2
              { kind := .apply .tail,
                reads := fdst :: ctx.okRet :: ctx.errRet :: argVals,
                writes := [], branches := [] } e ebb hcur2
              (by rw [hb2.1]; exact hebb)
            refine ⟨_, argVals, happ.1,
              (fun e2 h2 => (happ.2 e2 h2).trans (by rw [hb2.1])), rfl, rfl, ?_⟩
            right
            exact ⟨fdst, b2, hk, rfl, rfl, hcrl⟩

/-- Witness for C3: the theorem applied to the concrete tail-call scenario,
plus the fact that the run does succeed. -/
theorem tail_sites_pass_own_ret_conts_witness :
    ((c3Ctx.srcFun.opWrites 20 ≠ [] → processOp c3Ctx c3St 20 = .error .assertFailed) ∧
     (∀ st2, c3Ctx.srcFun.opWrites 20 = [] → processOp c3Ctx c3St 20 = .ok st2 →
      st2.envGen = c3St.envGen ∧ st2.needed = c3St.needed ∧ st2.contMap = c3St.contMap ∧
      st2.valMap = c3St.valMap ∧ st2.ebbMap = c3St.ebbMap ∧
      st2.toProcess = c3St.toProcess ∧
      ∃ d args,
        lookupEbb st2.b.ebbs 0 = some { args := [], ops := [] ++ [d] } ∧
        (∀ e2, e2 ≠ 0 → lookupEbb st2.b.ebbs e2 = lookupEbb c3St.b.ebbs e2) ∧
        d.writes = [] ∧ d.branches = [] ∧
        ((∃ ar nameDst modDst bx,
            c3Ctx.srcFun.opKind 20 = .call .tail ar ∧
            d.kind = .call .tail ar ∧
            d.reads = nameDst :: modDst :: c3Ctx.okRet :: c3Ctx.errRet :: args ∧
            copyReadList c3Ctx.srcFun c3St.b c3St.valMap ((c3Ctx.srcFun.opReads 20).drop 2) =
              .ok (args, bx)) ∨
         (∃ fdst bx,
            c3Ctx.srcFun.opKind 20 = .apply .tail ∧
            d.kind = .apply .tail ∧
            d.reads = fdst :: c3Ctx.okRet :: c3Ctx.errRet :: args ∧
            copyReadList c3Ctx.srcFun c3St.b c3St.valMap ((c3Ctx.srcFun.opReads 20).drop 1) =
              .ok (args, bx))))) ∧
    ∃ st2, processOp c3Ctx c3St 20 = .ok st2 :=
  ⟨tail_sites_pass_own_ret_conts c3Ctx c3St 20 0 { args := [], ops := [] } rfl
    (Or.inl ⟨1, rfl⟩) rfl rfl, ⟨_, rfl⟩⟩

/-! ## C4: continuation sharing -/

/-- Extension of the (env generator, continuaitons map) pair: the new map
is the old one plus fresh entries whose keys were unbound before and are
pairwise distinct, and the generator advanced by exactly one index per
fresh entry. -/
def CMExt (eg : ModuleEnvs) (cm : List (ContSite × Nat))
    (eg2 : ModuleEnvs) (cm2 : List (ContSite × Nat)) : Prop :=
  ∃ fresh, cm2 = fresh ++ cm ∧ eg2.next = eg.next + fresh.length ∧
    (∀ p ∈ fresh, plookup cm p.1 = none) ∧ (fresh.map Prod.fst).Nodup

theorem plookup_append_right {κ α : Type} [DecidableEq κ]
    (l1 l2 : List (κ × α)) (k : κ) (h : plookup l1 k = none) :
    plookup (l1 ++ l2) k = plookup l2 k := by
  induction l1 with
  | nil => rfl
  | cons p rest ih =>
    obtain ⟨k2, v⟩ := p
    rw [plookup] at h
    by_cases hk : k2 = k
    · rw [if_pos hk] at h; cases h
    · rw [if_neg hk] at h
      rw [List.cons_append, plookup, if_neg hk]
      exact ih h

theorem plookup_append_none {κ α : Type} [DecidableEq κ]
    (l1 l2 : List (κ × α)) (k : κ) (h : plookup (l1 ++ l2) k = none) :
    plookup l2 k = none := by
  induction l1 with
  | nil => exact h
  | cons p rest ih =>
    obtain ⟨k2, v⟩ := p
    rw [List.cons_append, plookup] at h
    by_cases hk : k2 = k
    · rw [if_pos hk] at h; cases h
    · rw [if_neg hk] at h; exact ih h

theorem plookup_isSome_of_mem {κ α : Type} [DecidableEq κ]
    (l : List (κ × α)) (p : κ × α) (h : p ∈ l) : (plookup l p.1).isSome := by
  induction l with
  | nil => cases h
  | cons q rest ih =>
    obtain ⟨k2, v⟩ := q
    rw [plookup]
    by_cases hk : k2 = p.1
    · rw [if_pos hk]; rfl
    · rw [if_neg hk]
      cases List.mem_cons.mp h with
      | inl he => rw [he] at hk; exact absurd rfl hk
      | inr hm => exact ih hm

theorem CMExt_refl (eg : ModuleEnvs) (cm : List (ContSite × Nat)) : CMExt eg cm eg cm :=
  ⟨[], rfl, rfl, fun p hp => absurd hp (List.not_mem_nil p), List.nodup_nil⟩

theorem plookup_append_left {κ α : Type} [DecidableEq κ]
    (l1 l2 : List (κ × α)) (k : κ) (v : α) (h : plookup l1 k = some v) :
    plookup (l1 ++ l2) k = some v := by
  induction l1 with
  | nil => cases h
  | cons p rest ih =>
    obtain ⟨k2, w⟩ := p
    rw [plookup] at h
    rw [List.cons_append, plookup]
    by_cases hk : k2 = k
    · rw [if_pos hk] at h; rw [if_pos hk]; exact h
    · rw [if_neg hk] at h; rw [if_neg hk]; exact ih h

theorem CMExt_trans {eg : ModuleEnvs} {cm : List (ContSite × Nat)} {eg2 : ModuleEnvs}
    {cm2 : List (ContSite × Nat)} {eg3 : ModuleEnvs} {cm3 : List (ContSite × Nat)}
    (h1 : CMExt eg cm eg2 cm2) (h2 : CMExt eg2 cm2 eg3 cm3) : CMExt eg cm eg3 cm3 := by
  obtain ⟨f1, hc1, hn1, hk1, hd1⟩ := h1
  obtain ⟨f2, hc2, hn2, hk2, hd2⟩ := h2
  refine ⟨f2 ++ f1, by rw [hc2, hc1, List.append_assoc], by rw [hn2, hn1]; simp; omega, ?_, ?_⟩
  · intro p hp
    cases List.mem_append.mp hp with
    | inl h2m => exact plookup_append_none f1 cm p.1 (hc1 ▸ hk2 p h2m)
    | inr h1m => exact hk1 p h1m
  · rw [List.map_append]
    refine List.Nodup.append hd2 hd1 ?_
    intro k hk2m hk1m
    obtain ⟨p2, hp2, he2⟩ := List.mem_map.mp hk2m
    obtain ⟨p1, hp1, he1⟩ := List.mem_map.mp hk1m
    have hnone := hk2 p2 hp2
    rw [hc1] at hnone
    have hsome := plookup_isSome_of_mem f1 p1 hp1
    rw [he1, ← he2] at hsome
    cases hlk : plookup f1 p2.1 with
    | none => rw [hlk] at hsome; cases hsome
    | some v => rw [plookup_append_left f1 cm p2.1 v hlk] at hnone; cases hnone

theorem contEnvFor_cmext (st : GenState) (site : ContSite) (n : Nat) :
    CMExt st.envGen st.contMap (contEnvFor st site n).2.envGen
      (contEnvFor st site n).2.contMap := by
  rw [contEnvFor]
  cases hlk : plookup st.contMap site with
  | some idx => exact CMExt_refl _ _
  | none =>
    refine ⟨[(site, st.envGen.next)], rfl, rfl, ?_, List.nodup_singleton _⟩
    intro p hp
    rw [List.mem_singleton] at hp
    rw [hp]
    exact hlk

theorem contEnvFor_preserves (st : GenState) (site : ContSite) (n idx : Nat)
    (h : plookup st.contMap site = some idx) :
    contEnvFor st site n = (idx, st) := by
  rw [contEnvFor, h]

theorem emitCall_cm (ctx : GenCtx) (st : GenState) (srcOp a b : Nat) (st2 : GenState)
    (h : emitCall ctx st srcOp a b = .ok st2) :
    st2.envGen = st.envGen ∧ st2.contMap = st.contMap ∧ st2.needed = st.needed := by
  rw [emitCall] at h
  cases hk : ctx.srcFun.opKind srcOp with
  | apply ct =>
    rw [hk] at h
    dsimp only at h
    cases hr : ctx.srcFun.opReads srcOp with
    | nil => rw [hr] at h; cases h
    | cons fval rest =>
      rw [hr] at h
      dsimp only at h
      cases hc : copyReadList ctx.srcFun st.b st.valMap rest with
      | error e => rw [hc] at h; cases h
      | ok p =>
        obtain ⟨argVals, b2⟩ := p
        rw [hc] at h
        dsimp only at h
        cases hf : plookup st.valMap fval with
        | none => rw [hf] at h; cases h
        | some fdst => rw [hf] at h; dsimp only at h; cases h; exact ⟨rfl, rfl, rfl⟩
  | call ct ar =>
    rw [hk] at h
    dsimp only at h
    cases hr : ctx.srcFun.opReads srcOp with
    | nil => rw [hr] at h; cases h
    | cons nameV rest1 =>
      cases rest1 with
      | nil => rw [hr] at h; cases h
      | cons modV rest =>
        rw [hr] at h
        dsimp only at h
        cases hc : copyReadList ctx.srcFun st.b st.valMap rest with
        | error e => rw [hc] at h; cases h
        | ok p =>
          obtain ⟨argVals, b2⟩ := p
          rw [hc] at h
          dsimp only at h
          cases hn : copyRead ctx.srcFun b2 st.valMap nameV with
          | error e => rw [hn] at h; cases h
          | ok pn =>
            obtain ⟨nameDst, b3⟩ := pn
            rw [hn] at h
            dsimp only at h
            cases hm : copyRead ctx.srcFun b3 st.valMap modV with
            | error e => rw [hm] at h; cases h
            | ok pm =>
              obtain ⟨modDst, b4⟩ := pm
              rw [hm] at h
              dsimp only at h
              cases h
              exact ⟨rfl, rfl, rfl⟩
  | returnOk => rw [hk] at h; cases h
  | returnThrow => rw [hk] at h; cases h
  | unpackEnv n => rw [hk] at h; cases h
  | makeClosureEnv i => rw [hk] at h; cases h
  | bindClosure i => rw [hk] at h; cases h
  | contApply => rw [hk] at h; cases h
  | other t => rw [hk] at h; cases h

theorem cmext_two_cef (st : GenState) (s1 : ContSite) (n1 : Nat) (b1 : BState)
    (s2 : ContSite) (n2 : Nat) :
    CMExt st.envGen st.contMap
      (contEnvFor { (contEnvFor st s1 n1).2 with b := b1 } s2 n2).2.envGen
      (contEnvFor { (contEnvFor st s1 n1).2 with b := b1 } s2 n2).2.contMap :=
  CMExt_trans (contEnvFor_cmext st s1 n1)
    (contEnvFor_cmext { (contEnvFor st s1 n1).2 with b := b1 } s2 n2)

theorem processContSite_cmext (ctx : GenCtx) (st : GenState) (srcOp : Nat) (st2 : GenState)
    (h : processContSite ctx st srcOp = .ok st2) :
    CMExt st.envGen st.contMap st2.envGen st2.contMap := by
  dsimp only [processContSite] at h
  split at h
  · cases h
  · split at h
    · obtain ⟨he, hc, hn⟩ := emitCall_cm _ _ _ _ _ _ h
      rw [he, hc]
      exact CMExt_refl _ _
    · cases h
  · cases hw : ctx.srcFun.opWrites srcOp with
    | nil => rw [hw] at h; cases h
    | cons okVal t1 =>
      cases t1 with
      | nil => rw [hw] at h; cases h
      | cons nokVal t2 =>
        cases t2 with
        | cons c t3 => rw [hw] at h; cases h
        | nil =>
          rw [hw] at h
          dsimp only at h
          split at h
          · cases h
          · split at h
            · cases h
            · split at h
              · cases h
              · split at h
                · cases h
                · obtain ⟨he, hc, hn⟩ := emitCall_cm _ _ _ _ _ _ h
                  rw [he, hc]
                  exact cmext_two_cef _ _ _ _ _ _

theorem processOp_cmext (ctx : GenCtx) (st : GenState) (srcOp : Nat) (st2 : GenState)
    (h : processOp ctx st srcOp = .ok st2) :
    CMExt st.envGen st.contMap st2.envGen st2.contMap := by
  dsimp only [processOp] at h
  split at h
  · exact processContSite_cmext _ _ _ _ h
  · repeat' split at h
    all_goals (cases h; try exact CMExt_refl _ _)

theorem genStep_cmext (ctx : GenCtx) (st st2 : GenState)
    (h : genStep ctx st = .ok (some st2)) :
    CMExt st.envGen st.contMap st2.envGen st2.contMap := by
  dsimp only [genStep] at h
  split at h
  · cases h
  · split at h
    · cases h
      exact CMExt_refl _ _
    · split at h
      · cases h
      · split at h
        · cases h
        · rename_i st3 heq
          cases h
          have hp := processOp_cmext _ _ _ _ heq
          exact hp

theorem genLoop_cmext (ctx : GenCtx) :
    ∀ (fuel : Nat) (st st2 : GenState), genLoop ctx fuel st = .ok st2 →
    CMExt st.envGen st.contMap st2.envGen st2.contMap := by
  intro fuel
  induction fuel with
  | zero => intro st st2 h; rw [genLoop] at h; cases h
  | succ fuel ih =>
    intro st st2 h
    rw [genLoop] at h
    split at h
    · cases h
    · cases h
      exact CMExt_refl _ _
    · rename_i stM heq
      exact CMExt_trans (genStep_cmext _ _ _ heq) (ih _ _ h)

theorem contChunkStart_cm (srcFun : SrcFunction) (cs : List Nat) (live : LiveValues)
    (b1 : BState) (entryEbb : Nat) (envGen : ModuleEnvs)
    (needed contMap : List (ContSite × Nat)) (srcFirstOp : Nat)
    (resultSrc : Option Nat) (envVals : List Nat) (ctx : GenCtx) (st0 : GenState)
    (h : contChunkStart srcFun cs live b1 entryEbb envGen needed contMap srcFirstOp
      resultSrc envVals = .ok (ctx, st0)) :
    st0.envGen = envGen ∧ st0.contMap = contMap := by
  dsimp only [contChunkStart] at h
  split at h
  · cases h
    exact ⟨rfl, rfl⟩
  · cases h

theorem genChunk_cmext (fuel : Nat) (srcFun : SrcFunction) (site : ContSite)
    (contSites : List Nat) (live : LiveValues) (envGen : ModuleEnvs)
    (needed contMap : List (ContSite × Nat)) (cont : Option Nat)
    (fb : BState) (eg2 : ModuleEnvs) (nd2 cm2 : List (ContSite × Nat))
    (h : genChunk fuel srcFun site contSites live envGen needed contMap cont =
      .ok (fb, eg2, nd2, cm2)) :
    CMExt envGen contMap eg2 cm2 := by
  cases cont with
  | some envIdx =>
    dsimp only [genChunk] at h
    split at h
    · cases h
    · split at h
      · cases h
      · cases hcs : contChunkStart srcFun contSites live _ _ envGen needed contMap _ _ _ with
        | error e => rw [hcs] at h; cases h
        | ok p =>
          obtain ⟨ctx, st0⟩ := p
          rw [hcs] at h
          dsimp only at h
          cases hloop : genLoop ctx fuel st0 with
          | error e => rw [hloop] at h; cases h
          | ok stF =>
            rw [hloop] at h
            dsimp only at h
            cases h
            obtain ⟨he, hc⟩ := contChunkStart_cm _ _ _ _ _ _ _ _ _ _ _ _ _ hcs
            rw [← he, ← hc]
            exact genLoop_cmext _ _ _ _ hloop
  | none =>
    dsimp only [genChunk] at h
    split at h
    · cases h
    · split at h
      · cases h
      · split at h
        · cases h
        · rename_i stF heq
          cases h
          exact genLoop_cmext _ _ _ _ heq

theorem plookup_some_mem {κ α : Type} [DecidableEq κ]
    (l : List (κ × α)) (k : κ) (v : α) (h : plookup l k = some v) : (k, v) ∈ l := by
  induction l with
  | nil => cases h
  | cons p rest ih =>
    obtain ⟨k2, w⟩ := p
    rw [plookup] at h
    by_cases hk : k2 = k
    · rw [if_pos hk] at h
      cases h
      rw [hk]
      exact List.mem_cons_self _ _
    · rw [if_neg hk] at h
      exact List.mem_cons_of_mem _ (ih h)

theorem CMExt_persist {eg : ModuleEnvs} {cm : List (ContSite × Nat)} {eg2 : ModuleEnvs}
    {cm2 : List (ContSite × Nat)} (h : CMExt eg cm eg2 cm2) (site : ContSite) (idx : Nat)
    (hl : plookup cm site = some idx) : plookup cm2 site = some idx := by
  obtain ⟨fresh, hc, _, hk, _⟩ := h
  rw [hc]
  rw [plookup_append_right fresh cm site ?hnone]
  · exact hl
  case hnone =>
    cases hf : plookup fresh site with
    | none => rfl
    | some w =>
      have hmem := plookup_some_mem fresh site w hf
      have := hk (site, w) hmem
      rw [this] at hl
      cases hl

/-- C4: continuation sharing.  Along the transform_function worklist loop:
(1) the continuaitons map and env generator only extend — each new key gets
exactly one freshly allocated env index (the generator advances once per
fresh key, fresh keys are pairwise distinct and previously unbound);
(2) existing key-to-env bindings persist unchanged;
(3) the generated-site sets stay duplicate-free and exactly one function is
added per newly generated key — a site whose key was already generated is
skipped and produces no second chunk;
(4) at a continuation site whose key is already in the map, the env
resolution returns the first-allocated index and changes nothing. -/
theorem continuation_sharing_per_key
    (chunkFuel : Nat) (srcFun : SrcFunction) (cs : List Nat) (live : LiveValues) :
    ∀ (fuel : Nat) (st st' : TFState), st.generated.Nodup → st.generated2.Nodup →
    tfLoop chunkFuel srcFun cs live fuel st = .ok st' →
    CMExt st.envGen st.contMap st'.envGen st'.contMap ∧
    (∀ site idx, plookup st.contMap site = some idx →
      plookup st'.contMap site = some idx) ∧
    st'.generated.Nodup ∧ st'.generated2.Nodup ∧
    (∃ k, st'.generated.length + st'.generated2.length =
        st.generated.length + st.generated2.length + k ∧
      st'.funs.length = st.funs.length + k) ∧
    (∀ (stG : GenState) (s : ContSite) (n idx : Nat),
      plookup stG.contMap s = some idx → contEnvFor stG s n = (idx, stG)) := by
  intro fuel
  induction fuel with
  | zero => intro st st' hg hg2 h; rw [tfLoop] at h; cases h
  | succ fuel ih =>
    intro st st' hg hg2 h
    rw [tfLoop] at h
    cases hpop : st.needed.getLast? with
    | none =>
      rw [hpop] at h
      cases h
      exact ⟨CMExt_refl _ _, fun site idx hh => hh, hg, hg2, ⟨0, rfl, rfl⟩,
        fun stG s n idx hl => contEnvFor_preserves stG s n idx hl⟩
    | some p =>
      obtain ⟨site, env⟩ := p
      rw [hpop] at h
      dsimp only at h
      cases site with
      | ebbCall call v =>
        dsimp only at h
        split at h
        · -- skip
          have hIH := ih _ _ ?hgA ?hgB h
          case hgA => exact hg
          case hgB => exact hg2
          exact hIH
        · rename_i hsk
          repeat' split at h
          · cases h
          · rename_i fb eg nd cm heq
            have hnd : ((call, v) :: st.generated).Nodup := by
              refine List.nodup_cons.mpr ⟨?_, hg⟩
              intro hm
              exact hsk (List.elem_eq_true_of_mem hm)
            have hIH := ih _ _ ?hgC ?hgD h
            case hgC => exact hnd
            case hgD => exact hg2
            obtain ⟨hcm, hper, hn1, hn2, ⟨k, hk1, hk2⟩, hreu⟩ := hIH
            have hch := genChunk_cmext _ _ _ _ _ _ _ _ _ _ _ _ _ heq
            refine ⟨CMExt_trans hch hcm, ?_, hn1, hn2, ⟨k + 1, ?_, ?_⟩, hreu⟩
            · intro s i hl
              exact hper s i (CMExt_persist hch s i hl)
            · simp only [List.length_cons] at hk1 ⊢
              omega
            · simp only [List.length_cons] at hk2 ⊢
              omega
      | op o =>
        dsimp only at h
        split at h
        · have hIH := ih _ _ ?hgE ?hgF h
          case hgE => exact hg
          case hgF => exact hg2
          exact hIH
        · rename_i hsk
          repeat' split at h
          · cases h
          · rename_i fb eg nd cm heq
            have hnd : (o :: st.generated2).Nodup := by
              refine List.nodup_cons.mpr ⟨?_, hg2⟩
              intro hm
              exact hsk (List.elem_eq_true_of_mem hm)
            have hIH := ih _ _ ?hgG ?hgH h
            case hgG => exact hg
            case hgH => exact hnd
            obtain ⟨hcm, hper, hn1, hn2, ⟨k, hk1, hk2⟩, hreu⟩ := hIH
            have hch := genChunk_cmext _ _ _ _ _ _ _ _ _ _ _ _ _ heq
            refine ⟨CMExt_trans hch hcm, ?_, hn1, hn2, ⟨k + 1, ?_, ?_⟩, hreu⟩
            · intro s i hl
              exact hper s i (CMExt_persist hch s i hl)
            · simp only [List.length_cons] at hk1 ⊢
              omega
            · simp only [List.length_cons] at hk2 ⊢
              omega


/-- Concrete source function of the C4 witness: one normal call with an
exception edge, an ok return and a throw target. -/
def c4SrcFun : SrcFunction :=
  { ident := { module := 1, name := 2, arity := 1, lambda := none }
    ebbs := [10, 11]
    entry := 10
    ebbOps := fun e => if e = 10 then [20, 21] else if e = 11 then [22] else []
    ebbArgs := fun e => if e = 10 then [1] else if e = 11 then [6] else []
    opKind := fun o =>
      if o = 20 then .call .normal 1 else if o = 21 then .returnOk
      else if o = 22 then .returnThrow else .other 0
    opReads := fun o =>
      if o = 20 then [2, 3, 1] else if o = 21 then [4] else if o = 22 then [6] else []
    opWrites := fun o => if o = 20 then [4, 5] else []
    opBranches := fun o => if o = 20 then [30] else []
    callTarget := fun c => if c = 30 then 11 else 0
    callArgs := fun c => if c = 30 then [5] else []
    callSource := fun c => if c = 30 then 20 else 0
    valueConst := fun v => if v = 2 then some 100 else if v = 3 then some 101 else none }

/-- Liveness data of the C4 witness. -/
def c4Live : LiveValues :=
  { flowLive := fun o => if o = 20 then [4] else []
    ebbLive := fun e => if e = 11 then [6] else [] }

/-- Worklist state of the C4 witness: the two continuation sites scheduled
by the entry chunk of c4SrcFun. -/
def c4St : TFState :=
  { envGen := { next := 2, capturesNum := [(1, 2), (0, 2)] }
    needed := [(.op 21, 0), (.ebbCall 30 (some 6), 1)]
    contMap := [(.ebbCall 30 (some 6), 1), (.op 21, 0)]
    generated := []
    generated2 := []
    funs := [] }

/-- Witness for C4: the theorem applied to a concrete successful worklist
run that drains both scheduled continuation sites. -/
theorem continuation_sharing_per_key_witness :
    ∃ st', tfLoop 20 c4SrcFun [20] c4Live 20 c4St = .ok st' ∧
      (CMExt c4St.envGen c4St.contMap st'.envGen st'.contMap ∧
       (∀ site idx, plookup c4St.contMap site = some idx →
         plookup st'.contMap site = some idx) ∧
       st'.generated.Nodup ∧ st'.generated2.Nodup ∧
       (∃ k, st'.generated.length + st'.generated2.length =
           c4St.generated.length + c4St.generated2.length + k ∧
         st'.funs.length = c4St.funs.length + k) ∧
       (∀ (stG : GenState) (s : ContSite) (n idx : Nat),
         plookup stG.contMap s = some idx → contEnvFor stG s n = (idx, stG))) :=
  ⟨_, rfl, continuation_sharing_per_key 20 c4SrcFun [20] c4Live 20 c4St _
    List.nodup_nil List.nodup_nil rfl⟩

/-! ## C2: continuation chunk shape -/

theorem mkWrites_range (k : Nat) : ∀ (b : BState),
    BState.opUnpackEnv.mkWrites b k =
      (List.range' b.nextValue k,
       { b with nextValue := b.nextValue + k }) := by
  induction k with
  | zero =>
    intro b
    rw [BState.opUnpackEnv.mkWrites]
    rfl
  | succ k ih =>
    intro b
    rw [BState.opUnpackEnv.mkWrites]
    dsimp only [BState.newValue]
    rw [ih]
    have h1 : List.range' b.nextValue (k + 1) 1 = b.nextValue :: List.range' (b.nextValue + 1) k 1 :=
      List.range'_succ b.nextValue k 1
    rw [h1]
    have h2 : b.nextValue + 1 + k = b.nextValue + (k + 1) := by omega
    rw [h2]

theorem opUnpackEnv_shape (b : BState) (envVal num : Nat) :
    b.opUnpackEnv envVal num =
      (List.range' b.nextValue num,
       BState.appendOp { b with nextValue := b.nextValue + num }
         { kind := .unpackEnv num, reads := [envVal],
           writes := List.range' b.nextValue num, branches := [] }) := by
  rw [BState.opUnpackEnv, mkWrites_range]

theorem contChunkStart_shape (srcFun : SrcFunction) (cs : List Nat) (live : LiveValues)
    (b1 : BState) (e : Nat) (eg : ModuleEnvs) (nd cm : List (ContSite × Nat))
    (fo : Nat) (resultSrc : Option Nat) (envVals : List Nat) :
    contChunkStart srcFun cs live b1 e eg nd cm fo resultSrc envVals =
      .ok ({ srcFun := srcFun, contSites := cs, live := live,
             okRet := b1.nextValue + 2, errRet := b1.nextValue + 3 },
           { b := (((b1.addEbbArgument e).2.addEbbArgument e).2.opUnpackEnv
                b1.nextValue (envVals.length + 2)).2,
             valMap := insertZip
               (match resultSrc with
                | some v => [(v, b1.nextValue + 1)]
                | none => [])
               envVals (List.range' (b1.nextValue + 4) envVals.length),
             ebbMap := [(fo, e)], handled := [], toProcess := [fo],
             envGen := eg, needed := nd, contMap := cm }) := by
  dsimp only [contChunkStart, BState.addEbbArgument, BState.newValue]
  rw [opUnpackEnv_shape]
  rw [List.range'_succ, List.range'_succ]

/-- The builder of a continuation chunk right after its prologue. -/
def chunkEntryB (ident : FunctionIdent) (n : Nat) : BState :=
  { ident := ident
    attrs := [continuationAttr]
    nextValue := 2 + (n + 2)
    ebbs := [(0, { args := [0, 1], ops := [{ kind := .unpackEnv (n + 2), reads := [0], writes := List.range' 2 (n + 2), branches := [] }] })]
    nextEbb := 1
    entry := some 0
    calls := []
    nextCall := 0
    consts := []
    curEbb := some 0
    pending := none }

/-- contChunkStart applied to the freshly built continuation-chunk entry
builder: entry arguments [0, 1] (env, result), one UnpackEnv op of
capture count + 2 values, ok return continuation = slot value 2, err
return continuation = slot value 3, and the remaining slot values 4..
bound in order to the env value list. -/
theorem contChunkStart_entry (srcFun : SrcFunction) (cs : List Nat) (live : LiveValues)
    (identL : FunctionIdent) (eg : ModuleEnvs) (nd cm : List (ContSite × Nat))
    (fo : Nat) (resultSrc : Option Nat) (envVals : List Nat) :
    contChunkStart srcFun cs live
      ((((newBState identL).putAttribute continuationAttr).insertEbbEntry).2.positionAtEnd
        (((newBState identL).putAttribute continuationAttr).insertEbbEntry).1)
      (((newBState identL).putAttribute continuationAttr).insertEbbEntry).1
      eg nd cm fo resultSrc envVals =
      .ok ({ srcFun := srcFun, contSites := cs, live := live, okRet := 2, errRet := 3 },
           { b := chunkEntryB identL envVals.length,
             valMap := insertZip
               (match resultSrc with | some v => [(v, 1)] | none => [])
               envVals (List.range' 4 envVals.length),
             ebbMap := [(fo, 0)], handled := [], toProcess := [fo],
             envGen := eg, needed := nd, contMap := cm }) := by
  rw [contChunkStart_shape, opUnpackEnv_shape]
  rfl

/-- C2 (amended): a continuation chunk's entry EBB has exactly the two
arguments [env, result]; the env is unpacked into exactly capture count + 2
values; slot 0 (value 2) is the chunk's ok_ret_cont and slot 1 (value 3)
its err_ret_cont; the remaining slots are bound, in order, to the
position's env value list — for an Op site the flow-live values of the
predecessor minus its result (the same source values packed at the creating
site), but for an EbbCall site the jump target's live values minus the
renamed result, which are the post-branch values, whereas the creating site
packed the val_map images of their renames through the edge's rename map
(third conjunct): the packed source values differ whenever the edge renames
a live value. -/
theorem continuation_chunk_shape :
    (∀ (fuel : Nat) (srcFun : SrcFunction) (op : Nat) (cs : List Nat)
       (live : LiveValues) (eg : ModuleEnvs) (nd cm : List (ContSite × Nat))
       (envIdx : Nat)
       (r : BState × ModuleEnvs × List (ContSite × Nat) × List (ContSite × Nat))
       (prevOp resVal : Nat),
       srcFun.opBefore op = some prevOp →
       (srcFun.opWrites prevOp).head? = some resVal →
       genChunk fuel srcFun (.op op) cs live eg nd cm (some envIdx) = .ok r →
       ∃ stF, genLoop
           { srcFun := srcFun, contSites := cs, live := live, okRet := 2, errRet := 3 }
           fuel
           { b := chunkEntryB { srcFun.ident with lambda := some (envIdx, 0) }
               (okCaptureList live prevOp resVal).length,
             valMap := insertZip [(resVal, 1)] (okCaptureList live prevOp resVal)
               (List.range' 4 (okCaptureList live prevOp resVal).length),
             ebbMap := [(op, 0)], handled := [], toProcess := [op],
             envGen := eg, needed := nd, contMap := cm } = .ok stF ∧
         r = (stF.b, stF.envGen, stF.needed, stF.contMap)) ∧
    (∀ (fuel : Nat) (srcFun : SrcFunction) (call : Nat) (resAfter : Option Nat)
       (cs : List Nat) (live : LiveValues) (eg : ModuleEnvs)
       (nd cm : List (ContSite × Nat)) (envIdx : Nat)
       (r : BState × ModuleEnvs × List (ContSite × Nat) × List (ContSite × Nat))
       (srcResultBefore fo : Nat),
       (srcFun.opWrites (srcFun.callSource call)).get? 1 = some srcResultBefore →
       (live.ebbLive (srcFun.callTarget call)).contains srcResultBefore = false →
       srcFun.ebbFirstOp (srcFun.callTarget call) = some fo →
       genChunk fuel srcFun (.ebbCall call resAfter) cs live eg nd cm (some envIdx) =
         .ok r →
       ∃ stF, genLoop
           { srcFun := srcFun, contSites := cs, live := live, okRet := 2, errRet := 3 }
           fuel
           { b := chunkEntryB { srcFun.ident with lambda := some (envIdx, 0) }
               (errEnvVals live (srcFun.callTarget call) resAfter).length,
             valMap := insertZip
               (match resAfter with | some v => [(v, 1)] | none => [])
               (errEnvVals live (srcFun.callTarget call) resAfter)
               (List.range' 4 (errEnvVals live (srcFun.callTarget call) resAfter).length),
             ebbMap := [(fo, 0)], handled := [], toProcess := [fo],
             envGen := eg, needed := nd, contMap := cm } = .ok stF ∧
         r = (stF.b, stF.envGen, stF.needed, stF.contMap)) ∧
    (∀ (renames : List (Nat × Nat)) (nok : Nat) (l : List Nat),
       (errSelect renames nok l).2 =
         (l.filter (fun v => ¬ applyRename renames v = nok)).map
           (applyRename renames)) := by
  refine ⟨?_, ?_, ?_⟩
  · intro fuel srcFun op cs live eg nd cm envIdx r prevOp resVal hprev hres h
    dsimp only [genChunk] at h
    rw [hprev] at h
    dsimp only at h
    rw [hres] at h
    dsimp only at h
    rw [contChunkStart_entry] at h
    dsimp only at h
    split at h
    · cases h
    · rename_i stF heq
      cases h
      exact ⟨stF, heq, rfl⟩
  · intro fuel srcFun call resAfter cs live eg nd cm envIdx r srcResultBefore fo
      hsrb hassert hfo h
    dsimp only [genChunk] at h
    rw [hsrb] at h
    dsimp only at h
    rw [hassert] at h
    rw [if_neg (by decide : ¬ (false = true))] at h
    dsimp only at h
    rw [hfo] at h
    dsimp only at h
    rw [contChunkStart_entry] at h
    dsimp only at h
    split at h
    · cases h
    · rename_i stF heq
      cases h
      exact ⟨stF, heq, rfl⟩
  · intro renames nok l
    induction l with
    | nil => rfl
    | cons v rest ih =>
      rw [errSelect]
      by_cases hv : applyRename renames v = nok
      · rw [if_pos hv, List.filter_cons]
        simp only [hv, decide_not, decide_True, Bool.not_true, Bool.false_eq_true,
          if_false]
        simpa only [decide_not] using ih
      · rw [if_neg hv, List.filter_cons]
        simp only [hv, decide_not, decide_False, Bool.not_false, if_true, List.map_cons]
        simp only [decide_not] at ih
        rw [ih]

/-- Concrete function refuting the same-source-values part of C2: the
exception edge (EBB call 30) passes the entry argument (value 1) into the
target's second argument (value 7), so the err continuation packs the
pre-branch value 1 while the chunk binds its slot to the post-branch
value 7. -/
def c2SrcFun : SrcFunction :=
  { ident := { module := 1, name := 2, arity := 1, lambda := none }
    ebbs := [10, 11]
    entry := 10
    ebbOps := fun e => if e = 10 then [20, 21] else if e = 11 then [22] else []
    ebbArgs := fun e => if e = 10 then [1] else if e = 11 then [6, 7] else []
    opKind := fun o =>
      if o = 20 then .call .normal 1 else if o = 21 then .returnOk
      else if o = 22 then .returnThrow else .other 0
    opReads := fun o =>
      if o = 20 then [2, 3, 1] else if o = 21 then [4] else if o = 22 then [7] else []
    opWrites := fun o => if o = 20 then [4, 5] else []
    opBranches := fun o => if o = 20 then [30] else []
    callTarget := fun c => if c = 30 then 11 else 0
    callArgs := fun c => if c = 30 then [5, 1] else []
    callSource := fun c => if c = 30 then 20 else 0
    valueConst := fun v => if v = 2 then some 100 else if v = 3 then some 101 else none }

/-- Liveness of the C2 counterexample function. -/
def c2Live : LiveValues :=
  { flowLive := fun o => if o = 20 then [4] else []
    ebbLive := fun e => if e = 11 then [6, 7] else [] }

/-- Counterexample for C2 as stated: on c2SrcFun the err-continuation
creation selects and packs the val_map image of pre-branch source value 1
(the third read of the entry chunk's makeClosureEnv for env 1 is
destination value 2, the image of source 1), while the generated err chunk
binds its extra slot to post-branch source value 7 (its ContApply reads
slot 4, the image of source 7); 1 and 7 are different source values. -/
theorem err_chunk_slot_not_packed_source :
    errSelect (renameMap c2SrcFun 30) 5 (c2Live.ebbLive 11) = (some 6, [1]) ∧
    errEnvVals c2Live 11 (some 6) = [7] ∧
    (1 : Nat) ≠ 7 ∧
    ∃ eg funs fentry ferr,
      transformFunction 20 20 c2SrcFun c2Live { next := 0, capturesNum := [] } [] =
        .ok (eg, funs) ∧
      plookup funs c2SrcFun.ident = some fentry ∧
      plookup funs { c2SrcFun.ident with lambda := some (1, 0) } = some ferr ∧
      (ebbOpsOf fentry 0).get? 2 =
        some { kind := .makeClosureEnv 1, reads := [0, 1, 2], writes := [5],
               branches := [] } ∧
      (lookupEbb fentry.ebbs 0).map DEbb.args = some [0, 1, 2] ∧
      c2SrcFun.ebbArgs 10 = [1] ∧
      ebbOpsOf ferr 0 =
        [{ kind := .unpackEnv 3, reads := [0], writes := [2, 3, 4], branches := [] },
         { kind := .contApply, reads := [3, 4], writes := [], branches := [] }] ∧
      eg.capturesNum = [(1, 3), (0, 2)] :=
  ⟨rfl, rfl, by decide, _, _, _, _, rfl, rfl, rfl, rfl, rfl, rfl, rfl, rfl⟩

/-- Witness for C2: the EbbCall part of the theorem applied to the
concrete err-continuation chunk of c2SrcFun, plus the fact that the run
succeeds. -/
theorem continuation_chunk_shape_witness :
    (c2SrcFun.opWrites (c2SrcFun.callSource 30)).get? 1 = some 5 ∧
    (c2Live.ebbLive (c2SrcFun.callTarget 30)).contains 5 = false ∧
    c2SrcFun.ebbFirstOp (c2SrcFun.callTarget 30) = some 22 ∧
    ∃ r, genChunk 20 c2SrcFun (.ebbCall 30 (some 6)) [20] c2Live
        { next := 2, capturesNum := [(1, 3), (0, 2)] } [] [] (some 1) = .ok r ∧
      ∃ stF, genLoop
          { srcFun := c2SrcFun, contSites := [20], live := c2Live,
            okRet := 2, errRet := 3 }
          20
          { b := chunkEntryB { c2SrcFun.ident with lambda := some (1, 0) }
              (errEnvVals c2Live (c2SrcFun.callTarget 30) (some 6)).length,
            valMap := insertZip [(6, 1)]
              (errEnvVals c2Live (c2SrcFun.callTarget 30) (some 6))
              (List.range' 4
                (errEnvVals c2Live (c2SrcFun.callTarget 30) (some 6)).length),
            ebbMap := [(22, 0)], handled := [], toProcess := [22],
            envGen := { next := 2, capturesNum := [(1, 3), (0, 2)] },
            needed := [], contMap := [] } = .ok stF ∧
        r = (stF.b, stF.envGen, stF.needed, stF.contMap) := by
  refine ⟨rfl, rfl, rfl, _, rfl, ?_⟩
  exact continuation_chunk_shape.2.1 20 c2SrcFun 30 (some 6) [20] c2Live
    { next := 2, capturesNum := [(1, 3), (0, 2)] } [] [] 1 _ 5 22 rfl rfl rfl rfl

/-! ## C1: no returns survive -/

/-- An op kind that is neither ReturnOk nor ReturnThrow. -/
def retFree (k : OpKind) : Prop :=
  ¬ k = OpKind.returnOk ∧ ¬ k = OpKind.returnThrow

/-- All ops recorded in an EBB table are return-free. -/
def BOkE (l : List (Nat × DEbb)) : Prop :=
  ∀ p, p ∈ l → ∀ d, d ∈ p.2.ops → retFree d.kind

/-- A builder state whose recorded and staged ops are all return-free. -/
def BOk (b : BState) : Prop :=
  BOkE b.ebbs ∧ ∀ d, b.pending = some d → retFree d.kind

theorem BOkE_updEbb_argsOnly (l : List (Nat × DEbb)) (e : Nat) (g : DEbb → DEbb)
    (hl : BOkE l) (hg : ∀ d, (g d).ops = d.ops) : BOkE (updEbb l e g) := by
  induction l with
  | nil => intro p hp; cases hp
  | cons q rest ih =>
    obtain ⟨k, db⟩ := q
    intro p hp d hd
    rw [updEbb] at hp
    by_cases hk : k = e
    · rw [if_pos hk] at hp
      cases List.mem_cons.mp hp with
      | inl he =>
        rw [he] at hd
        dsimp only at hd
        rw [hg] at hd
        exact hl (k, db) (List.mem_cons_self _ _) d hd
      | inr hm => exact hl p (List.mem_cons_of_mem _ hm) d hd
    · rw [if_neg hk] at hp
      cases List.mem_cons.mp hp with
      | inl he =>
        rw [he] at hd
        exact hl (k, db) (List.mem_cons_self _ _) d hd
      | inr hm =>
        exact ih (fun p2 hp2 => hl p2 (List.mem_cons_of_mem _ hp2)) p hm d hd

theorem BOkE_updEbb_append (l : List (Nat × DEbb)) (e : Nat) (g : DEbb → DEbb)
    (dop : DOp) (hl : BOkE l) (hdop : retFree dop.kind)
    (hg : ∀ d, (g d).ops = d.ops ++ [dop]) : BOkE (updEbb l e g) := by
  induction l with
  | nil => intro p hp; cases hp
  | cons q rest ih =>
    obtain ⟨k, db⟩ := q
    intro p hp d hd
    rw [updEbb] at hp
    by_cases hk : k = e
    · rw [if_pos hk] at hp
      cases List.mem_cons.mp hp with
      | inl he =>
        rw [he] at hd
        dsimp only at hd
        rw [hg] at hd
        cases List.mem_append.mp hd with
        | inl hdm => exact hl (k, db) (List.mem_cons_self _ _) d hdm
        | inr hdm =>
          rw [List.mem_singleton.mp hdm]
          exact hdop
      | inr hm => exact hl p (List.mem_cons_of_mem _ hm) d hd
    · rw [if_neg hk] at hp
      cases List.mem_cons.mp hp with
      | inl he =>
        rw [he] at hd
        exact hl (k, db) (List.mem_cons_self _ _) d hd
      | inr hm =>
        exact ih (fun p2 hp2 => hl p2 (List.mem_cons_of_mem _ hp2)) p hm d hd

theorem BOk_appendOp (b : BState) (d : DOp) (hb : BOk b) (hd : retFree d.kind) :
    BOk (b.appendOp d) := by
  rw [BState.appendOp]
  cases hc : b.curEbb with
  | none => exact hb
  | some e =>
    refine ⟨?_, hb.2⟩
    exact BOkE_updEbb_append b.ebbs e _ d hb.1 hd (fun db => rfl)

theorem retFree_not_returns :
    retFree OpKind.contApply ∧ (∀ ct, retFree (OpKind.apply ct)) ∧
    (∀ ct ar, retFree (OpKind.call ct ar)) ∧ (∀ n, retFree (OpKind.unpackEnv n)) ∧
    (∀ i, retFree (OpKind.makeClosureEnv i)) ∧
    (∀ i, retFree (OpKind.bindClosure i)) ∧ (∀ t, retFree (OpKind.other t)) :=
  ⟨⟨fun h => OpKind.noConfusion h, fun h => OpKind.noConfusion h⟩,
   fun _ => ⟨fun h => OpKind.noConfusion h, fun h => OpKind.noConfusion h⟩,
   fun _ _ => ⟨fun h => OpKind.noConfusion h, fun h => OpKind.noConfusion h⟩,
   fun _ => ⟨fun h => OpKind.noConfusion h, fun h => OpKind.noConfusion h⟩,
   fun _ => ⟨fun h => OpKind.noConfusion h, fun h => OpKind.noConfusion h⟩,
   fun _ => ⟨fun h => OpKind.noConfusion h, fun h => OpKind.noConfusion h⟩,
   fun _ => ⟨fun h => OpKind.noConfusion h, fun h => OpKind.noConfusion h⟩⟩

theorem BOk_newValue (b : BState) (hb : BOk b) : BOk (b.newValue).2 := hb

theorem BOk_createConstant (b : BState) (c : Nat) (hb : BOk b) :
    BOk (b.createConstant c).2 := hb

theorem BOk_insertEbb (b : BState) (hb : BOk b) : BOk (b.insertEbb).2 := by
  refine ⟨?_, hb.2⟩
  intro p hp d hd
  cases List.mem_append.mp hp with
  | inl hm => exact hb.1 p hm d hd
  | inr hm =>
    rw [List.mem_singleton.mp hm] at hd
    cases hd

theorem BOk_insertEbbEntry (b : BState) (hb : BOk b) : BOk (b.insertEbbEntry).2 :=
  BOk_insertEbb b hb

theorem BOk_positionAtEnd (b : BState) (e : Nat) (hb : BOk b) :
    BOk (b.positionAtEnd e) := hb

theorem BOk_putAttribute (b : BState) (k : Nat) (hb : BOk b) :
    BOk (b.putAttribute k) := hb

theorem BOk_addEbbArgument (b : BState) (e : Nat) (hb : BOk b) :
    BOk (b.addEbbArgument e).2 := by
  refine ⟨?_, hb.2⟩
  exact BOkE_updEbb_argsOnly _ e _ hb.1 (fun d => rfl)

theorem BOk_createEbbCall (b : BState) (t : Nat) (a : List Nat) (hb : BOk b) :
    BOk (b.createEbbCall t a).2 := hb

theorem BOk_opBuildStart (b : BState) (k : OpKind) (hb : BOk b) (hk : retFree k) :
    BOk (b.opBuildStart k) := by
  refine ⟨hb.1, ?_⟩
  intro d hd
  rw [BState.opBuildStart] at hd
  cases hd
  exact hk

theorem BOk_opBuildWrite (b : BState) (hb : BOk b) : BOk (b.opBuildWrite).2 := by
  refine ⟨hb.1, ?_⟩
  intro d hd
  dsimp only [BState.opBuildWrite, BState.newValue] at hd
  cases hp : b.pending with
  | none => rw [hp] at hd; cases hd
  | some d0 =>
    rw [hp] at hd
    cases hd
    exact hb.2 d0 hp

theorem BOk_opBuildRead (b : BState) (v : Nat) (hb : BOk b) : BOk (b.opBuildRead v) := by
  refine ⟨hb.1, ?_⟩
  intro d hd
  rw [BState.opBuildRead] at hd
  cases hp : b.pending with
  | none => rw [hp] at hd; cases hd
  | some d0 =>
    rw [hp] at hd
    cases hd
    exact hb.2 d0 hp

theorem BOk_opBuildEbbCall (b : BState) (c : Nat) (hb : BOk b) :
    BOk (b.opBuildEbbCall c) := by
  refine ⟨hb.1, ?_⟩
  intro d hd
  rw [BState.opBuildEbbCall] at hd
  cases hp : b.pending with
  | none => rw [hp] at hd; cases hd
  | some d0 =>
    rw [hp] at hd
    cases hd
    exact hb.2 d0 hp

theorem BOk_opBuildEnd (b : BState) (hb : BOk b) : BOk (b.opBuildEnd) := by
  rw [BState.opBuildEnd]
  cases hp : b.pending with
  | none => exact hb
  | some d0 =>
    cases hc : b.curEbb with
    | none => exact hb
    | some e =>
      refine ⟨?_, ?_⟩
      · exact BOkE_updEbb_append b.ebbs e _ d0 hb.1 (hb.2 d0 hp) (fun db => rfl)
      · intro d hd
        cases hd

theorem BOk_opUnpackEnv (b : BState) (envVal num : Nat) (hb : BOk b) :
    BOk (b.opUnpackEnv envVal num).2 := by
  rw [opUnpackEnv_shape]
  exact BOk_appendOp _ _ hb (retFree_not_returns.2.2.2.1 num)

theorem BOk_opMakeClosureEnv (b : BState) (idx : Nat) (vals : List Nat) (hb : BOk b) :
    BOk (b.opMakeClosureEnv idx vals).2 :=
  BOk_appendOp _ _ hb (retFree_not_returns.2.2.2.2.1 idx)

theorem BOk_opBindClosure (b : BState) (id : FunctionIdent) (env : Nat) (hb : BOk b) :
    BOk (b.opBindClosure id env).2 :=
  BOk_appendOp _ _ hb (retFree_not_returns.2.2.2.2.2.1 id)

theorem BOk_opTailApply (b : BState) (f : Nat) (args : List Nat) (hb : BOk b) :
    BOk (b.opTailApply f args) :=
  BOk_appendOp _ _ hb (retFree_not_returns.2.1 .tail)

theorem BOk_opTailCall (b : BState) (n m ar : Nat) (args : List Nat) (hb : BOk b) :
    BOk (b.opTailCall n m ar args) :=
  BOk_appendOp _ _ hb (retFree_not_returns.2.2.1 .tail ar)

theorem BOk_opContApply (b : BState) (c : Nat) (args : List Nat) (hb : BOk b) :
    BOk (b.opContApply c args) :=
  BOk_appendOp _ _ hb retFree_not_returns.1

theorem copyRead_BOk (f : SrcFunction) (b : BState) (vm : List (Nat × Nat)) (v dv : Nat)
    (b2 : BState) (h : copyRead f b vm v = .ok (dv, b2)) (hb : BOk b) : BOk b2 := by
  rw [copyRead] at h
  cases hc : f.valueConst v with
  | some c => rw [hc] at h; cases h; exact hb
  | none =>
    rw [hc] at h
    cases hl : plookup vm v with
    | some d => rw [hl] at h; cases h; exact hb
    | none => rw [hl] at h; cases h

theorem copyReadList_BOk (f : SrcFunction) (vm : List (Nat × Nat)) :
    ∀ (l : List Nat) (b : BState) (ds : List Nat) (b2 : BState),
    copyReadList f b vm l = .ok (ds, b2) → BOk b → BOk b2 := by
  intro l
  induction l with
  | nil => intro b ds b2 h hb; rw [copyReadList] at h; cases h; exact hb
  | cons v rest ih =>
    intro b ds b2 h hb
    rw [copyReadList] at h
    cases hc : copyRead f b vm v with
    | error e => rw [hc] at h; cases h
    | ok p =>
      obtain ⟨dv, bm⟩ := p
      rw [hc] at h
      dsimp only at h
      cases hr : copyReadList f bm vm rest with
      | error e => rw [hr] at h; cases h
      | ok q =>
        obtain ⟨ds2, b3⟩ := q
        rw [hr] at h
        dsimp only at h
        cases h
        exact ih bm ds2 b2 hr (copyRead_BOk f b vm v dv bm hc hb)

theorem copyWrites_BOk : ∀ (l : List Nat) (b : BState) (vm : List (Nat × Nat)),
    BOk b → BOk (copyWrites b vm l).1 := by
  intro l
  induction l with
  | nil => intro b vm hb; exact hb
  | cons w ws ih =>
    intro b vm hb
    rw [copyWrites]
    exact ih _ _ (BOk_opBuildWrite b hb)

theorem copyReadsStage_BOk (f : SrcFunction) :
    ∀ (l : List Nat) (b : BState) (vm : List (Nat × Nat)) (b2 : BState),
    copyReadsStage f b vm l = .ok b2 → BOk b → BOk b2 := by
  intro l
  induction l with
  | nil => intro b vm b2 h hb; rw [copyReadsStage] at h; cases h; exact hb
  | cons v rest ih =>
    intro b vm b2 h hb
    rw [copyReadsStage] at h
    cases hc : copyRead f b vm v with
    | error e => rw [hc] at h; cases h
    | ok p =>
      obtain ⟨dv, bm⟩ := p
      rw [hc] at h
      dsimp only at h
      exact ih (bm.opBuildRead dv) vm b2 h
        (BOk_opBuildRead bm dv (copyRead_BOk f b vm v dv bm hc hb))

theorem addEbbArgsMap_BOk : ∀ (l : List Nat) (b : BState) (vm : List (Nat × Nat)) (e : Nat),
    BOk b → BOk (addEbbArgsMap b vm e l).1 := by
  intro l
  induction l with
  | nil => intro b vm e hb; exact hb
  | cons a rest ih =>
    intro b vm e hb
    rw [addEbbArgsMap]
    exact ih _ _ e (BOk_addEbbArgument b e hb)

theorem copyBranches_BOk (f : SrcFunction) :
    ∀ (l : List Nat) (b : BState) (vm em : List (Nat × Nat))
      (b2 : BState) (vm2 em2 : List (Nat × Nat)),
    copyBranches f b vm em l = .ok (b2, vm2, em2) → BOk b → BOk b2 := by
  intro l
  induction l with
  | nil => intro b vm em b2 vm2 em2 h hb; rw [copyBranches] at h; cases h; exact hb
  | cons br rest ih =>
    intro b vm em b2 vm2 em2 h hb
    rw [copyBranches] at h
    cases hfo : f.ebbFirstOp (f.callTarget br) with
    | none => rw [hfo] at h; cases h
    | some oldTargetOp =>
      rw [hfo] at h
      dsimp only at h
      split at h
      · cases h
      · rename_i buf bm heq
        have hstep : BOk (match plookup em oldTargetOp with
          | some e => (e, b, vm, em)
          | none =>
            let p := b.insertEbb
            let q := addEbbArgsMap p.2 vm p.1 (f.ebbArgs (f.callTarget br))
            (p.1, q.1, q.2, (oldTargetOp, p.1) :: em)).2.1 := by
          cases hl : plookup em oldTargetOp with
          | some e => exact hb
          | none =>
            dsimp only
            exact addEbbArgsMap_BOk _ _ _ _ (BOk_insertEbb b hb)
        have hbm : BOk bm := copyReadList_BOk f _ _ _ _ _ heq hstep
        exact ih _ _ _ b2 vm2 em2 h (BOk_opBuildEbbCall _ _ (BOk_createEbbCall _ _ _ hbm))

theorem copyOp_BOk (f : SrcFunction) (srcOp : Nat) (b : BState) (vm em : List (Nat × Nat))
    (b2 : BState) (vm2 em2 : List (Nat × Nat))
    (h : copyOp f srcOp b vm em = .ok (b2, vm2, em2))
    (hb : BOk b) (hk : retFree (f.opKind srcOp)) : BOk b2 := by
  dsimp only [copyOp] at h
  split at h
  · cases h
  · rename_i bR heqR
    split at h
    · cases h
    · rename_i bB vmB emB heqB
      have h1 : BOk (copyWrites (b.opBuildStart (f.opKind srcOp)) vm (f.opWrites srcOp)).1 :=
        copyWrites_BOk _ _ _ (BOk_opBuildStart b (f.opKind srcOp) hb hk)
      have h2 : BOk bR := copyReadsStage_BOk f _ _ _ _ heqR h1
      have h3 : BOk bB := copyBranches_BOk f _ _ _ _ _ _ _ heqB h2
      split at h
      · split at h
        · cases h
          exact BOk_opBuildEnd _ h3
        · cases h
      · cases h
        exact BOk_opBuildEnd _ h3

theorem emitCall_BOk (ctx : GenCtx) (st : GenState) (srcOp a c : Nat) (st2 : GenState)
    (h : emitCall ctx st srcOp a c = .ok st2) (hb : BOk st.b) : BOk st2.b := by
  dsimp only [emitCall] at h
  split at h
  · split at h
    · cases h
    · rename_i fval rest
      split at h
      · cases h
      · rename_i argVals b2 heq
        split at h
        · cases h
        · cases h
          exact BOk_opTailApply _ _ _ (copyReadList_BOk ctx.srcFun _ _ _ _ _ heq hb)
  · split at h
    · rename_i nameV modV rest
      split at h
      · cases h
      · rename_i argVals b2 heq
        split at h
        · cases h
        · rename_i nameDst b3 heqN
          split at h
          · cases h
          · rename_i modDst b4 heqM
            cases h
            exact BOk_opTailCall _ _ _ _ _
              (copyRead_BOk _ _ _ _ _ _ heqM
                (copyRead_BOk _ _ _ _ _ _ heqN
                  (copyReadList_BOk _ _ _ _ _ _ heq hb)))
    · cases h
  · cases h

theorem contEnvFor_b (st : GenState) (site : ContSite) (n : Nat) :
    (contEnvFor st site n).2.b = st.b := by
  rw [contEnvFor]
  cases plookup st.contMap site with
  | some idx => rfl
  | none => rfl

theorem processContSite_BOk (ctx : GenCtx) (st : GenState) (srcOp : Nat) (st2 : GenState)
    (h : processContSite ctx st srcOp = .ok st2) (hb : BOk st.b) : BOk st2.b := by
  dsimp only [processContSite] at h
  split at h
  · cases h
  · split at h
    · exact emitCall_BOk _ _ _ _ _ _ h hb
    · cases h
  · split at h
    · rename_i okVal nokVal
      split at h
      · cases h
      · rename_i okMapped heqM
        split at h
        · cases h
        · rename_i srcNextOp heqA
          split at h
          · cases h
          · rename_i srcBranch heqB
            split at h
            · cases h
            · rename_i errMapped heqM2
              refine emitCall_BOk _ _ _ _ _ _ h ?_
              have h1 : BOk (contEnvFor st (ContSite.op srcNextOp)
                  (ctx.okRet :: ctx.errRet :: okMapped).length).2.b := by
                rw [contEnvFor_b]
                exact hb
              exact BOk_opBindClosure _ _ _ (BOk_opMakeClosureEnv _ _ _ (by
                rw [contEnvFor_b]
                exact BOk_opBindClosure _ _ _ (BOk_opMakeClosureEnv _ _ _ h1)))
    · cases h

theorem processOp_BOk (ctx : GenCtx) (st : GenState) (srcOp : Nat) (st2 : GenState)
    (h : processOp ctx st srcOp = .ok st2) (hb : BOk st.b) : BOk st2.b := by
  dsimp only [processOp] at h
  split at h
  · exact processContSite_BOk _ _ _ _ h hb
  · rename_i hnotsite
    cases hk : ctx.srcFun.opKind srcOp with
    | returnOk =>
      rw [hk] at h
      dsimp only at h
      split at h
      · cases h
      · split at h
        · cases h
        · cases h
          exact BOk_opContApply _ _ _ hb
    | returnThrow =>
      rw [hk] at h
      dsimp only at h
      split at h
      · cases h
      · split at h
        · cases h
        · cases h
          exact BOk_opContApply _ _ _ hb
    | call ct ar =>
      rw [hk] at h
      dsimp only at h
      split at h
      · cases h
      · rename_i b2 vm2 em2 heq
        split at h
        · cases h
        · cases h
          exact copyOp_BOk _ _ _ _ _ _ _ _ heq hb (hk ▸ retFree_not_returns.2.2.1 ct ar)
    | apply ct =>
      rw [hk] at h
      dsimp only at h
      split at h
      · cases h
      · rename_i b2 vm2 em2 heq
        split at h
        · cases h
        · cases h
          exact copyOp_BOk _ _ _ _ _ _ _ _ heq hb (hk ▸ retFree_not_returns.2.1 ct)
    | unpackEnv n =>
      rw [hk] at h
      dsimp only at h
      split at h
      · cases h
      · rename_i b2 vm2 em2 heq
        split at h
        · cases h
        · cases h
          exact copyOp_BOk _ _ _ _ _ _ _ _ heq hb (hk ▸ retFree_not_returns.2.2.2.1 n)
    | makeClosureEnv i =>
      rw [hk] at h
      dsimp only at h
      split at h
      · cases h
      · rename_i b2 vm2 em2 heq
        split at h
        · cases h
        · cases h
          exact copyOp_BOk _ _ _ _ _ _ _ _ heq hb (hk ▸ retFree_not_returns.2.2.2.2.1 i)
    | bindClosure i =>
      rw [hk] at h
      dsimp only at h
      split at h
      · cases h
      · rename_i b2 vm2 em2 heq
        split at h
        · cases h
        · cases h
          exact copyOp_BOk _ _ _ _ _ _ _ _ heq hb
            (hk ▸ retFree_not_returns.2.2.2.2.2.1 i)
    | contApply =>
      rw [hk] at h
      dsimp only at h
      split at h
      · cases h
      · rename_i b2 vm2 em2 heq
        split at h
        · cases h
        · cases h
          exact copyOp_BOk _ _ _ _ _ _ _ _ heq hb (hk ▸ retFree_not_returns.1)
    | other t =>
      rw [hk] at h
      dsimp only at h
      split at h
      · cases h
      · rename_i b2 vm2 em2 heq
        split at h
        · cases h
        · cases h
          exact copyOp_BOk _ _ _ _ _ _ _ _ heq hb
            (hk ▸ retFree_not_returns.2.2.2.2.2.2 t)

theorem BOk_newBState (id : FunctionIdent) : BOk (newBState id) :=
  ⟨fun p hp => absurd hp (List.not_mem_nil p), fun d hd => by cases hd⟩

theorem contChunkStart_BOk (srcFun : SrcFunction) (cs : List Nat) (live : LiveValues)
    (b1 : BState) (e : Nat) (eg : ModuleEnvs) (nd cm : List (ContSite × Nat))
    (fo : Nat) (resultSrc : Option Nat) (envVals : List Nat) (ctx : GenCtx)
    (st0 : GenState)
    (h : contChunkStart srcFun cs live b1 e eg nd cm fo resultSrc envVals =
      .ok (ctx, st0)) (hb : BOk b1) : BOk st0.b := by
  dsimp only [contChunkStart] at h
  split at h
  all_goals first
    | (cases h;
       exact BOk_opUnpackEnv _ _ _ (BOk_addEbbArgument _ _ (BOk_addEbbArgument _ _ hb)))
    | cases h

theorem genStep_BOk (ctx : GenCtx) (st st2 : GenState)
    (h : genStep ctx st = .ok (some st2)) (hb : BOk st.b) : BOk st2.b := by
  dsimp only [genStep] at h
  split at h
  · cases h
  · split at h
    · cases h
      exact hb
    · split at h
      · cases h
      · split at h
        · cases h
        · rename_i st3 heq
          cases h
          exact processOp_BOk _ _ _ _ heq hb

theorem genLoop_BOk (ctx : GenCtx) : ∀ (fuel : Nat) (st st2 : GenState),
    genLoop ctx fuel st = .ok st2 → BOk st.b → BOk st2.b := by
  intro fuel
  induction fuel with
  | zero => intro st st2 h hb; rw [genLoop] at h; cases h
  | succ fuel ih =>
    intro st st2 h hb
    rw [genLoop] at h
    split at h
    · cases h
    · cases h
      exact hb
    · rename_i stM heq
      exact ih _ _ h (genStep_BOk _ _ _ heq hb)

theorem genChunk_BOk (fuel : Nat) (srcFun : SrcFunction) (site : ContSite)
    (contSites : List Nat) (live : LiveValues) (envGen : ModuleEnvs)
    (needed contMap : List (ContSite × Nat)) (cont : Option Nat)
    (fb : BState) (eg2 : ModuleEnvs) (nd2 cm2 : List (ContSite × Nat))
    (h : genChunk fuel srcFun site contSites live envGen needed contMap cont =
      .ok (fb, eg2, nd2, cm2)) : BOk fb := by
  cases cont with
  | some envIdx =>
    dsimp only [genChunk] at h
    split at h
    · cases h
    · split at h
      · cases h
      · cases hcs : contChunkStart srcFun contSites live _ _ envGen needed contMap _ _ _ with
        | error e => rw [hcs] at h; cases h
        | ok p =>
          obtain ⟨ctx, st0⟩ := p
          rw [hcs] at h
          dsimp only at h
          split at h
          · cases h
          · rename_i stF heq
            cases h
            refine genLoop_BOk _ _ _ _ heq ?_
            refine contChunkStart_BOk _ _ _ _ _ _ _ _ _ _ _ _ _ hcs ?_
            exact BOk_positionAtEnd _ _ (BOk_insertEbbEntry _
              (BOk_putAttribute _ _ (BOk_newBState _)))
  | none =>
    dsimp only [genChunk] at h
    split at h
    · cases h
    · split at h
      · cases h
      · split at h
        · cases h
        · rename_i stF heq
          cases h
          refine genLoop_BOk _ _ _ _ heq ?_
          exact addEbbArgsMap_BOk _ _ _ _ (BOk_addEbbArgument _ _
            (BOk_addEbbArgument _ _ (BOk_positionAtEnd _ _
              (BOk_insertEbbEntry _ (BOk_newBState _)))))

theorem tfLoop_BOk (chunkFuel : Nat) (srcFun : SrcFunction) (cs : List Nat)
    (live : LiveValues) : ∀ (fuel : Nat) (st st' : TFState),
    tfLoop chunkFuel srcFun cs live fuel st = .ok st' →
    ∀ p, p ∈ st'.funs → p ∈ st.funs ∨ BOk p.2 := by
  intro fuel
  induction fuel with
  | zero => intro st st' h; rw [tfLoop] at h; cases h
  | succ fuel ih =>
    intro st st' h
    rw [tfLoop] at h
    cases hpop : st.needed.getLast? with
    | none =>
      rw [hpop] at h
      cases h
      intro p hp
      exact Or.inl hp
    | some q =>
      obtain ⟨site, env⟩ := q
      rw [hpop] at h
      dsimp only at h
      cases site with
      | ebbCall call v =>
        dsimp only at h
        split at h
        · intro p hp
          exact ih _ _ h p hp
        · repeat' split at h
          · cases h
          · rename_i fb eg nd cm heq
            intro p hp
            cases ih _ _ h p hp with
            | inl hm =>
              cases List.mem_cons.mp hm with
              | inl he =>
                right
                rw [he]
                exact genChunk_BOk _ _ _ _ _ _ _ _ _ _ _ _ _ heq
              | inr hm2 => exact Or.inl hm2
            | inr hok => exact Or.inr hok
      | op o =>
        dsimp only at h
        split at h
        · intro p hp
          exact ih _ _ h p hp
        · repeat' split at h
          · cases h
          · rename_i fb eg nd cm heq
            intro p hp
            cases ih _ _ h p hp with
            | inl hm =>
              cases List.mem_cons.mp hm with
              | inl he =>
                right
                rw [he]
                exact genChunk_BOk _ _ _ _ _ _ _ _ _ _ _ _ _ heq
              | inr hm2 => exact Or.inl hm2
            | inr hok => exact Or.inr hok

theorem transformFunction_BOk (chunkFuel loopFuel : Nat) (srcFun : SrcFunction)
    (live : LiveValues) (envGen : ModuleEnvs) (funs : List (FunctionIdent × BState))
    (eg : ModuleEnvs) (funs2 : List (FunctionIdent × BState))
    (h : transformFunction chunkFuel loopFuel srcFun live envGen funs = .ok (eg, funs2)) :
    ∀ p, p ∈ funs2 → p ∈ funs ∨ BOk p.2 := by
  dsimp only [transformFunction] at h
  split at h
  · cases h
  · split at h
    · cases h
    · rename_i fb eg0 nd0 cm0 heq0
      split at h
      · cases h
      · rename_i stL heqL
        cases h
        intro p hp
        cases tfLoop_BOk _ _ _ _ _ _ _ heqL p hp with
        | inl hm =>
          cases List.mem_cons.mp hm with
          | inl he =>
            right
            rw [he]
            exact genChunk_BOk _ _ _ _ _ _ _ _ _ _ _ _ _ heq0
          | inr hm2 => exact Or.inl hm2
        | inr hok => exact Or.inr hok

theorem tmGo_BOk (chunkFuel loopFuel : Nat) (m : SrcModule)
    (liveOf : FunctionIdent → LiveValues) :
    ∀ (ids : List FunctionIdent) (eg0 : ModuleEnvs) (funs : List (FunctionIdent × BState))
      (eg : ModuleEnvs) (funs2 : List (FunctionIdent × BState)),
    tmGo chunkFuel loopFuel m liveOf ids eg0 funs = .ok (eg, funs2) →
    ∀ p, p ∈ funs2 → p ∈ funs ∨ BOk p.2 := by
  intro ids
  induction ids with
  | nil =>
    intro eg0 funs eg funs2 h p hp
    rw [tmGo] at h
    cases h
    exact Or.inl hp
  | cons id rest ih =>
    intro eg0 funs eg funs2 h p hp
    rw [tmGo] at h
    split at h
    · cases h
    · split at h
      · cases h
      · rename_i f hf eg1 funs1 heq1
        cases tmGo_rest : ih _ _ _ _ h p hp with
        | inl hm =>
          cases transformFunction_BOk _ _ _ _ _ _ _ _ heq1 p hm with
          | inl hm2 => exact Or.inl hm2
          | inr hok => exact Or.inr hok
        | inr hok => exact Or.inr hok

/-- Counterexample for C1 as stated: the transformed entry function of
c2SrcFun terminates in a tail Call op (kind Call with tail call type), not
a ContApply — not every exit of a transformed function is a cont_apply. -/
theorem transformed_exit_not_cont_apply :
    ∃ eg funs fentry,
      transformFunction 20 20 c2SrcFun c2Live { next := 0, capturesNum := [] } [] =
        .ok (eg, funs) ∧
      plookup funs c2SrcFun.ident = some fentry ∧
      (ebbOpsOf fentry 0).getLast? =
        some { kind := .call .tail 1, reads := [7, 8, 4, 6, 2], writes := [],
               branches := [] } ∧
      ¬ ({ kind := OpKind.call .tail 1, reads := [7, 8, 4, 6, 2], writes := [],
           branches := [] } : DOp).kind = OpKind.contApply :=
  ⟨_, _, _, rfl, rfl, rfl, by decide⟩

/-- C1 (amended): in every function of the transformed module no op has
kind ReturnOk or ReturnThrow; a non-continuation-site ReturnOk op is
rewritten to exactly one ContApply of the chunk's ok return continuation
applied to the mapped return value, and a ReturnThrow op to a ContApply of
the err return continuation; exits need not be ContApply ops (tail call
sites exit through tail Call or Apply ops). -/
theorem no_returns_survive :
    (∀ (cf lf : Nat) (m : SrcModule) (liveOf : FunctionIdent → LiveValues)
       (nm : Nat) (funs : List (FunctionIdent × BState)) (eg : ModuleEnvs),
       transformModule cf lf m liveOf = .ok (nm, funs, eg) →
       ∀ p, p ∈ funs → ∀ q, q ∈ p.2.ebbs → ∀ d, d ∈ q.2.ops →
       ¬ d.kind = OpKind.returnOk ∧ ¬ d.kind = OpKind.returnThrow) ∧
    (∀ (ctx : GenCtx) (st : GenState) (srcOp : Nat) (st2 : GenState) (e : Nat)
       (ebb : DEbb) (res dres : Nat),
       ctx.contSites.contains srcOp = false →
       ctx.srcFun.opKind srcOp = OpKind.returnOk →
       (ctx.srcFun.opReads srcOp).head? = some res →
       plookup st.valMap res = some dres →
       st.b.curEbb = some e →
       lookupEbb st.b.ebbs e = some ebb →
       processOp ctx st srcOp = .ok st2 →
       st2.valMap = st.valMap ∧ st2.ebbMap = st.ebbMap ∧
       st2.toProcess = st.toProcess ∧ st2.envGen = st.envGen ∧
       st2.needed = st.needed ∧ st2.contMap = st.contMap ∧
       lookupEbb st2.b.ebbs e = some { ebb with ops := ebb.ops ++
         [{ kind := OpKind.contApply, reads := [ctx.okRet, dres], writes := [],
            branches := [] }] } ∧
       (∀ e2, e2 ≠ e → lookupEbb st2.b.ebbs e2 = lookupEbb st.b.ebbs e2)) ∧
    (∀ (ctx : GenCtx) (st : GenState) (srcOp : Nat) (st2 : GenState) (e : Nat)
       (ebb : DEbb) (res dres : Nat),
       ctx.contSites.contains srcOp = false →
       ctx.srcFun.opKind srcOp = OpKind.returnThrow →
       (ctx.srcFun.opReads srcOp).head? = some res →
       plookup st.valMap res = some dres →
       st.b.curEbb = some e →
       lookupEbb st.b.ebbs e = some ebb →
       processOp ctx st srcOp = .ok st2 →
       st2.valMap = st.valMap ∧ st2.ebbMap = st.ebbMap ∧
       st2.toProcess = st.toProcess ∧ st2.envGen = st.envGen ∧
       st2.needed = st.needed ∧ st2.contMap = st.contMap ∧
       lookupEbb st2.b.ebbs e = some { ebb with ops := ebb.ops ++
         [{ kind := OpKind.contApply, reads := [ctx.errRet, dres], writes := [],
            branches := [] }] } ∧
       (∀ e2, e2 ≠ e → lookupEbb st2.b.ebbs e2 = lookupEbb st.b.ebbs e2)) := by
  refine ⟨?_, ?_, ?_⟩
  · intro cf lf m liveOf nm funs eg h p hp q hq d hd
    dsimp only [transformModule] at h
    split at h
    · cases h
    · rename_i eg1 funs1 heq
      cases h
      cases tmGo_BOk cf lf m liveOf _ _ _ _ _ heq p hp with
      | inl hm => exact absurd hm (List.not_mem_nil p)
      | inr hok => exact hok.1 q hq d hd
  · intro ctx st srcOp st2 e ebb res dres hns hk hres hvm hcur hebb h
    dsimp only [processOp] at h
    rw [hns] at h
    rw [if_neg (by decide : ¬ (false = true))] at h
    rw [hk] at h
    dsimp only at h
    rw [hres] at h
    dsimp only at h
    rw [hvm] at h
    dsimp only at h
    cases h
    have happ := appendOp_ops st.b
      { kind := OpKind.contApply, reads := [ctx.okRet, dres], writes := [],
        branches := [] } e ebb hcur hebb
    exact ⟨rfl, rfl, rfl, rfl, rfl, rfl, happ.1, happ.2⟩
  · intro ctx st srcOp st2 e ebb res dres hns hk hres hvm hcur hebb h
    dsimp only [processOp] at h
    rw [hns] at h
    rw [if_neg (by decide : ¬ (false = true))] at h
    rw [hk] at h
    dsimp only at h
    rw [hres] at h
    dsimp only at h
    rw [hvm] at h
    dsimp only at h
    cases h
    have happ := appendOp_ops st.b
      { kind := OpKind.contApply, reads := [ctx.errRet, dres], writes := [],
        branches := [] } e ebb hcur hebb
    exact ⟨rfl, rfl, rfl, rfl, rfl, rfl, happ.1, happ.2⟩

/-- Source module of the C1 witness. -/
def c1Module : SrcModule :=
  { name := 7, functions := [(c2SrcFun.ident, c2SrcFun)],
    envs := { next := 0, capturesNum := [] } }

/-- Witness for C1: the no-returns part applied to the concrete transform
of c1Module. -/
theorem no_returns_survive_witness :
    ∃ nm funs eg,
      transformModule 20 20 c1Module (fun _ => c2Live) = .ok (nm, funs, eg) ∧
      (∀ p, p ∈ funs → ∀ q, q ∈ p.2.ebbs → ∀ d, d ∈ q.2.ops →
        ¬ d.kind = OpKind.returnOk ∧ ¬ d.kind = OpKind.returnThrow) := by
  refine ⟨_, _, _, rfl, ?_⟩
  intro p hp q hq d hd
  exact no_returns_survive.1 20 20 c1Module (fun _ => c2Live) _ _ _ rfl p hp q hq d hd

/-! ## C6: capture lists -/

/-- Every tracking frame starts at or below the current scope height. -/
def StartOk (t : Tracker) : Prop :=
  ∀ fr, fr ∈ t.frames → fr.start ≤ t.scopes.length

/-- The key resolves, with the recorded SSA name, through the bottom
`start` scopes of the stack — the scopes outside the tracked region. -/
def capturedOutside (scopes : List Scope) (start : Nat) (k : ScopeDefinition)
    (s : Nat) : Prop :=
  ∃ i, lookupScopes (scopes.drop (scopes.length - start)) k = some (s, i)

/-- The capture-evolution relation of a balanced tracker run: the scope
stack and the frame-stack height return to their initial values, and every
initially present frame (indexed from the bottom) keeps its start and
extends its capture list only by entries that are value-variable keys,
resolve outside the frame's tracked region with exactly the recorded SSA,
are pairwise distinct and are new to the frame. -/
def TPres (a b : Tracker) : Prop :=
  b.scopes = a.scopes ∧ b.frames.length = a.frames.length ∧
  ∀ i fr fr2, a.frames.reverse.get? i = some fr → b.frames.reverse.get? i = some fr2 →
    fr2.start = fr.start ∧ ∃ ext, fr2.captures = fr.captures ++ ext ∧
      (∀ p, p ∈ ext → (∃ nm, p.1 = ScopeDefinition.varName nm) ∧
        capturedOutside a.scopes fr.start p.1 p.2) ∧
      (ext.map Prod.fst).Nodup ∧
      (∀ p, p ∈ ext → ¬ p.1 ∈ fr.captures.map Prod.fst)

theorem TPres_refl (t : Tracker) : TPres t t := by
  refine ⟨rfl, rfl, ?_⟩
  intro i fr fr2 h1 h2
  rw [h1] at h2
  cases h2
  exact ⟨rfl, [], by simp, fun p hp => absurd hp (List.not_mem_nil p), List.nodup_nil,
    fun p hp => absurd hp (List.not_mem_nil p)⟩

theorem TPres_trans {a b c : Tracker} (h1 : TPres a b) (h2 : TPres b c) : TPres a c := by
  obtain ⟨hs1, hl1, hf1⟩ := h1
  obtain ⟨hs2, hl2, hf2⟩ := h2
  refine ⟨hs2.trans hs1, hl2.trans hl1, ?_⟩
  intro i fr fr2 ha hc
  obtain ⟨hiA, _⟩ := List.get?_eq_some.mp ha
  have hiB : i < b.frames.reverse.length := by
    rw [List.length_reverse] at hiA ⊢
    rw [hl1]
    exact hiA
  cases hm : b.frames.reverse.get? i with
  | none =>
    rw [List.get?_eq_none] at hm
    omega
  | some frm =>
    obtain ⟨he1, ext1, hc1, hp1, hn1, hd1⟩ := hf1 i fr frm ha hm
    obtain ⟨he2, ext2, hc2, hp2, hn2, hd2⟩ := hf2 i frm fr2 hm hc
    refine ⟨he2.trans he1, ext1 ++ ext2, ?_, ?_, ?_, ?_⟩
    · rw [hc2, hc1, List.append_assoc]
    · intro p hp
      cases List.mem_append.mp hp with
      | inl hp1m => exact hp1 p hp1m
      | inr hp2m =>
        obtain ⟨hv, ho⟩ := hp2 p hp2m
        rw [hs1, he1] at ho
        exact ⟨hv, ho⟩
    · rw [List.map_append]
      refine List.Nodup.append hn1 hn2 ?_
      intro k hk1 hk2
      obtain ⟨p2, hp2m, hpe2⟩ := List.mem_map.mp hk2
      have := hd2 p2 hp2m
      rw [hc1, List.map_append] at this
      exact this (List.mem_append.mpr (Or.inr (hpe2 ▸ hk1)))
    · intro p hp
      cases List.mem_append.mp hp with
      | inl hp1m => exact hd1 p hp1m
      | inr hp2m =>
        have := hd2 p hp2m
        rw [hc1, List.map_append] at this
        intro hmem
        exact this (List.mem_append.mpr (Or.inl hmem))

/-- A tracker step that leaves scopes and frames untouched preserves
TPres trivially. -/
theorem TPres_of_eq {a b : Tracker} (hs : b.scopes = a.scopes)
    (hf : b.frames = a.frames) : TPres a b := by
  refine ⟨hs, by rw [hf], ?_⟩
  intro i fr fr2 h1 h2
  rw [hf, h1] at h2
  cases h2
  exact ⟨rfl, [], by simp, fun p hp => absurd hp (List.not_mem_nil p), List.nodup_nil,
    fun p hp => absurd hp (List.not_mem_nil p)⟩

theorem StartOk_of {a b : Tracker} (h : TPres a b) (hS : StartOk a) : StartOk b := by
  obtain ⟨hs, hl, hf⟩ := h
  intro fr2 hm
  obtain ⟨i, hget⟩ := List.get?_of_mem (List.mem_reverse.mpr hm)
  have hiB : i < b.frames.reverse.length := (List.get?_eq_some.mp hget).elim (fun h _ => h)
  have hiA : i < a.frames.reverse.length := by
    rw [List.length_reverse] at hiB ⊢
    omega
  cases hga : a.frames.reverse.get? i with
  | none =>
    rw [List.get?_eq_none] at hga
    omega
  | some fr =>
    have := (hf i fr fr2 hga hget).1
    rw [hs, this]
    exact hS fr (List.mem_reverse.mp (List.get?_mem hga))

theorem lookupScopes_index_lt (k : ScopeDefinition) :
    ∀ (l : List Scope) (s i : Nat), lookupScopes l k = some (s, i) → i < l.length := by
  intro l
  induction l with
  | nil => intro s i h; cases h
  | cons sc rest ih =>
    intro s i h
    rw [lookupScopes] at h
    cases hf : scopeFind sc k with
    | some ssa =>
      rw [hf] at h
      cases h
      exact Nat.succ_pos _
    | none =>
      rw [hf] at h
      cases hr : lookupScopes rest k with
      | none => rw [hr] at h; cases h
      | some p =>
        obtain ⟨s0, i0⟩ := p
        rw [hr] at h
        cases h
        have := ih s0 i0 hr
        simpa using Nat.succ_lt_succ this

theorem lookupScopes_drop (k : ScopeDefinition) :
    ∀ (d : Nat) (l : List Scope) (s i : Nat), lookupScopes l k = some (s, i) → d ≤ i →
    lookupScopes (l.drop d) k = some (s, i - d) := by
  intro d
  induction d with
  | zero => intro l s i h _; simpa using h
  | succ d ih =>
    intro l s i h hd
    cases l with
    | nil => cases h
    | cons sc rest =>
      rw [lookupScopes] at h
      cases hf : scopeFind sc k with
      | some ssa =>
        rw [hf] at h
        cases h
        omega
      | none =>
        rw [hf] at h
        cases hr : lookupScopes rest k with
        | none => rw [hr] at h; cases h
        | some p =>
          obtain ⟨s0, i0⟩ := p
          rw [hr] at h
          cases h
          rw [List.drop_succ_cons]
          have := ih rest s0 i0 hr (by omega)
          rw [this]
          congr 2
          omega

theorem capturedOutside_cons (sc : Scope) (scopes : List Scope) (start : Nat)
    (k : ScopeDefinition) (s : Nat) (hle : start ≤ scopes.length)
    (h : capturedOutside (sc :: scopes) start k s) : capturedOutside scopes start k s := by
  obtain ⟨i, hl⟩ := h
  refine ⟨i, ?_⟩
  have harith : (sc :: scopes).length - start = (scopes.length - start) + 1 := by
    simp only [List.length_cons]
    omega
  rw [harith, List.drop_succ_cons] at hl
  exact hl

theorem TPres_get (t : Tracker) (k : ScopeDefinition) (s : Nat) (t2 : Tracker)
    (h : t.get k = some (s, t2)) (hS : StartOk t) : TPres t t2 := by
  rw [Tracker.get] at h
  cases hl : lookupScopes t.scopes k with
  | none => rw [hl] at h; cases h
  | some p =>
    obtain ⟨ssa, idxTop⟩ := p
    rw [hl] at h
    dsimp only at h
    cases h
    refine ⟨rfl, by rw [List.length_map], ?_⟩
    intro i fr fr2 h1 h2
    rw [← List.map_reverse, List.get?_map, h1] at h2
    cases h2
    have hmem : fr ∈ t.frames := List.mem_reverse.mp (List.get?_mem h1)
    have hstart : fr.start ≤ t.scopes.length := hS fr hmem
    dsimp only
    rw [Frame.register.eq_def]
    cases k with
    | funName nm =>
      exact ⟨rfl, [], by simp, fun p hp => absurd hp (List.not_mem_nil p),
        List.nodup_nil, fun p hp => absurd hp (List.not_mem_nil p)⟩
    | varName nm =>
      by_cases hdep : t.scopes.length - 1 - idxTop < fr.start
      · rw [if_pos hdep]
        by_cases hdup : fr.captures.any (fun p => p.1 = ScopeDefinition.varName nm) = true
        · rw [if_pos hdup]
          exact ⟨rfl, [], by simp, fun p hp => absurd hp (List.not_mem_nil p),
            List.nodup_nil, fun p hp => absurd hp (List.not_mem_nil p)⟩
        · rw [if_neg hdup]
          refine ⟨rfl, [(ScopeDefinition.varName nm, s)], rfl, ?_, ?_, ?_⟩
          · intro p hp
            rw [List.mem_singleton.mp hp]
            refine ⟨⟨nm, rfl⟩, ?_⟩
            have hidx : idxTop < t.scopes.length := lookupScopes_index_lt _ _ _ _ hl
            have hge : t.scopes.length - fr.start ≤ idxTop := by omega
            exact ⟨idxTop - (t.scopes.length - fr.start),
              lookupScopes_drop _ _ _ _ _ hl hge⟩
          · exact List.nodup_singleton _
          · intro p hp hmem2
            rw [List.mem_singleton.mp hp] at hmem2
            obtain ⟨q, hq, hqe⟩ := List.mem_map.mp hmem2
            have : fr.captures.any (fun p => p.1 = ScopeDefinition.varName nm) = true := by
              refine List.any_eq_true.mpr ⟨q, hq, ?_⟩
              simp [hqe]
            exact hdup this
      · rw [if_neg hdep]
        exact ⟨rfl, [], by simp, fun p hp => absurd hp (List.not_mem_nil p),
          List.nodup_nil, fun p hp => absurd hp (List.not_mem_nil p)⟩

theorem bindFreshVars_scopes (t : Tracker) (vs : List HAVar) :
    ((bindFreshVars t vs).2.2).scopes = t.scopes := by
  induction vs generalizing t with
  | nil => rfl
  | cons v vs ih => simp only [bindFreshVars]; rw [ih]; rfl

theorem bindPatternBinds_scopes (t : Tracker) (bs : List (Nat × Nat)) :
    ((bindPatternBinds t bs).2.2).scopes = t.scopes := by
  induction bs generalizing t with
  | nil => rfl
  | cons b bs ih =>
    obtain ⟨v, o⟩ := b
    simp only [bindPatternBinds]
    rw [ih]
    rfl

theorem bindPatterns_scopes (t : Tracker) (ps : List HPattern) :
    ((bindPatterns t ps).2.2).scopes = t.scopes := by
  induction ps generalizing t with
  | nil => rfl
  | cons p ps ih =>
    cases p with
    | mk binds =>
      simp only [bindPatterns]
      rw [ih, bindPatternBinds_scopes]

theorem bindAliases_scopes (t : Tracker) (cs : List HClosure) (avs : List HAVar)
    (sc : Scope) (t2 : Tracker) (heq : bindAliases t cs = .ok (avs, sc, t2)) :
    t2.scopes = t.scopes := by
  induction cs generalizing t avs sc t2 with
  | nil =>
    simp only [bindAliases, Except.ok.injEq, Prod.mk.injEq] at heq
    rw [← heq.2.2]
  | cons c cs ih =>
    cases c with
    | mk a fn env =>
      rw [bindAliases.eq_def] at heq
      dsimp only at heq
      cases a with
      | none => cases heq
      | some av =>
        dsimp only at heq
        cases h2 : bindAliases (Tracker.newSsa t).2 cs with
        | error err => rw [h2] at heq; cases heq
        | ok q =>
          obtain ⟨avs2, sc2, t3⟩ := q
          rw [h2] at heq
          dsimp only at heq
          simp only [Except.ok.injEq, Prod.mk.injEq] at heq
          rw [← heq.2.2]
          exact ih (Tracker.newSsa t).2 avs2 sc2 t3 h2

theorem StartOk_pushScope (t : Tracker) (sc : Scope) (hS : StartOk t) :
    StartOk (t.pushScope sc) := by
  intro fr hm
  have := hS fr hm
  simp only [Tracker.pushScope, List.length_cons]
  omega

theorem StartOk_pushTracking (t : Tracker) (hS : StartOk t) :
    StartOk t.pushTracking := by
  intro fr hm
  rw [Tracker.pushTracking] at hm
  cases List.mem_cons.mp hm with
  | inl he =>
    rw [he]
    exact Nat.le_refl _
  | inr hm2 => exact hS fr hm2

theorem StartOk_transfer (t t2 : Tracker) (hs : t2.scopes = t.scopes)
    (hf : t2.frames = t.frames) (hS : StartOk t) : StartOk t2 := by
  intro fr hm
  rw [hf] at hm
  rw [hs]
  exact hS fr hm

theorem TPres_descope (t1 : Tracker) (sc : Scope) (t3 t4 : Tracker)
    (h : TPres (t1.pushScope sc) t3) (hp : t3.popScope = .ok t4) (hS : StartOk t1) :
    TPres t1 t4 := by
  obtain ⟨hs, hl, hf⟩ := h
  rw [Tracker.popScope] at hp
  rw [hs] at hp
  dsimp only [Tracker.pushScope] at hp
  cases hp
  refine ⟨rfl, hl, ?_⟩
  · intro i fr fr2 h1 h2
    obtain ⟨he, ext, hc, hprops, hnd, hdisj⟩ := hf i fr fr2 h1 h2
    refine ⟨he, ext, hc, ?_, hnd, hdisj⟩
    intro p hp2
    obtain ⟨hv, ho⟩ := hprops p hp2
    refine ⟨hv, ?_⟩
    have hfr : fr ∈ t1.frames := List.mem_reverse.mp (List.get?_mem h1)
    exact capturedOutside_cons sc t1.scopes fr.start p.1 p.2 (hS fr hfr) ho

theorem TPres_detrack (t tA : Tracker) (m : List (ScopeDefinition × Nat)) (t5 : Tracker)
    (h : TPres t.pushTracking tA) (hp : tA.popTracking = .ok (m, t5)) :
    TPres t t5 ∧
    (∀ p, p ∈ m → (∃ nm, p.1 = ScopeDefinition.varName nm) ∧
      capturedOutside t.scopes t.scopes.length p.1 p.2) ∧
    (m.map Prod.fst).Nodup := by
  obtain ⟨hs, hl, hf⟩ := h
  rw [Tracker.popTracking] at hp
  cases hA : tA.frames with
  | nil => rw [hA] at hp; cases hp
  | cons frTop rest =>
    rw [hA] at hp
    dsimp only at hp
    cases hp
    have hlen : rest.length = t.frames.length := by
      rw [hA] at hl
      simpa [Tracker.pushTracking] using hl
    have hgetA : (t.pushTracking).frames.reverse.get? t.frames.length =
        some { start := t.scopes.length, captures := [] } := by
      rw [Tracker.pushTracking]
      dsimp only
      rw [List.reverse_cons,
        List.get?_append_right (by rw [List.length_reverse])]
      rw [List.length_reverse]
      simp
    have hgetB : tA.frames.reverse.get? t.frames.length = some frTop := by
      rw [hA, List.reverse_cons,
        List.get?_append_right (by rw [List.length_reverse, hlen])]
      rw [List.length_reverse, hlen]
      simp
    obtain ⟨heTop, ext, hcTop, hpropsTop, hndTop, hdTop⟩ := hf _ _ _ hgetA hgetB
    have hext : frTop.captures = ext := by simpa using hcTop
    refine ⟨⟨hs, hlen, ?_⟩, ?_, ?_⟩
    · intro i fr fr2 h1 h2
      obtain ⟨hi0, _⟩ := List.get?_eq_some.mp h1
      rw [List.length_reverse] at hi0
      have hgA : (t.pushTracking).frames.reverse.get? i = some fr := by
        rw [Tracker.pushTracking]
        dsimp only
        rw [List.reverse_cons, List.get?_append (by rw [List.length_reverse]; exact hi0)]
        exact h1
      have hgB : tA.frames.reverse.get? i = some fr2 := by
        rw [hA, List.reverse_cons,
          List.get?_append (by rw [List.length_reverse, hlen]; exact hi0)]
        exact h2
      exact hf i fr fr2 hgA hgB
    · intro p hp2
      rw [hext] at hp2
      exact hpropsTop p hp2
    · rw [hext]
      exact hndTop

/-- TPres bundled with StartOk propagation, so that balanced runs chain
without side conditions. -/
def TPresS (a b : Tracker) : Prop :=
  StartOk a → TPres a b ∧ StartOk b

theorem TPresS_refl (t : Tracker) : TPresS t t := fun hS => ⟨TPres_refl t, hS⟩

theorem TPresS_trans {a b c : Tracker} (h1 : TPresS a b) (h2 : TPresS b c) :
    TPresS a c := by
  intro hS
  obtain ⟨p1, s1⟩ := h1 hS
  obtain ⟨p2, s2⟩ := h2 s1
  exact ⟨TPres_trans p1 p2, s2⟩

theorem TPresS_of_eq {a b : Tracker} (hs : b.scopes = a.scopes)
    (hf : b.frames = a.frames) : TPresS a b :=
  fun hS => ⟨TPres_of_eq hs hf, StartOk_transfer a b hs hf hS⟩

theorem TPresS_get (t : Tracker) (k : ScopeDefinition) (s : Nat) (t2 : Tracker)
    (h : t.get k = some (s, t2)) : TPresS t t2 :=
  fun hS =>
    have hp := TPres_get t k s t2 h hS
    ⟨hp, StartOk_of hp hS⟩

theorem TPresS_newSsa (t : Tracker) : TPresS t (t.newSsa).2 := TPresS_of_eq rfl rfl

theorem TPresS_addEnv (t : Tracker) (env : LambdaEnv) :
    TPresS t (t.addLambdaEnv env).2 := TPresS_of_eq rfl rfl

theorem TPresS_bindFresh (t : Tracker) (vs : List HAVar) :
    TPresS t ((bindFreshVars t vs).2.2) :=
  TPresS_of_eq (bindFreshVars_scopes t vs) (bindFreshVars_frames t vs)

theorem TPresS_bindPats (t : Tracker) (ps : List HPattern) :
    TPresS t ((bindPatterns t ps).2.2) :=
  TPresS_of_eq (bindPatterns_scopes t ps) (bindPatterns_frames t ps)

theorem TPresS_bindAls (t : Tracker) (cs : List HClosure) (avs : List HAVar)
    (sc : Scope) (t2 : Tracker) (heq : bindAliases t cs = .ok (avs, sc, t2)) :
    TPresS t t2 :=
  TPresS_of_eq (bindAliases_scopes t cs avs sc t2 heq)
    (bindAliases_frames t cs avs sc t2 heq)

/-- A balanced scope pair: push a scope, run, pop it. -/
theorem TPresS_scoped {t1 : Tracker} (sc : Scope) {t3 t4 : Tracker}
    (hbody : TPresS (t1.pushScope sc) t3) (hpop : t3.popScope = .ok t4) :
    TPresS t1 t4 := by
  intro hS
  obtain ⟨pb, sb⟩ := hbody (StartOk_pushScope t1 sc hS)
  have hp := TPres_descope t1 sc t3 t4 pb hpop hS
  exact ⟨hp, StartOk_of hp hS⟩

/-- A balanced tracking pair: push a frame, run, pop it. -/
theorem TPresS_tracked {t : Tracker} {tA : Tracker} {m : List (ScopeDefinition × Nat)}
    {t5 : Tracker} (hbody : TPresS t.pushTracking tA)
    (hpop : tA.popTracking = .ok (m, t5)) : TPresS t t5 := by
  intro hS
  obtain ⟨pb, sb⟩ := hbody (StartOk_pushTracking t hS)
  have hp := (TPres_detrack t tA m t5 pb hpop).1
  exact ⟨hp, StartOk_of hp hS⟩

/-- Capture preservation across the seven pass functions at a given
fuel. -/
structure CapPres (fuel : Nat) : Prop where
  expr : ∀ t e r, assignExpr fuel t e = .ok r → TPresS t r.2
  singleList : ∀ t es r, assignSingleList fuel t es = .ok r → TPresS t r.2
  mapEntries : ∀ t es r, assignMapEntries fuel t es = .ok r → TPresS t r.2
  binElems : ∀ t es r, assignBinElems fuel t es = .ok r → TPresS t r.2
  clauses : ∀ t cs r, assignClauses fuel t cs = .ok r → TPresS t r.2
  closList : ∀ t als cs r, assignClosuresList fuel t als cs = .ok r → TPresS t r.2
  single : ∀ t e r, assignSingle fuel t e = .ok r → TPresS t r.2

theorem capPres_zero : CapPres 0 := by
  constructor
  · intro t e r heq; cases heq
  · intro t es r heq; cases heq
  · intro t es r heq; cases heq
  · intro t es r heq; cases heq
  · intro t cs r heq; cases heq
  · intro t als cs r heq; cases heq
  · intro t e r heq; cases heq

/-- The capture-evolution relation is preserved by every pass function:
the adaptation of the generic preservation proof to the balanced TPresS
relation. -/
theorem capPres_succ (fuel : Nat) (IH : CapPres fuel) : CapPres (fuel + 1) := by
  constructor
  · -- assignExpr
    intro t e r heq
    cases e with
    | mk values =>
      rw [assignExpr] at heq
      cases h1 : assignSingleList fuel t values with
      | error err => rw [h1] at heq; cases heq
      | ok p =>
        obtain ⟨vs, t1⟩ := p
        rw [h1] at heq
        dsimp only at heq
        simp only [Except.ok.injEq] at heq
        subst heq
        exact IH.singleList t values (vs, t1) h1
  · -- assignSingleList
    intro t es r heq
    cases es with
    | nil =>
      rw [assignSingleList] at heq
      simp only [Except.ok.injEq] at heq
      subst heq
      exact TPresS_refl t
    | cons e rest =>
      rw [assignSingleList] at heq
      cases h1 : assignSingle fuel t e with
      | error err => rw [h1] at heq; cases heq
      | ok p =>
        obtain ⟨e2, t1⟩ := p
        rw [h1] at heq
        dsimp only at heq
        cases h2 : assignSingleList fuel t1 rest with
        | error err => rw [h2] at heq; cases heq
        | ok q =>
          obtain ⟨rest2, t2⟩ := q
          rw [h2] at heq
          dsimp only at heq
          simp only [Except.ok.injEq] at heq
          subst heq
          exact TPresS_trans (IH.single t e (e2, t1) h1) (IH.singleList t1 rest (rest2, t2) h2)
  · -- assignMapEntries
    intro t es r heq
    cases es with
    | nil =>
      rw [assignMapEntries] at heq
      simp only [Except.ok.injEq] at heq
      subst heq
      exact TPresS_refl t
    | cons e rest =>
      cases e with
      | mk k v =>
        rw [assignMapEntries] at heq
        cases h1 : assignSingle fuel t k with
        | error err => rw [h1] at heq; cases heq
        | ok p =>
          obtain ⟨k2, t1⟩ := p
          rw [h1] at heq
          dsimp only at heq
          cases h2 : assignSingle fuel t1 v with
          | error err => rw [h2] at heq; cases heq
          | ok q =>
            obtain ⟨v2, t2⟩ := q
            rw [h2] at heq
            dsimp only at heq
            cases h3 : assignMapEntries fuel t2 rest with
            | error err => rw [h3] at heq; cases heq
            | ok w =>
              obtain ⟨rest2, t3⟩ := w
              rw [h3] at heq
              dsimp only at heq
              simp only [Except.ok.injEq] at heq
              subst heq
              exact TPresS_trans (IH.single t k (k2, t1) h1)
                (TPresS_trans (IH.single t1 v (v2, t2) h2)
                  (IH.mapEntries t2 rest (rest2, t3) h3))
  · -- assignBinElems
    intro t es r heq
    cases es with
    | nil =>
      rw [assignBinElems] at heq
      simp only [Except.ok.injEq] at heq
      subst heq
      exact TPresS_refl t
    | cons e rest =>
      cases e with
      | mk v opts =>
        rw [assignBinElems] at heq
        cases h1 : assignSingle fuel t v with
        | error err => rw [h1] at heq; cases heq
        | ok p =>
          obtain ⟨v2, t1⟩ := p
          rw [h1] at heq
          dsimp only at heq
          cases h2 : assignSingleList fuel t1 opts with
          | error err => rw [h2] at heq; cases heq
          | ok q =>
            obtain ⟨opts2, t2⟩ := q
            rw [h2] at heq
            dsimp only at heq
            cases h3 : assignBinElems fuel t2 rest with
            | error err => rw [h3] at heq; cases heq
            | ok w =>
              obtain ⟨rest2, t3⟩ := w
              rw [h3] at heq
              dsimp only at heq
              simp only [Except.ok.injEq] at heq
              subst heq
              exact TPresS_trans (IH.single t v (v2, t1) h1)
                (TPresS_trans (IH.singleList t1 opts (opts2, t2) h2)
                  (IH.binElems t2 rest (rest2, t3) h3))
  · -- assignClauses
    intro t cs r heq
    cases cs with
    | nil =>
      rw [assignClauses] at heq
      simp only [Except.ok.injEq] at heq
      subst heq
      exact TPresS_refl t
    | cons c rest =>
      cases c with
      | mk patterns guard body =>
        rw [assignClauses] at heq
        cases h1 : assignSingle fuel (((bindPatterns t patterns).2.2).pushScope
            (bindPatterns t patterns).2.1) guard with
        | error err => rw [h1] at heq; cases heq
        | ok p =>
          obtain ⟨g2, t3⟩ := p
          rw [h1] at heq
          dsimp only at heq
          cases h2 : assignSingle fuel t3 body with
          | error err => rw [h2] at heq; cases heq
          | ok q =>
            obtain ⟨b2, t4⟩ := q
            rw [h2] at heq
            dsimp only at heq
            cases h3 : t4.popScope with
            | error err => rw [h3] at heq; cases heq
            | ok t5 =>
              rw [h3] at heq
              dsimp only at heq
              cases h4 : assignClauses fuel t5 rest with
              | error err => rw [h4] at heq; cases heq
              | ok w =>
                obtain ⟨rest2, t6⟩ := w
                rw [h4] at heq
                dsimp only at heq
                simp only [Except.ok.injEq] at heq
                subst heq
                exact TPresS_trans (TPresS_bindPats t patterns)
                  (TPresS_trans
                    (TPresS_scoped (bindPatterns t patterns).2.1
                      (TPresS_trans (IH.single _ guard (g2, t3) h1)
                        (IH.single t3 body (b2, t4) h2)) h3)
                    (IH.clauses t5 rest (rest2, t6) h4))
  · -- assignClosuresList
    intro t als cs r heq
    cases cs with
    | nil =>
      rw [assignClosuresList.eq_def] at heq
      dsimp only at heq
      simp only [Except.ok.injEq] at heq
      subst heq
      exact TPresS_refl t
    | cons c rest =>
      cases c with
      | mk a fn env =>
        rw [assignClosuresList.eq_def] at heq
        cases fn with
        | none => cases heq
        | some f =>
          cases f with
          | mk args body =>
            dsimp only at heq
            cases h1 : assignSingle fuel (((bindFreshVars t args).2.2).pushScope
                (bindFreshVars t args).2.1) body with
            | error err => rw [h1] at heq; cases heq
            | ok p =>
              obtain ⟨b2, t3⟩ := p
              rw [h1] at heq
              dsimp only at heq
              cases h2 : t3.popScope with
              | error err => rw [h2] at heq; cases heq
              | ok t4 =>
                rw [h2] at heq
                dsimp only at heq
                cases h3 : assignClosuresList fuel t4 als.tail rest with
                | error err => rw [h3] at heq; cases heq
                | ok w =>
                  obtain ⟨rest2, t5⟩ := w
                  rw [h3] at heq
                  dsimp only at heq
                  simp only [Except.ok.injEq] at heq
                  subst heq
                  exact TPresS_trans (TPresS_bindFresh t args)
                    (TPresS_trans
                      (TPresS_scoped (bindFreshVars t args).2.1
                        (IH.single _ body (b2, t3) h1) h2)
                      (IH.closList t4 als.tail rest (rest2, t5) h3))
  · -- assignSingle
    intro t e r heq
    cases e with
    | mk ssa0 kind =>
      cases kind with
      | varExpr v =>
        rw [assignSingle.eq_def] at heq
        dsimp only at heq
        cases h1 : t.get (.varName v.var) with
        | none => rw [h1] at heq; cases heq
        | some p =>
          obtain ⟨ssa1, t1⟩ := p
          rw [h1] at heq
          dsimp only at heq
          simp only [Except.ok.injEq] at heq
          subst heq
          exact TPresS_get t _ ssa1 t1 h1
      | interModuleCall m nm args =>
        rw [assignSingle.eq_def] at heq
        dsimp only at heq
        cases h1 : assignSingle fuel t m with
        | error err => rw [h1] at heq; cases heq
        | ok p =>
          obtain ⟨m2, t1⟩ := p
          rw [h1] at heq
          dsimp only at heq
          cases h2 : assignSingle fuel t1 nm with
          | error err => rw [h2] at heq; cases heq
          | ok q =>
            obtain ⟨n2, t2⟩ := q
            rw [h2] at heq
            dsimp only at heq
            cases h3 : assignSingleList fuel t2 args with
            | error err => rw [h3] at heq; cases heq
            | ok w =>
              obtain ⟨args2, t3⟩ := w
              rw [h3] at heq
              dsimp only at heq
              simp only [Except.ok.injEq] at heq
              subst heq
              exact TPresS_trans (IH.single t m (m2, t1) h1)
                (TPresS_trans (IH.single t1 nm (n2, t2) h2)
                  (TPresS_trans (IH.singleList t2 args (args2, t3) h3) (TPresS_newSsa t3)))
      | letE val vars body =>
        rw [assignSingle.eq_def] at heq
        dsimp only at heq
        cases h1 : assignExpr fuel t val with
        | error err => rw [h1] at heq; cases heq
        | ok p =>
          obtain ⟨val2, t1⟩ := p
          rw [h1] at heq
          dsimp only at heq
          cases h2 : bindLetVars vars val2.valuesOf with
          | error err => rw [h2] at heq; cases heq
          | ok q =>
            obtain ⟨vars2, sc⟩ := q
            rw [h2] at heq
            dsimp only at heq
            cases h3 : assignSingle fuel (t1.pushScope sc) body with
            | error err => rw [h3] at heq; cases heq
            | ok w =>
              obtain ⟨body2, t3⟩ := w
              rw [h3] at heq
              dsimp only at heq
              cases h4 : t3.popScope with
              | error err => rw [h4] at heq; cases heq
              | ok t4 =>
                rw [h4] at heq
                dsimp only at heq
                simp only [Except.ok.injEq] at heq
                subst heq
                exact TPresS_trans (IH.expr t val (val2, t1) h1)
                  (TPresS_scoped sc (IH.single _ body (body2, t3) h3) h4)
      | applyCall f args =>
        rw [assignSingle.eq_def] at heq
        dsimp only at heq
        cases h1 : assignSingleList fuel t args with
        | error err => rw [h1] at heq; cases heq
        | ok p =>
          obtain ⟨args2, t1⟩ := p
          rw [h1] at heq
          dsimp only at heq
          cases h2 : assignSingle fuel t1 f with
          | error err => rw [h2] at heq; cases heq
          | ok q =>
            obtain ⟨f2, t2⟩ := q
            rw [h2] at heq
            dsimp only at heq
            simp only [Except.ok.injEq] at heq
            subst heq
            exact TPresS_trans (IH.singleList t args (args2, t1) h1)
              (TPresS_trans (IH.single t1 f (f2, t2) h2) (TPresS_newSsa t2))
      | tryE body thenVars thenB catchVars catchB =>
        rw [assignSingle.eq_def] at heq
        dsimp only at heq
        by_cases hc : body.valuesOf.length = thenVars.length
        · rw [if_pos hc] at heq
          cases h1 : assignExpr fuel t body with
          | error err => rw [h1] at heq; cases heq
          | ok p =>
            obtain ⟨body2, t1⟩ := p
            rw [h1] at heq
            dsimp only at heq
            cases h2 : bindLetVars thenVars body2.valuesOf with
            | error err => rw [h2] at heq; cases heq
            | ok q =>
              obtain ⟨thenVars2, sc⟩ := q
              rw [h2] at heq
              dsimp only at heq
              cases h3 : assignSingle fuel (t1.pushScope sc) thenB with
              | error err => rw [h3] at heq; cases heq
              | ok w =>
                obtain ⟨thenB2, t3⟩ := w
                rw [h3] at heq
                dsimp only at heq
                cases h4 : t3.popScope with
                | error err => rw [h4] at heq; cases heq
                | ok t4 =>
                  rw [h4] at heq
                  dsimp only at heq
                  cases h5 : assignSingle fuel
                      (((bindFreshVars t4 catchVars).2.2).pushScope
                        (bindFreshVars t4 catchVars).2.1) catchB with
                  | error err => rw [h5] at heq; cases heq
                  | ok w2 =>
                    obtain ⟨catchB2, t6⟩ := w2
                    rw [h5] at heq
                    dsimp only at heq
                    cases h6 : t6.popScope with
                    | error err => rw [h6] at heq; cases heq
                    | ok t7 =>
                      rw [h6] at heq
                      dsimp only at heq
                      simp only [Except.ok.injEq] at heq
                      subst heq
                      exact TPresS_trans (IH.expr t body (body2, t1) h1)
                        (TPresS_trans
                          (TPresS_scoped sc (IH.single _ thenB (thenB2, t3) h3) h4)
                          (TPresS_trans (TPresS_bindFresh t4 catchVars)
                            (TPresS_trans
                              (TPresS_scoped (bindFreshVars t4 catchVars).2.1
                                (IH.single _ catchB (catchB2, t6) h5) h6)
                              (TPresS_newSsa t7))))
        · rw [if_neg hc] at heq
          cases heq
      | caseE val clauses values =>
        rw [assignSingle.eq_def] at heq
        dsimp only at heq
        cases h1 : assignExpr fuel t val with
        | error err => rw [h1] at heq; cases heq
        | ok p =>
          obtain ⟨val2, t1⟩ := p
          rw [h1] at heq
          dsimp only at heq
          cases h2 : assignSingleList fuel t1 values with
          | error err => rw [h2] at heq; cases heq
          | ok q =>
            obtain ⟨values2, t2⟩ := q
            rw [h2] at heq
            dsimp only at heq
            cases h3 : assignClauses fuel t2 clauses with
            | error err => rw [h3] at heq; cases heq
            | ok w =>
              obtain ⟨clauses2, t3⟩ := w
              rw [h3] at heq
              dsimp only at heq
              simp only [Except.ok.injEq] at heq
              subst heq
              exact TPresS_trans (IH.expr t val (val2, t1) h1)
                (TPresS_trans (IH.singleList t1 values (values2, t2) h2)
                  (TPresS_trans (IH.clauses t2 clauses (clauses2, t3) h3) (TPresS_newSsa t3)))
      | atomic l =>
        rw [assignSingle.eq_def] at heq
        dsimp only at heq
        simp only [Except.ok.injEq] at heq
        subst heq
        exact TPresS_newSsa t
      | namedFunction name isL =>
        rw [assignSingle.eq_def] at heq
        dsimp only at heq
        cases h1 : t.get (.funName name.var) with
        | none =>
          rw [h1] at heq
          dsimp only at heq
          simp only [Except.ok.injEq] at heq
          subst heq
          exact TPresS_newSsa t
        | some p =>
          obtain ⟨ssa1, t1⟩ := p
          rw [h1] at heq
          dsimp only at heq
          simp only [Except.ok.injEq] at heq
          subst heq
          exact TPresS_get t _ ssa1 t1 h1
      | externalNamedFunction =>
        rw [assignSingle.eq_def] at heq
        dsimp only at heq
        simp only [Except.ok.injEq] at heq
        subst heq
        exact TPresS_newSsa t
      | tuple vals =>
        rw [assignSingle.eq_def] at heq
        dsimp only at heq
        cases h1 : assignSingleList fuel t vals with
        | error err => rw [h1] at heq; cases heq
        | ok p =>
          obtain ⟨vals2, t1⟩ := p
          rw [h1] at heq
          dsimp only at heq
          simp only [Except.ok.injEq] at heq
          subst heq
          exact TPresS_trans (IH.singleList t vals (vals2, t1) h1) (TPresS_newSsa t1)
      | listE head tl =>
        rw [assignSingle.eq_def] at heq
        dsimp only at heq
        cases h1 : assignSingleList fuel t head with
        | error err => rw [h1] at heq; cases heq
        | ok p =>
          obtain ⟨head2, t1⟩ := p
          rw [h1] at heq
          dsimp only at heq
          cases h2 : assignSingle fuel t1 tl with
          | error err => rw [h2] at heq; cases heq
          | ok q =>
            obtain ⟨tl2, t2⟩ := q
            rw [h2] at heq
            dsimp only at heq
            simp only [Except.ok.injEq] at heq
            subst heq
            exact TPresS_trans (IH.singleList t head (head2, t1) h1)
              (TPresS_trans (IH.single t1 tl (tl2, t2) h2) (TPresS_newSsa t2))
      | mapE values merge =>
        rw [assignSingle.eq_def] at heq
        dsimp only at heq
        cases h1 : assignMapEntries fuel t values with
        | error err => rw [h1] at heq; cases heq
        | ok p =>
          obtain ⟨values2, t1⟩ := p
          rw [h1] at heq
          cases merge with
          | none =>
            dsimp only at heq
            simp only [Except.ok.injEq] at heq
            subst heq
            exact TPresS_trans (IH.mapEntries t values (values2, t1) h1) (TPresS_newSsa t1)
          | some mexp =>
            dsimp only at heq
            cases h2 : assignSingle fuel t1 mexp with
            | error err => rw [h2] at heq; cases heq
            | ok q =>
              obtain ⟨m2, t2⟩ := q
              rw [h2] at heq
              dsimp only at heq
              simp only [Except.ok.injEq] at heq
              subst heq
              exact TPresS_trans (IH.mapEntries t values (values2, t1) h1)
                (TPresS_trans (IH.single t1 mexp (m2, t2) h2) (TPresS_newSsa t2))
      | binary elems =>
        rw [assignSingle.eq_def] at heq
        dsimp only at heq
        cases h1 : assignBinElems fuel t elems with
        | error err => rw [h1] at heq; cases heq
        | ok p =>
          obtain ⟨elems2, t1⟩ := p
          rw [h1] at heq
          dsimp only at heq
          simp only [Except.ok.injEq] at heq
          subst heq
          exact TPresS_trans (IH.binElems t elems (elems2, t1) h1) (TPresS_newSsa t1)
      | primOp args =>
        rw [assignSingle.eq_def] at heq
        dsimp only at heq
        cases h1 : assignSingleList fuel t args with
        | error err => rw [h1] at heq; cases heq
        | ok p =>
          obtain ⟨args2, t1⟩ := p
          rw [h1] at heq
          dsimp only at heq
          simp only [Except.ok.injEq] at heq
          subst heq
          exact TPresS_trans (IH.singleList t args (args2, t1) h1) (TPresS_newSsa t1)
      | doE e1 e2 =>
        rw [assignSingle.eq_def] at heq
        dsimp only at heq
        cases h1 : assignExpr fuel t e1 with
        | error err => rw [h1] at heq; cases heq
        | ok p =>
          obtain ⟨e12, t1⟩ := p
          rw [h1] at heq
          dsimp only at heq
          cases h2 : assignSingle fuel t1 e2 with
          | error err => rw [h2] at heq; cases heq
          | ok q =>
            obtain ⟨e22, t2⟩ := q
            rw [h2] at heq
            dsimp only at heq
            simp only [Except.ok.injEq] at heq
            subst heq
            exact TPresS_trans (IH.expr t e1 (e12, t1) h1) (IH.single t1 e2 (e22, t2) h2)
      | receive clauses patternValues tt tb =>
        rw [assignSingle.eq_def] at heq
        dsimp only at heq
        cases h1 : assignSingleList fuel t patternValues with
        | error err => rw [h1] at heq; cases heq
        | ok p =>
          obtain ⟨pv2, t1⟩ := p
          rw [h1] at heq
          dsimp only at heq
          cases h2 : assignClauses fuel t1 clauses with
          | error err => rw [h2] at heq; cases heq
          | ok q =>
            obtain ⟨cl2, t2⟩ := q
            rw [h2] at heq
            dsimp only at heq
            cases h3 : assignSingle fuel t2 tt with
            | error err => rw [h3] at heq; cases heq
            | ok w =>
              obtain ⟨tt2, t3⟩ := w
              rw [h3] at heq
              dsimp only at heq
              cases h4 : assignSingle fuel t3 tb with
              | error err => rw [h4] at heq; cases heq
              | ok w2 =>
                obtain ⟨tb2, t4⟩ := w2
                rw [h4] at heq
                dsimp only at heq
                simp only [Except.ok.injEq] at heq
                subst heq
                exact TPresS_trans (IH.singleList t patternValues (pv2, t1) h1)
                  (TPresS_trans (IH.clauses t1 clauses (cl2, t2) h2)
                    (TPresS_trans (IH.single t2 tt (tt2, t3) h3)
                      (TPresS_trans (IH.single t3 tb (tb2, t4) h4) (TPresS_newSsa t4))))
      | bindClosure closure lam envSsa =>
        rw [assignSingle.eq_def] at heq
        cases closure with
        | mk a fn envSlot =>
          cases fn with
          | none => cases heq
          | some f =>
            cases f with
            | mk args body =>
              dsimp only at heq
              cases h1 : assignSingle fuel
                  (((bindFreshVars t.pushTracking args).2.2).pushScope
                    (bindFreshVars t.pushTracking args).2.1) body with
              | error err => rw [h1] at heq; cases heq
              | ok p =>
                obtain ⟨body2, t3⟩ := p
                rw [h1] at heq
                dsimp only at heq
                cases h2 : t3.popScope with
                | error err => rw [h2] at heq; cases heq
                | ok t4 =>
                  rw [h2] at heq
                  dsimp only at heq
                  cases h3 : t4.popTracking with
                  | error err => rw [h3] at heq; cases heq
                  | ok w =>
                    obtain ⟨capturesMap, t5⟩ := w
                    rw [h3] at heq
                    dsimp only at heq
                    simp only [Except.ok.injEq] at heq
                    subst heq
                    exact TPresS_trans
                      (TPresS_tracked
                        (TPresS_trans (TPresS_bindFresh t.pushTracking args)
                          (TPresS_scoped (bindFreshVars t.pushTracking args).2.1
                            (IH.single _ body (body2, t3) h1) h2)) h3)
                      (TPresS_trans (TPresS_addEnv t5 _)
                        (TPresS_trans (TPresS_newSsa _) (TPresS_newSsa _)))
      | bindClosures closures body lam envSsa =>
        rw [assignSingle.eq_def] at heq
        dsimp only at heq
        cases h1 : bindAliases t closures with
        | error err => rw [h1] at heq; cases heq
        | ok p =>
          obtain ⟨aliases2, aliasSc, t1⟩ := p
          rw [h1] at heq
          dsimp only at heq
          cases h2 : assignClosuresList fuel ((t1.pushScope aliasSc).pushTracking)
              aliases2 closures with
          | error err => rw [h2] at heq; cases heq
          | ok q =>
            obtain ⟨closures3, t4⟩ := q
            rw [h2] at heq
            dsimp only at heq
            cases h3 : t4.popTracking with
            | error err => rw [h3] at heq; cases heq
            | ok w =>
              obtain ⟨capturesMap, t5⟩ := w
              rw [h3] at heq
              dsimp only at heq
              cases h4 : assignSingle fuel
                  ((t5.addLambdaEnv
                    { captures := capturesOfMap capturesMap, metaBinds := [] }).2) body with
              | error err => rw [h4] at heq; cases heq
              | ok w2 =>
                obtain ⟨body2, t7⟩ := w2
                rw [h4] at heq
                dsimp only at heq
                cases h5 : t7.popScope with
                | error err => rw [h5] at heq; cases heq
                | ok t8 =>
                  rw [h5] at heq
                  dsimp only at heq
                  simp only [Except.ok.injEq] at heq
                  subst heq
                  exact TPresS_trans (TPresS_bindAls t closures aliases2 aliasSc t1 h1)
                    (TPresS_trans
                      (TPresS_scoped aliasSc
                        (TPresS_trans
                          (TPresS_tracked
                            (IH.closList _ aliases2 closures (closures3, t4) h2) h3)
                          (TPresS_trans (TPresS_addEnv t5 _)
                            (IH.single _ body (body2, t7) h4))) h5)
                      (TPresS_trans (TPresS_newSsa _) (TPresS_newSsa _)))


theorem capPres_all (fuel : Nat) : CapPres fuel := by
  induction fuel with
  | zero => exact capPres_zero
  | succ fuel ih => exact capPres_succ fuel ih

/-- Keys of a scope, in scope order. -/
def keysOf (sc : Scope) : List ScopeDefinition := sc.map Prod.fst

/-- Claim-side shape of the key list pushed when a variable list is bound
(Let bindings, closure arguments, catch variables): one value-variable key
per source name. -/
def specVarKeys : List HAVar → List ScopeDefinition
  | [] => []
  | v :: vs => specVarKeys vs ++ [ScopeDefinition.varName v.var]

/-- Claim-side shape of the key list of one pattern's binds. -/
def specPatBindKeys : List (Nat × Nat) → List ScopeDefinition
  | [] => []
  | (v, _) :: bs => specPatBindKeys bs ++ [ScopeDefinition.varName v]

/-- Claim-side shape of the key list pushed for a clause's patterns. -/
def specPatKeys : List HPattern → List ScopeDefinition
  | [] => []
  | .mk binds :: ps => specPatKeys ps ++ specPatBindKeys binds

/-- Claim-side shape of the alias key list of a BindClosures group: one
function-kind key per member alias. -/
def specAliasKeys : List HClosure → List ScopeDefinition
  | [] => []
  | .mk none _ _ :: _ => []
  | .mk (some av) _ _ :: cs => specAliasKeys cs ++ [ScopeDefinition.funName av.var]

theorem keysOf_append (a b : Scope) : keysOf (a ++ b) = keysOf a ++ keysOf b :=
  List.map_append _ _ _

theorem keysOf_bindFreshVars (t : Tracker) (vs : List HAVar) :
    keysOf ((bindFreshVars t vs).2.1) = specVarKeys vs := by
  induction vs generalizing t with
  | nil => rfl
  | cons v vs ih =>
    simp only [bindFreshVars]
    rw [keysOf_append, ih (t.newSsa).2]
    rfl

theorem keysOf_bindLetVars :
    ∀ (vs : List HAVar) (es : List HSingle) (vs2 : List HAVar) (sc : Scope),
      bindLetVars vs es = .ok (vs2, sc) → keysOf sc = specVarKeys vs := by
  intro vs
  induction vs with
  | nil =>
    intro es vs2 sc h
    rw [bindLetVars] at h
    simp only [Except.ok.injEq, Prod.mk.injEq] at h
    rw [← h.2]
    rfl
  | cons v vs ih =>
    intro es vs2 sc h
    cases es with
    | nil =>
      rw [bindLetVars] at h
      cases h
    | cons e es =>
      rw [bindLetVars] at h
      cases h2 : bindLetVars vs es with
      | error err => rw [h2] at h; cases h
      | ok q =>
        obtain ⟨rest, sc0⟩ := q
        rw [h2] at h
        dsimp only at h
        simp only [Except.ok.injEq, Prod.mk.injEq] at h
        rw [← h.2, keysOf_append, ih es rest sc0 h2]
        rfl

theorem keysOf_bindPatternBinds (t : Tracker) (bs : List (Nat × Nat)) :
    keysOf ((bindPatternBinds t bs).2.1) = specPatBindKeys bs := by
  induction bs generalizing t with
  | nil => rfl
  | cons b bs ih =>
    obtain ⟨v, o⟩ := b
    simp only [bindPatternBinds]
    rw [keysOf_append, ih (t.newSsa).2]
    rfl

theorem keysOf_bindPatterns (t : Tracker) (ps : List HPattern) :
    keysOf ((bindPatterns t ps).2.1) = specPatKeys ps := by
  induction ps generalizing t with
  | nil => rfl
  | cons p ps ih =>
    cases p with
    | mk binds =>
      simp only [bindPatterns]
      rw [keysOf_append, ih (bindPatternBinds t binds).2.2, keysOf_bindPatternBinds]
      rfl

theorem keysOf_bindAliases (t : Tracker) (cs : List HClosure) (avs : List HAVar)
    (sc : Scope) (t2 : Tracker) (heq : bindAliases t cs = .ok (avs, sc, t2)) :
    keysOf sc = specAliasKeys cs := by
  induction cs generalizing t avs sc t2 with
  | nil =>
    simp only [bindAliases, Except.ok.injEq, Prod.mk.injEq] at heq
    rw [← heq.2.1]
    rfl
  | cons c cs ih =>
    cases c with
    | mk a fn env =>
      rw [bindAliases.eq_def] at heq
      dsimp only at heq
      cases a with
      | none => cases heq
      | some av =>
        dsimp only at heq
        cases h2 : bindAliases (Tracker.newSsa t).2 cs with
        | error err => rw [h2] at heq; cases heq
        | ok q =>
          obtain ⟨avs2, sc2, t3⟩ := q
          rw [h2] at heq
          dsimp only at heq
          simp only [Except.ok.injEq, Prod.mk.injEq] at heq
          rw [← heq.2.1, keysOf_append, ih (Tracker.newSsa t).2 avs2 sc2 t3 h2]
          rfl

theorem scopeFind_none_any (k : ScopeDefinition) :
    ∀ (sc : Scope), scopeFind sc k = none →
      (keysOf sc).any (fun k2 => k2 = k) = false := by
  intro sc
  induction sc with
  | nil => intro _; rfl
  | cons e rest ih =>
    obtain ⟨k2, v2⟩ := e
    intro h
    rw [scopeFind] at h
    by_cases he : k2 = k
    · rw [if_pos he] at h
      cases h
    · rw [if_neg he] at h
      simp only [keysOf, List.map_cons, List.any_cons]
      rw [keysOf] at ih
      rw [ih h, Bool.or_false]
      simp [he]

theorem scopeFind_some_any (k : ScopeDefinition) :
    ∀ (sc : Scope) (v : Nat), scopeFind sc k = some v →
      (keysOf sc).any (fun k2 => k2 = k) = true := by
  intro sc
  induction sc with
  | nil => intro v h; cases h
  | cons e rest ih =>
    obtain ⟨k2, v2⟩ := e
    intro v h
    rw [scopeFind] at h
    simp only [keysOf, List.map_cons, List.any_cons]
    by_cases he : k2 = k
    · simp [he]
    · rw [if_neg he] at h
      rw [keysOf] at ih
      rw [ih v h, Bool.or_true]

theorem lookupScopes_any_none (k : ScopeDefinition) :
    ∀ (L : List Scope), lookupScopes L k = none →
      (L.map keysOf).any (fun l2 => l2.any (fun k2 => k2 = k)) = false := by
  intro L
  induction L with
  | nil => intro _; rfl
  | cons sc rest ih =>
    intro h
    rw [lookupScopes] at h
    cases hf : scopeFind sc k with
    | some v => rw [hf] at h; cases h
    | none =>
      rw [hf] at h
      have hrest : lookupScopes rest k = none := by
        cases hr : lookupScopes rest k with
        | none => rfl
        | some p => rw [hr] at h; cases h
      simp only [List.map_cons, List.any_cons]
      rw [scopeFind_none_any k sc hf, ih hrest]
      rfl

theorem lookupScopes_any_some (k : ScopeDefinition) :
    ∀ (L : List Scope) (s i : Nat), lookupScopes L k = some (s, i) →
      (L.map keysOf).any (fun l2 => l2.any (fun k2 => k2 = k)) = true := by
  intro L
  induction L with
  | nil => intro s i h; cases h
  | cons sc rest ih =>
    intro s i h
    rw [lookupScopes] at h
    simp only [List.map_cons, List.any_cons]
    cases hf : scopeFind sc k with
    | some v => rw [scopeFind_some_any k sc v hf, Bool.true_or]
    | none =>
      rw [hf] at h
      cases hr : lookupScopes rest k with
      | none => rw [hr] at h; cases h
      | some p =>
        obtain ⟨s0, i0⟩ := p
        rw [ih s0 i0 hr, Bool.or_true]

theorem lookupScopes_take_some (k : ScopeDefinition) :
    ∀ (d : Nat) (L : List Scope) (s i : Nat),
      lookupScopes (L.take d) k = some (s, i) → lookupScopes L k = some (s, i) := by
  intro d
  induction d with
  | zero => intro L s i h; cases h
  | succ d ih =>
    intro L s i h
    cases L with
    | nil => cases h
    | cons sc rest =>
      rw [List.take_succ_cons] at h
      rw [lookupScopes] at h ⊢
      cases hf : scopeFind sc k with
      | some v =>
        rw [hf] at h
        exact h
      | none =>
        rw [hf] at h
        dsimp only at h ⊢
        cases hr : lookupScopes (rest.take d) k with
        | none => rw [hr] at h; cases h
        | some p =>
          obtain ⟨s0, i0⟩ := p
          rw [hr] at h
          rw [ih rest s0 i0 hr]
          exact h

theorem lookupScopes_take_none (k : ScopeDefinition) :
    ∀ (d : Nat) (L : List Scope),
      lookupScopes (L.take d) k = none →
      lookupScopes L k = (lookupScopes (L.drop d) k).map (fun p => (p.1, p.2 + d)) := by
  intro d
  induction d with
  | zero =>
    intro L _
    rw [List.drop_zero]
    cases hr : lookupScopes L k with
    | none => rfl
    | some p => rfl
  | succ d ih =>
    intro L h
    cases L with
    | nil => rfl
    | cons sc rest =>
      rw [List.take_succ_cons] at h
      rw [lookupScopes] at h ⊢
      cases hf : scopeFind sc k with
      | some v => rw [hf] at h; cases h
      | none =>
        rw [hf] at h
        dsimp only at h ⊢
        have hrest : lookupScopes (rest.take d) k = none := by
          cases hr : lookupScopes (rest.take d) k with
          | none => rfl
          | some p => rw [hr] at h; cases h
        rw [List.drop_succ_cons, ih rest hrest]
        cases hr2 : lookupScopes (rest.drop d) k with
        | none => rfl
        | some p =>
          obtain ⟨s0, i0⟩ := p
          dsimp only [Option.map]
          rw [Nat.add_assoc]

/-- The type of capture-list evolutions: given the enclosing (outer) scopes
of a tracking frame, the key lists of the scopes above it (innermost
first), and the capture list accumulated so far, produce the new capture
list. -/
def CapFun : Type :=
  List Scope → List (List ScopeDefinition) → List (ScopeDefinition × Nat) →
    List (ScopeDefinition × Nat)

/-- The no-op capture evolution. -/
def capId : CapFun := fun _ _ acc => acc

/-- Following the claim's words: the effect of one Variable reference on a
capture list.  A function-kind reference is never captured.  A value
reference whose name is bound in a scope above the frame (the binders
inside the closure) resolves inside and is not captured; otherwise, if it
resolves in the enclosing scopes, it is recorded once — at its first
encounter — with the SSA name it resolves to. -/
def specCapRef : ScopeDefinition → CapFun
  | .funName _ => capId
  | .varName nm => fun o top acc =>
    if top.any (fun l2 => l2.any (fun k2 => k2 = ScopeDefinition.varName nm)) then acc
    else
      match lookupScopes o (ScopeDefinition.varName nm) with
      | some p =>
        if acc.any (fun p => p.1 = ScopeDefinition.varName nm) then acc
        else acc ++ [(ScopeDefinition.varName nm, p.1)]
      | none => acc

mutual

/-- Following the claim's words: the capture list contributed by the
Variable references of a single expression, collected in evaluation order
with first-encounter deduplication, where a reference is captured exactly
when it is not shadowed by a binder inside the closure (the key-list
context) and resolves in the enclosing scopes. -/
def specCapSingle : Nat → HSingle → CapFun
  | 0, _ => capId
  | fuel + 1, .mk _ kind => fun o top acc =>
    match kind with
    | .varExpr v => specCapRef (.varName v.var) o top acc
    | .interModuleCall m n args =>
      specCapList fuel args o top (specCapSingle fuel n o top (specCapSingle fuel m o top acc))
    | .letE val vars body =>
      specCapSingle fuel body o (specVarKeys vars :: top) (specCapExpr fuel val o top acc)
    | .applyCall f args => specCapSingle fuel f o top (specCapList fuel args o top acc)
    | .tryE body thenVars thenB catchVars catchB =>
      specCapSingle fuel catchB o (specVarKeys catchVars :: top)
        (specCapSingle fuel thenB o (specVarKeys thenVars :: top)
          (specCapExpr fuel body o top acc))
    | .caseE val clauses values =>
      specCapClauses fuel clauses o top
        (specCapList fuel values o top (specCapExpr fuel val o top acc))
    | .atomic _ => acc
    | .namedFunction _ _ => acc
    | .externalNamedFunction => acc
    | .tuple vals => specCapList fuel vals o top acc
    | .listE head tl => specCapSingle fuel tl o top (specCapList fuel head o top acc)
    | .mapE values merge =>
      match merge with
      | none => specCapEntries fuel values o top acc
      | some mexp => specCapSingle fuel mexp o top (specCapEntries fuel values o top acc)
    | .binary elems => specCapBins fuel elems o top acc
    | .primOp args => specCapList fuel args o top acc
    | .doE e1 e2 => specCapSingle fuel e2 o top (specCapExpr fuel e1 o top acc)
    | .receive clauses patternValues tt tb =>
      specCapSingle fuel tb o top
        (specCapSingle fuel tt o top
          (specCapClauses fuel clauses o top (specCapList fuel patternValues o top acc)))
    | .bindClosure closure _ _ =>
      match closure with
      | .mk _ fn _ =>
        match fn with
        | none => acc
        | some (.mk args body) =>
          specCapSingle fuel body o (specVarKeys args :: top) acc
    | .bindClosures closures body _ _ =>
      specCapSingle fuel body o (specAliasKeys closures :: top)
        (specCapClosures fuel closures o (specAliasKeys closures :: top) acc)

/-- Reference collection over a multi-value expression. -/
def specCapExpr : Nat → HExpr → CapFun
  | 0, _ => capId
  | fuel + 1, .mk values => specCapList fuel values

/-- Reference collection over an expression list, left to right. -/
def specCapList : Nat → List HSingle → CapFun
  | 0, _ => capId
  | _ + 1, [] => capId
  | fuel + 1, e :: rest => fun o top acc =>
    specCapList fuel rest o top (specCapSingle fuel e o top acc)

/-- Reference collection over map entries (key then value). -/
def specCapEntries : Nat → List HMapEntry → CapFun
  | 0, _ => capId
  | _ + 1, [] => capId
  | fuel + 1, .mk k v :: rest => fun o top acc =>
    specCapEntries fuel rest o top (specCapSingle fuel v o top (specCapSingle fuel k o top acc))

/-- Reference collection over binary elements (value then options). -/
def specCapBins : Nat → List HBinElem → CapFun
  | 0, _ => capId
  | _ + 1, [] => capId
  | fuel + 1, .mk v opts :: rest => fun o top acc =>
    specCapBins fuel rest o top (specCapList fuel opts o top (specCapSingle fuel v o top acc))

/-- Reference collection over clauses: guard and body are collected under
the clause's pattern-bind keys. -/
def specCapClauses : Nat → List HClause → CapFun
  | 0, _ => capId
  | _ + 1, [] => capId
  | fuel + 1, .mk patterns guard body :: rest => fun o top acc =>
    specCapClauses fuel rest o top
      (specCapSingle fuel body o (specPatKeys patterns :: top)
        (specCapSingle fuel guard o (specPatKeys patterns :: top) acc))

/-- Reference collection over the members of a closure group: each body is
collected under its own argument keys. -/
def specCapClosures : Nat → List HClosure → CapFun
  | 0, _ => capId
  | _ + 1, [] => capId
  | fuel + 1, .mk _ fn _ :: rest => fun o top acc =>
    match fn with
    | none => acc
    | some (.mk args body) =>
      specCapClosures fuel rest o top
        (specCapSingle fuel body o (specVarKeys args :: top) acc)

end

/-- The exact capture-evolution relation of a balanced tracker run: on top
of the balanced-run relation, every initially present frame's capture list
evolves exactly by the given capture evolution, applied to the frame's
static scope split (the enclosing scopes below its start, and the key
lists of the scopes above it). -/
def ECap (a b : Tracker) (f : CapFun) : Prop :=
  StartOk a → TPres a b ∧ StartOk b ∧
    ∀ i fr fr2, a.frames.reverse.get? i = some fr → b.frames.reverse.get? i = some fr2 →
      fr2.captures =
        f (a.scopes.drop (a.scopes.length - fr.start))
          ((a.scopes.take (a.scopes.length - fr.start)).map keysOf) fr.captures

theorem ECap_refl (t : Tracker) : ECap t t capId := by
  intro hS
  refine ⟨TPres_refl t, hS, ?_⟩
  intro i fr fr2 h1 h2
  rw [h1] at h2
  cases h2
  rfl

theorem ECap_of_eq {a b : Tracker} (hs : b.scopes = a.scopes) (hf : b.frames = a.frames) :
    ECap a b capId := by
  intro hS
  refine ⟨TPres_of_eq hs hf, StartOk_transfer a b hs hf hS, ?_⟩
  intro i fr fr2 h1 h2
  rw [hf, h1] at h2
  cases h2
  rfl

theorem ECap_newSsa (t : Tracker) : ECap t (t.newSsa).2 capId := ECap_of_eq rfl rfl

theorem ECap_addEnv (t : Tracker) (env : LambdaEnv) :
    ECap t (t.addLambdaEnv env).2 capId := ECap_of_eq rfl rfl

theorem ECap_bindFresh (t : Tracker) (vs : List HAVar) :
    ECap t ((bindFreshVars t vs).2.2) capId :=
  ECap_of_eq (bindFreshVars_scopes t vs) (bindFreshVars_frames t vs)

theorem ECap_bindPats (t : Tracker) (ps : List HPattern) :
    ECap t ((bindPatterns t ps).2.2) capId :=
  ECap_of_eq (bindPatterns_scopes t ps) (bindPatterns_frames t ps)

theorem ECap_bindAls (t : Tracker) (cs : List HClosure) (avs : List HAVar)
    (sc : Scope) (t2 : Tracker) (heq : bindAliases t cs = .ok (avs, sc, t2)) :
    ECap t t2 capId :=
  ECap_of_eq (bindAliases_scopes t cs avs sc t2 heq) (bindAliases_frames t cs avs sc t2 heq)

theorem ECap_trans {a b c : Tracker} {f g : CapFun} (h1 : ECap a b f) (h2 : ECap b c g) :
    ECap a c (fun o top acc => g o top (f o top acc)) := by
  intro hS
  obtain ⟨p1, s1, e1⟩ := h1 hS
  obtain ⟨p2, s2, e2⟩ := h2 s1
  refine ⟨TPres_trans p1 p2, s2, ?_⟩
  intro i fr fr2 ha hc
  obtain ⟨hiA, _⟩ := List.get?_eq_some.mp ha
  have hiB : i < b.frames.reverse.length := by
    rw [List.length_reverse] at hiA ⊢
    rw [p1.2.1]
    exact hiA
  cases hm : b.frames.reverse.get? i with
  | none =>
    rw [List.get?_eq_none] at hm
    omega
  | some frm =>
    have hq1 := e1 i fr frm ha hm
    have hq2 := e2 i frm fr2 hm hc
    have hst : frm.start = fr.start := (p1.2.2 i fr frm ha hm).1
    rw [hq2, hst, p1.1, hq1]

/-- A balanced scope pair evolves captures exactly by the body's evolution
with the pushed scope's keys added to the inner context. -/
theorem ECap_scoped {t1 : Tracker} (sc : Scope) {t3 t4 : Tracker} {f : CapFun}
    (hbody : ECap (t1.pushScope sc) t3 f) (hpop : t3.popScope = .ok t4) :
    ECap t1 t4 (fun o top acc => f o (keysOf sc :: top) acc) := by
  intro hS
  obtain ⟨pb, sb, eb⟩ := hbody (StartOk_pushScope t1 sc hS)
  have hp := TPres_descope t1 sc t3 t4 pb hpop hS
  refine ⟨hp, StartOk_of hp hS, ?_⟩
  intro i fr fr2 h1 h2
  rw [Tracker.popScope] at hpop
  rw [pb.1] at hpop
  dsimp only [Tracker.pushScope] at hpop
  cases hpop
  have hb := eb i fr fr2 h1 h2
  have hstart : fr.start ≤ t1.scopes.length := hS fr (List.mem_reverse.mp (List.get?_mem h1))
  dsimp only [Tracker.pushScope] at hb
  have harith : (sc :: t1.scopes).length - fr.start = (t1.scopes.length - fr.start) + 1 := by
    simp only [List.length_cons]
    omega
  rw [harith, List.drop_succ_cons, List.take_succ_cons, List.map_cons] at hb
  exact hb

/-- A balanced tracking pair: the lower frames evolve by the body's
evolution unchanged, and the closed frame's capture map is exactly the
body's evolution started from the empty list with an empty inner
context. -/
theorem ECap_tracked {t tA : Tracker} {m : List (ScopeDefinition × Nat)} {t5 : Tracker}
    {f : CapFun} (hbody : ECap t.pushTracking tA f) (hpop : tA.popTracking = .ok (m, t5)) :
    ECap t t5 f ∧ (StartOk t → m = f t.scopes [] []) := by
  constructor
  · intro hS
    obtain ⟨pb, sb, eb⟩ := hbody (StartOk_pushTracking t hS)
    have hp := (TPres_detrack t tA m t5 pb hpop).1
    refine ⟨hp, StartOk_of hp hS, ?_⟩
    intro i fr fr2 h1 h2
    rw [Tracker.popTracking] at hpop
    cases hA : tA.frames with
    | nil => rw [hA] at hpop; cases hpop
    | cons frTop rest =>
      rw [hA] at hpop
      dsimp only at hpop
      cases hpop
      obtain ⟨hi0, _⟩ := List.get?_eq_some.mp h1
      rw [List.length_reverse] at hi0
      have hgA : (t.pushTracking).frames.reverse.get? i = some fr := by
        rw [Tracker.pushTracking]
        dsimp only
        rw [List.reverse_cons, List.get?_append (by rw [List.length_reverse]; exact hi0)]
        exact h1
      have hlen : rest.length = t.frames.length := by
        have hl2 := pb.2.1
        rw [hA] at hl2
        simpa [Tracker.pushTracking] using hl2
      have hgB : tA.frames.reverse.get? i = some fr2 := by
        rw [hA, List.reverse_cons,
          List.get?_append (by rw [List.length_reverse, hlen]; exact hi0)]
        exact h2
      exact eb i fr fr2 hgA hgB
  · intro hS
    obtain ⟨pb, sb, eb⟩ := hbody (StartOk_pushTracking t hS)
    rw [Tracker.popTracking] at hpop
    cases hA : tA.frames with
    | nil => rw [hA] at hpop; cases hpop
    | cons frTop rest =>
      rw [hA] at hpop
      dsimp only at hpop
      cases hpop
      have hlen : rest.length = t.frames.length := by
        have hl2 := pb.2.1
        rw [hA] at hl2
        simpa [Tracker.pushTracking] using hl2
      have hgA : (t.pushTracking).frames.reverse.get? t.frames.length =
          some { start := t.scopes.length, captures := [] } := by
        rw [Tracker.pushTracking]
        dsimp only
        rw [List.reverse_cons, List.get?_append_right (by rw [List.length_reverse])]
        rw [List.length_reverse]
        simp
      have hgB : tA.frames.reverse.get? t.frames.length = some frTop := by
        rw [hA, List.reverse_cons,
          List.get?_append_right (by rw [List.length_reverse, hlen])]
        rw [List.length_reverse, hlen]
        simp
      have hcap := eb _ _ _ hgA hgB
      dsimp only [Tracker.pushTracking] at hcap
      rw [Nat.sub_self, List.drop_zero, List.take_zero, List.map_nil] at hcap
      exact hcap

theorem ECap_tracked1 {t tA : Tracker} {m : List (ScopeDefinition × Nat)} {t5 : Tracker}
    {f : CapFun} (hbody : ECap t.pushTracking tA f) (hpop : tA.popTracking = .ok (m, t5)) :
    ECap t t5 f :=
  (ECap_tracked hbody hpop).1

/-- A tracker lookup evolves every frame's capture list exactly by the
one-reference evolution of the looked-up key. -/
theorem ECap_get (t : Tracker) (k : ScopeDefinition) (s : Nat) (t2 : Tracker)
    (h : t.get k = some (s, t2)) : ECap t t2 (specCapRef k) := by
  intro hS
  have hps := TPres_get t k s t2 h hS
  refine ⟨hps, StartOk_of hps hS, ?_⟩
  rw [Tracker.get] at h
  cases hl : lookupScopes t.scopes k with
  | none => rw [hl] at h; cases h
  | some p =>
    obtain ⟨ssa, idxTop⟩ := p
    rw [hl] at h
    dsimp only at h
    cases h
    intro i fr fr2 h1 h2
    rw [← List.map_reverse, List.get?_map, h1] at h2
    cases h2
    have hmem : fr ∈ t.frames := List.mem_reverse.mp (List.get?_mem h1)
    have hstart : fr.start ≤ t.scopes.length := hS fr hmem
    have hidx : idxTop < t.scopes.length := lookupScopes_index_lt _ _ _ _ hl
    dsimp only
    rw [Frame.register.eq_def]
    cases k with
    | funName nm => rfl
    | varName nm =>
      by_cases hdep : t.scopes.length - 1 - idxTop < fr.start
      · rw [if_pos hdep]
        have htake : lookupScopes
            (t.scopes.take (t.scopes.length - fr.start)) (ScopeDefinition.varName nm) =
            none := by
          cases hT : lookupScopes (t.scopes.take (t.scopes.length - fr.start))
              (ScopeDefinition.varName nm) with
          | none => rfl
          | some q =>
            obtain ⟨s3, i3⟩ := q
            have hfull := lookupScopes_take_some _ _ _ _ _ hT
            rw [hl] at hfull
            simp only [Option.some.injEq, Prod.mk.injEq] at hfull
            have hlt := lookupScopes_index_lt _ _ _ _ hT
            rw [List.length_take] at hlt
            omega
        have hdrop := lookupScopes_take_none _ (t.scopes.length - fr.start) t.scopes htake
        rw [hl] at hdrop
        cases hr : lookupScopes (t.scopes.drop (t.scopes.length - fr.start))
            (ScopeDefinition.varName nm) with
        | none => rw [hr] at hdrop; cases hdrop
        | some q =>
          obtain ⟨s2, j⟩ := q
          rw [hr] at hdrop
          dsimp only [Option.map] at hdrop
          simp only [Option.some.injEq, Prod.mk.injEq] at hdrop
          have hanyF := lookupScopes_any_none (ScopeDefinition.varName nm) _ htake
          have hRHS : specCapRef (ScopeDefinition.varName nm)
              (t.scopes.drop (t.scopes.length - fr.start))
              ((t.scopes.take (t.scopes.length - fr.start)).map keysOf) fr.captures =
              if fr.captures.any (fun p => p.1 = ScopeDefinition.varName nm) then
                fr.captures
              else fr.captures ++ [(ScopeDefinition.varName nm, s2)] := by
            simp only [specCapRef]
            rw [if_neg (by rw [hanyF]; simp), hr]
          rw [hRHS, ← hdrop.1]
          by_cases hdup : fr.captures.any
              (fun p => p.1 = ScopeDefinition.varName nm) = true
          · rw [if_pos hdup, if_pos hdup]
          · rw [if_neg hdup, if_neg hdup]
      · rw [if_neg hdep]
        have htake : ∃ s3 i3, lookupScopes
            (t.scopes.take (t.scopes.length - fr.start)) (ScopeDefinition.varName nm) =
            some (s3, i3) := by
          cases hT : lookupScopes (t.scopes.take (t.scopes.length - fr.start))
              (ScopeDefinition.varName nm) with
          | some q => exact ⟨q.1, q.2, rfl⟩
          | none =>
            exfalso
            have hdrop := lookupScopes_take_none _ (t.scopes.length - fr.start) t.scopes hT
            rw [hl] at hdrop
            cases hr : lookupScopes (t.scopes.drop (t.scopes.length - fr.start))
                (ScopeDefinition.varName nm) with
            | none => rw [hr] at hdrop; cases hdrop
            | some q =>
              obtain ⟨s2, j⟩ := q
              rw [hr] at hdrop
              dsimp only [Option.map] at hdrop
              simp only [Option.some.injEq, Prod.mk.injEq] at hdrop
              have hjlt := lookupScopes_index_lt _ _ _ _ hr
              rw [List.length_drop] at hjlt
              omega
        obtain ⟨s3, i3, hT⟩ := htake
        have hany := lookupScopes_any_some (ScopeDefinition.varName nm) _ _ _ hT
        simp only [specCapRef]
        rw [if_pos hany]

/-- Exact capture preservation across the seven pass functions at a given
fuel: every successful run evolves each tracking frame's capture list by
exactly the claim-side reference collection of the processed syntax. -/
structure CapPresE (fuel : Nat) : Prop where
  expr : ∀ t e r, assignExpr fuel t e = .ok r → ECap t r.2 (specCapExpr fuel e)
  singleList : ∀ t es r, assignSingleList fuel t es = .ok r → ECap t r.2 (specCapList fuel es)
  mapEntries : ∀ t es r, assignMapEntries fuel t es = .ok r → ECap t r.2 (specCapEntries fuel es)
  binElems : ∀ t es r, assignBinElems fuel t es = .ok r → ECap t r.2 (specCapBins fuel es)
  clauses : ∀ t cs r, assignClauses fuel t cs = .ok r → ECap t r.2 (specCapClauses fuel cs)
  closList : ∀ t als cs r, assignClosuresList fuel t als cs = .ok r →
    ECap t r.2 (specCapClosures fuel cs)
  single : ∀ t e r, assignSingle fuel t e = .ok r → ECap t r.2 (specCapSingle fuel e)

theorem capPresE_zero : CapPresE 0 := by
  constructor
  · intro t e r heq; cases heq
  · intro t es r heq; cases heq
  · intro t es r heq; cases heq
  · intro t es r heq; cases heq
  · intro t cs r heq; cases heq
  · intro t als cs r heq; cases heq
  · intro t e r heq; cases heq

/-- The exact capture-evolution relation is preserved by every pass
function: the step case of the induction on fuel. -/
theorem capPresE_succ (fuel : Nat) (IH : CapPresE fuel) : CapPresE (fuel + 1) := by
  constructor
  · -- assignExpr
    intro t e r heq
    cases e with
    | mk values =>
      rw [assignExpr] at heq
      cases h1 : assignSingleList fuel t values with
      | error err => rw [h1] at heq; cases heq
      | ok p =>
        obtain ⟨vs, t1⟩ := p
        rw [h1] at heq
        dsimp only at heq
        simp only [Except.ok.injEq] at heq
        subst heq
        exact IH.singleList t values (vs, t1) h1
  · -- assignSingleList
    intro t es r heq
    cases es with
    | nil =>
      rw [assignSingleList] at heq
      simp only [Except.ok.injEq] at heq
      subst heq
      exact ECap_refl t
    | cons e rest =>
      rw [assignSingleList] at heq
      cases h1 : assignSingle fuel t e with
      | error err => rw [h1] at heq; cases heq
      | ok p =>
        obtain ⟨e2, t1⟩ := p
        rw [h1] at heq
        dsimp only at heq
        cases h2 : assignSingleList fuel t1 rest with
        | error err => rw [h2] at heq; cases heq
        | ok q =>
          obtain ⟨rest2, t2⟩ := q
          rw [h2] at heq
          dsimp only at heq
          simp only [Except.ok.injEq] at heq
          subst heq
          have hcomp := ECap_trans (IH.single t e (e2, t1) h1) (IH.singleList t1 rest (rest2, t2) h2)
          exact hcomp
  · -- assignMapEntries
    intro t es r heq
    cases es with
    | nil =>
      rw [assignMapEntries] at heq
      simp only [Except.ok.injEq] at heq
      subst heq
      exact ECap_refl t
    | cons e rest =>
      cases e with
      | mk k v =>
        rw [assignMapEntries] at heq
        cases h1 : assignSingle fuel t k with
        | error err => rw [h1] at heq; cases heq
        | ok p =>
          obtain ⟨k2, t1⟩ := p
          rw [h1] at heq
          dsimp only at heq
          cases h2 : assignSingle fuel t1 v with
          | error err => rw [h2] at heq; cases heq
          | ok q =>
            obtain ⟨v2, t2⟩ := q
            rw [h2] at heq
            dsimp only at heq
            cases h3 : assignMapEntries fuel t2 rest with
            | error err => rw [h3] at heq; cases heq
            | ok w =>
              obtain ⟨rest2, t3⟩ := w
              rw [h3] at heq
              dsimp only at heq
              simp only [Except.ok.injEq] at heq
              subst heq
              have hcomp := ECap_trans (IH.single t k (k2, t1) h1)
                (ECap_trans (IH.single t1 v (v2, t2) h2)
                  (IH.mapEntries t2 rest (rest2, t3) h3))
              exact hcomp
  · -- assignBinElems
    intro t es r heq
    cases es with
    | nil =>
      rw [assignBinElems] at heq
      simp only [Except.ok.injEq] at heq
      subst heq
      exact ECap_refl t
    | cons e rest =>
      cases e with
      | mk v opts =>
        rw [assignBinElems] at heq
        cases h1 : assignSingle fuel t v with
        | error err => rw [h1] at heq; cases heq
        | ok p =>
          obtain ⟨v2, t1⟩ := p
          rw [h1] at heq
          dsimp only at heq
          cases h2 : assignSingleList fuel t1 opts with
          | error err => rw [h2] at heq; cases heq
          | ok q =>
            obtain ⟨opts2, t2⟩ := q
            rw [h2] at heq
            dsimp only at heq
            cases h3 : assignBinElems fuel t2 rest with
            | error err => rw [h3] at heq; cases heq
            | ok w =>
              obtain ⟨rest2, t3⟩ := w
              rw [h3] at heq
              dsimp only at heq
              simp only [Except.ok.injEq] at heq
              subst heq
              have hcomp := ECap_trans (IH.single t v (v2, t1) h1)
                (ECap_trans (IH.singleList t1 opts (opts2, t2) h2)
                  (IH.binElems t2 rest (rest2, t3) h3))
              exact hcomp
  · -- assignClauses
    intro t cs r heq
    cases cs with
    | nil =>
      rw [assignClauses] at heq
      simp only [Except.ok.injEq] at heq
      subst heq
      exact ECap_refl t
    | cons c rest =>
      cases c with
      | mk patterns guard body =>
        rw [assignClauses] at heq
        cases h1 : assignSingle fuel (((bindPatterns t patterns).2.2).pushScope
            (bindPatterns t patterns).2.1) guard with
        | error err => rw [h1] at heq; cases heq
        | ok p =>
          obtain ⟨g2, t3⟩ := p
          rw [h1] at heq
          dsimp only at heq
          cases h2 : assignSingle fuel t3 body with
          | error err => rw [h2] at heq; cases heq
          | ok q =>
            obtain ⟨b2, t4⟩ := q
            rw [h2] at heq
            dsimp only at heq
            cases h3 : t4.popScope with
            | error err => rw [h3] at heq; cases heq
            | ok t5 =>
              rw [h3] at heq
              dsimp only at heq
              cases h4 : assignClauses fuel t5 rest with
              | error err => rw [h4] at heq; cases heq
              | ok w =>
                obtain ⟨rest2, t6⟩ := w
                rw [h4] at heq
                dsimp only at heq
                simp only [Except.ok.injEq] at heq
                subst heq
                have hsc := ECap_scoped (bindPatterns t patterns).2.1
                  (ECap_trans (IH.single _ guard (g2, t3) h1)
                    (IH.single t3 body (b2, t4) h2)) h3
                rw [keysOf_bindPatterns t patterns] at hsc
                have hcomp := ECap_trans (ECap_bindPats t patterns)
                  (ECap_trans hsc (IH.clauses t5 rest (rest2, t6) h4))
                exact hcomp
  · -- assignClosuresList
    intro t als cs r heq
    cases cs with
    | nil =>
      rw [assignClosuresList.eq_def] at heq
      dsimp only at heq
      simp only [Except.ok.injEq] at heq
      subst heq
      exact ECap_refl t
    | cons c rest =>
      cases c with
      | mk a fn env =>
        rw [assignClosuresList.eq_def] at heq
        cases fn with
        | none => cases heq
        | some f =>
          cases f with
          | mk args body =>
            dsimp only at heq
            cases h1 : assignSingle fuel (((bindFreshVars t args).2.2).pushScope
                (bindFreshVars t args).2.1) body with
            | error err => rw [h1] at heq; cases heq
            | ok p =>
              obtain ⟨b2, t3⟩ := p
              rw [h1] at heq
              dsimp only at heq
              cases h2 : t3.popScope with
              | error err => rw [h2] at heq; cases heq
              | ok t4 =>
                rw [h2] at heq
                dsimp only at heq
                cases h3 : assignClosuresList fuel t4 als.tail rest with
                | error err => rw [h3] at heq; cases heq
                | ok w =>
                  obtain ⟨rest2, t5⟩ := w
                  rw [h3] at heq
                  dsimp only at heq
                  simp only [Except.ok.injEq] at heq
                  subst heq
                  have hsc := ECap_scoped (bindFreshVars t args).2.1
                    (IH.single _ body (b2, t3) h1) h2
                  rw [keysOf_bindFreshVars t args] at hsc
                  have hcomp := ECap_trans (ECap_bindFresh t args)
                    (ECap_trans hsc (IH.closList t4 als.tail rest (rest2, t5) h3))
                  exact hcomp
  · -- assignSingle
    intro t e r heq
    cases e with
    | mk ssa0 kind =>
      cases kind with
      | varExpr v =>
        rw [assignSingle.eq_def] at heq
        dsimp only at heq
        cases h1 : t.get (.varName v.var) with
        | none => rw [h1] at heq; cases heq
        | some p =>
          obtain ⟨ssa1, t1⟩ := p
          rw [h1] at heq
          dsimp only at heq
          simp only [Except.ok.injEq] at heq
          subst heq
          exact ECap_get t _ ssa1 t1 h1
      | interModuleCall m nm args =>
        rw [assignSingle.eq_def] at heq
        dsimp only at heq
        cases h1 : assignSingle fuel t m with
        | error err => rw [h1] at heq; cases heq
        | ok p =>
          obtain ⟨m2, t1⟩ := p
          rw [h1] at heq
          dsimp only at heq
          cases h2 : assignSingle fuel t1 nm with
          | error err => rw [h2] at heq; cases heq
          | ok q =>
            obtain ⟨n2, t2⟩ := q
            rw [h2] at heq
            dsimp only at heq
            cases h3 : assignSingleList fuel t2 args with
            | error err => rw [h3] at heq; cases heq
            | ok w =>
              obtain ⟨args2, t3⟩ := w
              rw [h3] at heq
              dsimp only at heq
              simp only [Except.ok.injEq] at heq
              subst heq
              have hcomp := ECap_trans (IH.single t m (m2, t1) h1)
                (ECap_trans (IH.single t1 nm (n2, t2) h2)
                  (ECap_trans (IH.singleList t2 args (args2, t3) h3) (ECap_newSsa t3)))
              exact hcomp
      | letE val vars body =>
        rw [assignSingle.eq_def] at heq
        dsimp only at heq
        cases h1 : assignExpr fuel t val with
        | error err => rw [h1] at heq; cases heq
        | ok p =>
          obtain ⟨val2, t1⟩ := p
          rw [h1] at heq
          dsimp only at heq
          cases h2 : bindLetVars vars val2.valuesOf with
          | error err => rw [h2] at heq; cases heq
          | ok q =>
            obtain ⟨vars2, sc⟩ := q
            rw [h2] at heq
            dsimp only at heq
            cases h3 : assignSingle fuel (t1.pushScope sc) body with
            | error err => rw [h3] at heq; cases heq
            | ok w =>
              obtain ⟨body2, t3⟩ := w
              rw [h3] at heq
              dsimp only at heq
              cases h4 : t3.popScope with
              | error err => rw [h4] at heq; cases heq
              | ok t4 =>
                rw [h4] at heq
                dsimp only at heq
                simp only [Except.ok.injEq] at heq
                subst heq
                have hsc := ECap_scoped sc (IH.single _ body (body2, t3) h3) h4
                rw [keysOf_bindLetVars vars val2.valuesOf vars2 sc h2] at hsc
                have hcomp := ECap_trans (IH.expr t val (val2, t1) h1) hsc
                exact hcomp
      | applyCall f args =>
        rw [assignSingle.eq_def] at heq
        dsimp only at heq
        cases h1 : assignSingleList fuel t args with
        | error err => rw [h1] at heq; cases heq
        | ok p =>
          obtain ⟨args2, t1⟩ := p
          rw [h1] at heq
          dsimp only at heq
          cases h2 : assignSingle fuel t1 f with
          | error err => rw [h2] at heq; cases heq
          | ok q =>
            obtain ⟨f2, t2⟩ := q
            rw [h2] at heq
            dsimp only at heq
            simp only [Except.ok.injEq] at heq
            subst heq
            have hcomp := ECap_trans (IH.singleList t args (args2, t1) h1)
              (ECap_trans (IH.single t1 f (f2, t2) h2) (ECap_newSsa t2))
            exact hcomp
      | tryE body thenVars thenB catchVars catchB =>
        rw [assignSingle.eq_def] at heq
        dsimp only at heq
        by_cases hc : body.valuesOf.length = thenVars.length
        · rw [if_pos hc] at heq
          cases h1 : assignExpr fuel t body with
          | error err => rw [h1] at heq; cases heq
          | ok p =>
            obtain ⟨body2, t1⟩ := p
            rw [h1] at heq
            dsimp only at heq
            cases h2 : bindLetVars thenVars body2.valuesOf with
            | error err => rw [h2] at heq; cases heq
            | ok q =>
              obtain ⟨thenVars2, sc⟩ := q
              rw [h2] at heq
              dsimp only at heq
              cases h3 : assignSingle fuel (t1.pushScope sc) thenB with
              | error err => rw [h3] at heq; cases heq
              | ok w =>
                obtain ⟨thenB2, t3⟩ := w
                rw [h3] at heq
                dsimp only at heq
                cases h4 : t3.popScope with
                | error err => rw [h4] at heq; cases heq
                | ok t4 =>
                  rw [h4] at heq
                  dsimp only at heq
                  cases h5 : assignSingle fuel
                      (((bindFreshVars t4 catchVars).2.2).pushScope
                        (bindFreshVars t4 catchVars).2.1) catchB with
                  | error err => rw [h5] at heq; cases heq
                  | ok w2 =>
                    obtain ⟨catchB2, t6⟩ := w2
                    rw [h5] at heq
                    dsimp only at heq
                    cases h6 : t6.popScope with
                    | error err => rw [h6] at heq; cases heq
                    | ok t7 =>
                      rw [h6] at heq
                      dsimp only at heq
                      simp only [Except.ok.injEq] at heq
                      subst heq
                      have hsc1 := ECap_scoped sc (IH.single _ thenB (thenB2, t3) h3) h4
                      rw [keysOf_bindLetVars thenVars body2.valuesOf thenVars2 sc h2] at hsc1
                      have hsc2 := ECap_scoped (bindFreshVars t4 catchVars).2.1
                        (IH.single _ catchB (catchB2, t6) h5) h6
                      rw [keysOf_bindFreshVars t4 catchVars] at hsc2
                      have hcomp := ECap_trans (IH.expr t body (body2, t1) h1)
                        (ECap_trans hsc1
                          (ECap_trans (ECap_bindFresh t4 catchVars)
                            (ECap_trans hsc2 (ECap_newSsa t7))))
                      exact hcomp
        · rw [if_neg hc] at heq
          cases heq
      | caseE val clauses values =>
        rw [assignSingle.eq_def] at heq
        dsimp only at heq
        cases h1 : assignExpr fuel t val with
        | error err => rw [h1] at heq; cases heq
        | ok p =>
          obtain ⟨val2, t1⟩ := p
          rw [h1] at heq
          dsimp only at heq
          cases h2 : assignSingleList fuel t1 values with
          | error err => rw [h2] at heq; cases heq
          | ok q =>
            obtain ⟨values2, t2⟩ := q
            rw [h2] at heq
            dsimp only at heq
            cases h3 : assignClauses fuel t2 clauses with
            | error err => rw [h3] at heq; cases heq
            | ok w =>
              obtain ⟨clauses2, t3⟩ := w
              rw [h3] at heq
              dsimp only at heq
              simp only [Except.ok.injEq] at heq
              subst heq
              have hcomp := ECap_trans (IH.expr t val (val2, t1) h1)
                (ECap_trans (IH.singleList t1 values (values2, t2) h2)
                  (ECap_trans (IH.clauses t2 clauses (clauses2, t3) h3) (ECap_newSsa t3)))
              exact hcomp
      | atomic l =>
        rw [assignSingle.eq_def] at heq
        dsimp only at heq
        simp only [Except.ok.injEq] at heq
        subst heq
        exact ECap_newSsa t
      | namedFunction name isL =>
        rw [assignSingle.eq_def] at heq
        dsimp only at heq
        cases h1 : t.get (.funName name.var) with
        | none =>
          rw [h1] at heq
          dsimp only at heq
          simp only [Except.ok.injEq] at heq
          subst heq
          exact ECap_newSsa t
        | some p =>
          obtain ⟨ssa1, t1⟩ := p
          rw [h1] at heq
          dsimp only at heq
          simp only [Except.ok.injEq] at heq
          subst heq
          exact ECap_get t _ ssa1 t1 h1
      | externalNamedFunction =>
        rw [assignSingle.eq_def] at heq
        dsimp only at heq
        simp only [Except.ok.injEq] at heq
        subst heq
        exact ECap_newSsa t
      | tuple vals =>
        rw [assignSingle.eq_def] at heq
        dsimp only at heq
        cases h1 : assignSingleList fuel t vals with
        | error err => rw [h1] at heq; cases heq
        | ok p =>
          obtain ⟨vals2, t1⟩ := p
          rw [h1] at heq
          dsimp only at heq
          simp only [Except.ok.injEq] at heq
          subst heq
          have hcomp := ECap_trans (IH.singleList t vals (vals2, t1) h1) (ECap_newSsa t1)
          exact hcomp
      | listE head tl =>
        rw [assignSingle.eq_def] at heq
        dsimp only at heq
        cases h1 : assignSingleList fuel t head with
        | error err => rw [h1] at heq; cases heq
        | ok p =>
          obtain ⟨head2, t1⟩ := p
          rw [h1] at heq
          dsimp only at heq
          cases h2 : assignSingle fuel t1 tl with
          | error err => rw [h2] at heq; cases heq
          | ok q =>
            obtain ⟨tl2, t2⟩ := q
            rw [h2] at heq
            dsimp only at heq
            simp only [Except.ok.injEq] at heq
            subst heq
            have hcomp := ECap_trans (IH.singleList t head (head2, t1) h1)
              (ECap_trans (IH.single t1 tl (tl2, t2) h2) (ECap_newSsa t2))
            exact hcomp
      | mapE values merge =>
        rw [assignSingle.eq_def] at heq
        dsimp only at heq
        cases h1 : assignMapEntries fuel t values with
        | error err => rw [h1] at heq; cases heq
        | ok p =>
          obtain ⟨values2, t1⟩ := p
          rw [h1] at heq
          cases merge with
          | none =>
            dsimp only at heq
            simp only [Except.ok.injEq] at heq
            subst heq
            have hcomp := ECap_trans (IH.mapEntries t values (values2, t1) h1) (ECap_newSsa t1)
            exact hcomp
          | some mexp =>
            dsimp only at heq
            cases h2 : assignSingle fuel t1 mexp with
            | error err => rw [h2] at heq; cases heq
            | ok q =>
              obtain ⟨m2, t2⟩ := q
              rw [h2] at heq
              dsimp only at heq
              simp only [Except.ok.injEq] at heq
              subst heq
              have hcomp := ECap_trans (IH.mapEntries t values (values2, t1) h1)
                (ECap_trans (IH.single t1 mexp (m2, t2) h2) (ECap_newSsa t2))
              exact hcomp
      | binary elems =>
        rw [assignSingle.eq_def] at heq
        dsimp only at heq
        cases h1 : assignBinElems fuel t elems with
        | error err => rw [h1] at heq; cases heq
        | ok p =>
          obtain ⟨elems2, t1⟩ := p
          rw [h1] at heq
          dsimp only at heq
          simp only [Except.ok.injEq] at heq
          subst heq
          have hcomp := ECap_trans (IH.binElems t elems (elems2, t1) h1) (ECap_newSsa t1)
          exact hcomp
      | primOp args =>
        rw [assignSingle.eq_def] at heq
        dsimp only at heq
        cases h1 : assignSingleList fuel t args with
        | error err => rw [h1] at heq; cases heq
        | ok p =>
          obtain ⟨args2, t1⟩ := p
          rw [h1] at heq
          dsimp only at heq
          simp only [Except.ok.injEq] at heq
          subst heq
          have hcomp := ECap_trans (IH.singleList t args (args2, t1) h1) (ECap_newSsa t1)
          exact hcomp
      | doE e1 e2 =>
        rw [assignSingle.eq_def] at heq
        dsimp only at heq
        cases h1 : assignExpr fuel t e1 with
        | error err => rw [h1] at heq; cases heq
        | ok p =>
          obtain ⟨e12, t1⟩ := p
          rw [h1] at heq
          dsimp only at heq
          cases h2 : assignSingle fuel t1 e2 with
          | error err => rw [h2] at heq; cases heq
          | ok q =>
            obtain ⟨e22, t2⟩ := q
            rw [h2] at heq
            dsimp only at heq
            simp only [Except.ok.injEq] at heq
            subst heq
            have hcomp := ECap_trans (IH.expr t e1 (e12, t1) h1) (IH.single t1 e2 (e22, t2) h2)
            exact hcomp
      | receive clauses patternValues tt tb =>
        rw [assignSingle.eq_def] at heq
        dsimp only at heq
        cases h1 : assignSingleList fuel t patternValues with
        | error err => rw [h1] at heq; cases heq
        | ok p =>
          obtain ⟨pv2, t1⟩ := p
          rw [h1] at heq
          dsimp only at heq
          cases h2 : assignClauses fuel t1 clauses with
          | error err => rw [h2] at heq; cases heq
          | ok q =>
            obtain ⟨cl2, t2⟩ := q
            rw [h2] at heq
            dsimp only at heq
            cases h3 : assignSingle fuel t2 tt with
            | error err => rw [h3] at heq; cases heq
            | ok w =>
              obtain ⟨tt2, t3⟩ := w
              rw [h3] at heq
              dsimp only at heq
              cases h4 : assignSingle fuel t3 tb with
              | error err => rw [h4] at heq; cases heq
              | ok w2 =>
                obtain ⟨tb2, t4⟩ := w2
                rw [h4] at heq
                dsimp only at heq
                simp only [Except.ok.injEq] at heq
                subst heq
                have hcomp := ECap_trans (IH.singleList t patternValues (pv2, t1) h1)
                  (ECap_trans (IH.clauses t1 clauses (cl2, t2) h2)
                    (ECap_trans (IH.single t2 tt (tt2, t3) h3)
                      (ECap_trans (IH.single t3 tb (tb2, t4) h4) (ECap_newSsa t4))))
                exact hcomp
      | bindClosure closure lam envSsa =>
        rw [assignSingle.eq_def] at heq
        cases closure with
        | mk a fn envSlot =>
          cases fn with
          | none => cases heq
          | some f =>
            cases f with
            | mk args body =>
              dsimp only at heq
              cases h1 : assignSingle fuel
                  (((bindFreshVars t.pushTracking args).2.2).pushScope
                    (bindFreshVars t.pushTracking args).2.1) body with
              | error err => rw [h1] at heq; cases heq
              | ok p =>
                obtain ⟨body2, t3⟩ := p
                rw [h1] at heq
                dsimp only at heq
                cases h2 : t3.popScope with
                | error err => rw [h2] at heq; cases heq
                | ok t4 =>
                  rw [h2] at heq
                  dsimp only at heq
                  cases h3 : t4.popTracking with
                  | error err => rw [h3] at heq; cases heq
                  | ok w =>
                    obtain ⟨capturesMap, t5⟩ := w
                    rw [h3] at heq
                    dsimp only at heq
                    simp only [Except.ok.injEq] at heq
                    subst heq
                    have hsc := ECap_scoped (bindFreshVars t.pushTracking args).2.1
                      (IH.single _ body (body2, t3) h1) h2
                    rw [keysOf_bindFreshVars t.pushTracking args] at hsc
                    have hcomp := ECap_trans
                      (ECap_tracked1
                        (ECap_trans (ECap_bindFresh t.pushTracking args) hsc) h3)
                      (ECap_trans (ECap_addEnv t5
                          { captures := capturesOfMap capturesMap, metaBinds := [] })
                        (ECap_trans
                          (ECap_newSsa (t5.addLambdaEnv
                            { captures := capturesOfMap capturesMap, metaBinds := [] }).2)
                          (ECap_newSsa ((t5.addLambdaEnv
                            { captures := capturesOfMap capturesMap,
                              metaBinds := [] }).2.newSsa).2)))
                    exact hcomp
      | bindClosures closures body lam envSsa =>
        rw [assignSingle.eq_def] at heq
        dsimp only at heq
        cases h1 : bindAliases t closures with
        | error err => rw [h1] at heq; cases heq
        | ok p =>
          obtain ⟨aliases2, aliasSc, t1⟩ := p
          rw [h1] at heq
          dsimp only at heq
          cases h2 : assignClosuresList fuel ((t1.pushScope aliasSc).pushTracking)
              aliases2 closures with
          | error err => rw [h2] at heq; cases heq
          | ok q =>
            obtain ⟨closures3, t4⟩ := q
            rw [h2] at heq
            dsimp only at heq
            cases h3 : t4.popTracking with
            | error err => rw [h3] at heq; cases heq
            | ok w =>
              obtain ⟨capturesMap, t5⟩ := w
              rw [h3] at heq
              dsimp only at heq
              cases h4 : assignSingle fuel
                  ((t5.addLambdaEnv
                    { captures := capturesOfMap capturesMap, metaBinds := [] }).2) body with
              | error err => rw [h4] at heq; cases heq
              | ok w2 =>
                obtain ⟨body2, t7⟩ := w2
                rw [h4] at heq
                dsimp only at heq
                cases h5 : t7.popScope with
                | error err => rw [h5] at heq; cases heq
                | ok t8 =>
                  rw [h5] at heq
                  dsimp only at heq
                  simp only [Except.ok.injEq] at heq
                  subst heq
                  have hsc := ECap_scoped aliasSc
                    (ECap_trans
                      (ECap_tracked1
                        (IH.closList _ aliases2 closures (closures3, t4) h2) h3)
                      (ECap_trans (ECap_addEnv t5
                          { captures := capturesOfMap capturesMap, metaBinds := [] })
                        (IH.single _ body (body2, t7) h4))) h5
                  rw [keysOf_bindAliases t closures aliases2 aliasSc t1 h1] at hsc
                  have hcomp := ECap_trans (ECap_bindAls t closures aliases2 aliasSc t1 h1)
                    (ECap_trans hsc
                      (ECap_trans (ECap_newSsa t8) (ECap_newSsa (t8.newSsa).2)))
                  exact hcomp



theorem capPresE_all (fuel : Nat) : CapPresE fuel := by
  induction fuel with
  | zero => exact capPresE_zero
  | succ fuel ih => exact capPresE_succ fuel ih

/-- C6 (amended): for a single BindClosure the stored lambda env is
capturesOfMap of exactly the claim-side capture list of the closure's own
body: the Variable references of the body collected in evaluation order at
first encounter, keeping those that are not shadowed by a binder inside
the closure (the argument scope or any binder of the body) and that
resolve through the enclosing scope stack — outside the closure — each
recorded with the SSA name it resolves to.  Consequently every entry is a
value-variable key (never a function name) resolving in the enclosing
scopes to the recorded SSA, each name appears at most once, and the stored
capture indices are dense from zero in list order (the entry at position i
carries index i).  For a BindClosures group the env is shared by the whole
group (see the counterexample), so per-member exactness fails there. -/
theorem closure_capture_list_characterization
    (fuel : Nat) (t : Tracker) (s0 : Nat) (a : Option HAVar) (args : List HAVar)
    (body : HSingle) (envSlot lam : Option Nat) (envSsa : Nat) (e2 : HSingle)
    (t2 : Tracker)
    (heq : assignSingle (fuel + 1) t
      (.mk s0 (.bindClosure (.mk a (some (.mk args body)) envSlot) lam envSsa)) =
      .ok (e2, t2))
    (hS : StartOk t) :
    ∃ m args2 body2 envIdx sE sB,
      e2 = HSingle.mk sB (.bindClosure (.mk a (some (.mk args2 body2)) (some envIdx))
        (some envIdx) sE) ∧
      t2.envs.get? envIdx = some { captures := capturesOfMap m, metaBinds := [] } ∧
      m = specCapSingle fuel body t.scopes [specVarKeys args] [] ∧
      (∀ p, p ∈ m → (∃ nm, p.1 = ScopeDefinition.varName nm) ∧
        ∃ i, lookupScopes t.scopes p.1 = some (p.2, i)) ∧
      (m.map Prod.fst).Nodup ∧
      (∀ i p, (capturesOfMap m).get? i = some p →
        p.2.2 = i ∧ m.get? i = some (p.1, p.2.1)) := by
  rw [assignSingle.eq_def] at heq
  dsimp only at heq
  cases h1 : assignSingle fuel
      (((bindFreshVars t.pushTracking args).2.2).pushScope
        (bindFreshVars t.pushTracking args).2.1) body with
  | error err => rw [h1] at heq; cases heq
  | ok p =>
    obtain ⟨body2, t3⟩ := p
    rw [h1] at heq
    dsimp only at heq
    cases h2 : t3.popScope with
    | error err => rw [h2] at heq; cases heq
    | ok t4 =>
      rw [h2] at heq
      dsimp only at heq
      cases h3 : t4.popTracking with
      | error err => rw [h3] at heq; cases heq
      | ok w =>
        obtain ⟨capturesMap, t5⟩ := w
        rw [h3] at heq
        dsimp only at heq
        cases heq
        have hbodyS : TPresS t.pushTracking t4 :=
          TPresS_trans (TPresS_bindFresh t.pushTracking args)
            (TPresS_scoped (bindFreshVars t.pushTracking args).2.1
              ((capPres_all fuel).single _ body (body2, t3) h1) h2)
        have hTP : TPres t.pushTracking t4 := (hbodyS (StartOk_pushTracking t hS)).1
        have hdet := TPres_detrack t t4 capturesMap t5 hTP h3
        have hscE := ECap_scoped (bindFreshVars t.pushTracking args).2.1
          ((capPresE_all fuel).single _ body (body2, t3) h1) h2
        rw [keysOf_bindFreshVars t.pushTracking args] at hscE
        have hm := (ECap_tracked
          (ECap_trans (ECap_bindFresh t.pushTracking args) hscE) h3).2 hS
        refine ⟨capturesMap, _, _, t5.envs.length, _, _, rfl, ?_, hm, ?_, hdet.2.2, ?_⟩
        · exact get_append_length t5.envs _ []
        · intro p hp
          obtain ⟨hv, i0, ho⟩ := hdet.2.1 p hp
          rw [Nat.sub_self, List.drop_zero] at ho
          exact ⟨hv, i0, ho⟩
        · intro i p hget
          rw [capturesOfMap, List.get?_map, List.get?_enum] at hget
          cases hm : capturesMap.get? i with
          | none => rw [hm] at hget; cases hget
          | some q =>
            obtain ⟨k0, s0b⟩ := q
            rw [hm] at hget
            cases hget
            exact ⟨rfl, rfl⟩

mutual

/-- Definition following the claim's words, not the source: the names of
the Variable references occurring syntactically in a single expression. -/
def specVarRefs : Nat → HSingle → List Nat
  | 0, _ => []
  | fuel + 1, .mk _ k => specVarRefsKind fuel k

/-- Claim-side reference collector over expression kinds. -/
def specVarRefsKind : Nat → HKind → List Nat
  | 0, _ => []
  | fuel + 1, k =>
    match k with
    | .varExpr v => [v.var]
    | .interModuleCall m n args =>
      specVarRefs fuel m ++ specVarRefs fuel n ++ specVarRefsList fuel args
    | .letE val _ body => specVarRefsExpr fuel val ++ specVarRefs fuel body
    | .applyCall f args => specVarRefs fuel f ++ specVarRefsList fuel args
    | .tryE body _ thenB _ catchB =>
      specVarRefsExpr fuel body ++ specVarRefs fuel thenB ++ specVarRefs fuel catchB
    | .caseE val clauses values =>
      specVarRefsExpr fuel val ++ specVarRefsClauses fuel clauses ++
        specVarRefsList fuel values
    | .atomic _ => []
    | .namedFunction _ _ => []
    | .externalNamedFunction => []
    | .tuple vals => specVarRefsList fuel vals
    | .listE head tl => specVarRefsList fuel head ++ specVarRefs fuel tl
    | .mapE values merge =>
      specVarRefsEntries fuel values ++
        (match merge with | some m => specVarRefs fuel m | none => [])
    | .binary elems => specVarRefsBins fuel elems
    | .primOp args => specVarRefsList fuel args
    | .doE e1 e2 => specVarRefsExpr fuel e1 ++ specVarRefs fuel e2
    | .receive clauses pv tt tb =>
      specVarRefsClauses fuel clauses ++ specVarRefsList fuel pv ++
        specVarRefs fuel tt ++ specVarRefs fuel tb
    | .bindClosure c _ _ => specVarRefsClosure fuel c
    | .bindClosures cs body _ _ =>
      specVarRefsClosures fuel cs ++ specVarRefs fuel body

/-- Claim-side reference collector over multi-value expressions. -/
def specVarRefsExpr : Nat → HExpr → List Nat
  | 0, _ => []
  | fuel + 1, .mk vs => specVarRefsList fuel vs

/-- Claim-side reference collector over expression lists. -/
def specVarRefsList : Nat → List HSingle → List Nat
  | 0, _ => []
  | _ + 1, [] => []
  | fuel + 1, e :: rest => specVarRefs fuel e ++ specVarRefsList fuel rest

/-- Claim-side reference collector over map entries. -/
def specVarRefsEntries : Nat → List HMapEntry → List Nat
  | 0, _ => []
  | _ + 1, [] => []
  | fuel + 1, .mk k v :: rest =>
    specVarRefs fuel k ++ specVarRefs fuel v ++ specVarRefsEntries fuel rest

/-- Claim-side reference collector over binary elements. -/
def specVarRefsBins : Nat → List HBinElem → List Nat
  | 0, _ => []
  | _ + 1, [] => []
  | fuel + 1, .mk v opts :: rest =>
    specVarRefs fuel v ++ specVarRefsList fuel opts ++ specVarRefsBins fuel rest

/-- Claim-side reference collector over clauses. -/
def specVarRefsClauses : Nat → List HClause → List Nat
  | 0, _ => []
  | _ + 1, [] => []
  | fuel + 1, .mk _ g b :: rest =>
    specVarRefs fuel g ++ specVarRefs fuel b ++ specVarRefsClauses fuel rest

/-- Claim-side reference collector over a closure's body. -/
def specVarRefsClosure : Nat → HClosure → List Nat
  | 0, _ => []
  | fuel + 1, .mk _ fn _ =>
    match fn with
    | some (.mk _ b) => specVarRefs fuel b
    | none => []

/-- Claim-side reference collector over closure lists. -/
def specVarRefsClosures : Nat → List HClosure → List Nat
  | 0, _ => []
  | _ + 1, [] => []
  | fuel + 1, c :: rest => specVarRefsClosure fuel c ++ specVarRefsClosures fuel rest

end

/-- Tracker of the C6 counterexample: an outer scope binding the value
variable named 30 to SSA 7, no active frames. -/
def c6Tracker : Tracker :=
  { scopes := [[(ScopeDefinition.varName 30, 7)]], frames := [], counter := 0, envs := [] }

/-- First closure of the counterexample group: its body references the
outer variable 30. -/
def c6F : HClosure :=
  HClosure.mk (some ⟨20, 0⟩) (some (.mk [] (.mk 0 (.varExpr ⟨30, 0⟩)))) none

/-- Second closure of the group: its body is a literal with no Variable
references at all. -/
def c6G : HClosure :=
  HClosure.mk (some ⟨21, 0⟩) (some (.mk [] (.mk 0 (.atomic 99)))) none

/-- Counterexample for C6 as stated: in a BindClosures group the single
shared tracking frame is stored as the lambda env of every member, so the
second closure's stored capture list contains the variable 30 captured by
its sibling, although its own body (the literal 99) contains no Variable
reference at all — the stored list is not exactly the references of that
closure's body. -/
theorem group_member_env_has_foreign_capture :
    ∃ f2 t2,
      assignSingle 10 c6Tracker
        (.mk 0 (.bindClosures [c6F, c6G] (.mk 0 (.atomic 1)) none 0)) =
        .ok (.mk 5 (.bindClosures
          [f2, HClosure.mk (some ⟨21, 1⟩) (some (HFun.mk [] (.mk 2 (.atomic 99))))
            (some 0)]
          (.mk 3 (.atomic 1)) (some 0) 4), t2) ∧
      t2.envs.get? 0 =
        some { captures := [(ScopeDefinition.varName 30, 7, 0)], metaBinds := [] } ∧
      specVarRefs 10 (.mk 2 (.atomic 99)) = [] ∧
      ∃ p, p ∈ [(ScopeDefinition.varName 30, (7 : Nat), (0 : Nat))] ∧
        ∀ nm, nm ∈ specVarRefs 10 (.mk 2 (.atomic 99)) →
          ¬ p.1 = ScopeDefinition.varName nm :=
  ⟨_, _, rfl, rfl, rfl, (ScopeDefinition.varName 30, 7, 0), by decide, by
    intro nm hnm
    simp only [show specVarRefs 10 (.mk 2 (.atomic 99)) = [] from rfl] at hnm
    exact absurd hnm (List.not_mem_nil nm)⟩

/-- Witness for C6: the amended theorem applied to a concrete closure whose
body references the outer variable 30 under one closure argument. -/
theorem closure_capture_list_characterization_witness :
    ∃ e2 t2,
      assignSingle 5 c6Tracker
        (.mk 0 (.bindClosure
          (.mk none (some (.mk [⟨40, 0⟩] (.mk 0 (.varExpr ⟨30, 0⟩)))) none) none 0)) =
        .ok (e2, t2) ∧
      ∃ m args2 body2 envIdx sE sB,
        e2 = HSingle.mk sB (.bindClosure
          (.mk none (some (.mk args2 body2)) (some envIdx)) (some envIdx) sE) ∧
        t2.envs.get? envIdx = some { captures := capturesOfMap m, metaBinds := [] } ∧
        m = specCapSingle 4 (.mk 0 (.varExpr ⟨30, 0⟩)) c6Tracker.scopes
          [specVarKeys [⟨40, 0⟩]] [] ∧
        (∀ p, p ∈ m → (∃ nm, p.1 = ScopeDefinition.varName nm) ∧
          ∃ i, lookupScopes c6Tracker.scopes p.1 = some (p.2, i)) ∧
        (m.map Prod.fst).Nodup ∧
        (∀ i p, (capturesOfMap m).get? i = some p →
          p.2.2 = i ∧ m.get? i = some (p.1, p.2.1)) := by
  refine ⟨_, _, rfl, ?_⟩
  exact closure_capture_list_characterization 4 c6Tracker 0 none [⟨40, 0⟩]
    (.mk 0 (.varExpr ⟨30, 0⟩)) none none 0 _ _ rfl (by intro fr h; cases h)
